import Mathlib

/-!
A verification development for the nginx-style memory pool `Nginx_mem`.

Source: `src/mem_pool/nginx_pool/nginx_mem.h` and `nginx_mem.cpp`.

The embedding:

* Pointers and `size_t` values are natural numbers below `2 ^ 64` (LP64); the
  null pointer is `0`.  Pointer arithmetic wraps modulo `2 ^ 64`, and the
  comparison `p->d.end - m >= size` is the unsigned one the compiler
  performs (the `ptrdiff_t` difference is converted to `size_t`).
* The three linked chains (blocks through `d.next`, the large registry through
  `next`, the cleanup chain through `next`) are lists of their nodes in link
  order.  `current` is the position in the block chain of the block it points to.
* The contents of memory handed out to callers are not modelled, and a store of
  the pool into a header, a registry node or a cleanup entry changes that object of
  the list model and no other.  The model is the code in the pool states where the
  block headers, the registry nodes and the cleanup entries that are linked occupy
  pairwise disjoint memory which no later allocation has been given.  The code
  itself leaves these states in two ways.  After the overrun of C1 (a size given to
  `ngx_create_pool` that is not a multiple of `NGX_ALIGNMENT`) a block hands out
  memory past its `end`, which can be the header of another block or a node, and the
  stores `large->alloc`, `large->next`, `c->data`, `c->handler`, `c->next` and the
  `memset` of `ngx_pcalloc` then write into that header or node.  After
  `ngx_reset_pool` the cleanup entries stay linked while their memory is handed out
  again.  For this reason a statement that is to hold of the code is made about one
  call on a given pool state; the runs of the model are evaluated only as far as
  the addresses they return, which do not depend on the contents of memory.
* `malloc`, `free` and the calls of cleanup handlers act on a `Sys` value: the
  system allocator with the list of addresses the environment is going to
  propose, the allocations that are live, and the trace of events so far.
-/

namespace NgxPool

/-! ## Constants of the LP64 data model -/

/-- Modulus of `uintptr_t` and `size_t`. -/
def WORD : Nat := 2 ^ 64

/-- Modulus of `u_int`. -/
def UINT : Nat := 2 ^ 32

/-- Constructor initialiser `NGX_ALIGNMENT(sizeof(unsigned long))`. -/
def NGX_ALIGNMENT : Nat := 8

/-- Constructor initialiser `NGX_MAX_ALLOC_FROM_POOL(4095)`. -/
def NGX_MAX_ALLOC_FROM_POOL : Nat := 4095

/-- Value of `sizeof(ngx_pool_data)`: two pointers, a pointer, a `u_int`, padding. -/
def SIZEOF_POOL_DATA : Nat := 32

/-- Value of `sizeof(ngx_pool)`: the data part, `max` with padding, three pointers. -/
def SIZEOF_POOL : Nat := 64

/-- Value of `sizeof(ngx_pool_large)`: two pointers. -/
def SIZEOF_POOL_LARGE : Nat := 16

/-- Value of `sizeof(ngx_pool_cleanup)`: three pointers. -/
def SIZEOF_POOL_CLEANUP : Nat := 24

/-- Alignment of the addresses `malloc` returns (`alignof(max_align_t)`). -/
def MALLOC_ALIGN : Nat := 16

/-! ## The system: allocator and trace -/

/-- What the pool does to its environment. -/
inductive Event where
  /-- The call `malloc(size)` returned `addr` (`0` when it failed). -/
  | malloc (size addr : Nat)
  /-- The call `free(addr)` with a non-null `addr`. -/
  | free (addr : Nat)
  /-- The call `handler(data)` of a cleanup handler. -/
  | call (handler data : Nat)
  deriving DecidableEq, Repr

/-- The system allocator and the trace of events. -/
structure Sys where
  /-- Addresses proposed by the environment for the coming `malloc` calls. -/
  oracle : List Nat
  /-- The allocations that are live, as pairs of address and size. -/
  live : List (Nat × Nat)
  /-- The events so far, oldest first. -/
  trace : List Event
  deriving DecidableEq, Repr

/-- A proposed address `r` for `n` bytes is one an allocator can return: not null,
aligned, inside the address space, and apart from every live allocation. -/
def Sys.admissible (y : Sys) (r n : Nat) : Bool :=
  decide (r ≠ 0) && decide (r % MALLOC_ALIGN = 0) && decide (r + n < WORD) &&
    y.live.all (fun a => decide (r ≠ a.1) && (decide (r + n ≤ a.1) || decide (a.1 + a.2 ≤ r)))

/-- The call `malloc(n)`: the next proposal of the environment is returned when it is
admissible; an exhausted oracle or a proposal that is not admissible is a failed
allocation (the null pointer). -/
def Sys.malloc (y : Sys) (n : Nat) : Nat × Sys :=
  match y.oracle with
  | [] => (0, { y with trace := y.trace ++ [Event.malloc n 0] })
  | r :: rest =>
    if y.admissible r n then
      (r, { oracle := rest, live := (r, n) :: y.live, trace := y.trace ++ [Event.malloc n r] })
    else
      (0, { y with oracle := rest, trace := y.trace ++ [Event.malloc n 0] })

/-- The call `free(p)`; `free(nullptr)` does nothing. -/
def Sys.free (y : Sys) (p : Nat) : Sys :=
  if p = 0 then y
  else { y with live := y.live.filter (fun a => decide (a.1 ≠ p)), trace := y.trace ++ [Event.free p] }

/-- The call `handler(data)` of a cleanup handler. -/
def Sys.call (y : Sys) (handler data : Nat) : Sys :=
  { y with trace := y.trace ++ [Event.call handler data] }

/-! ## Data model (`nginx_mem.h`) -/

/-- A block of the chain: the `ngx_pool_data` header at address `base`
(`next` is the list order). -/
structure Block where
  /-- Address of the block (the `ngx_pool *` that points to it). -/
  base : Nat
  /-- Field `d.last`. -/
  last : Nat
  /-- Field `d.end`. -/
  end_ : Nat
  /-- Field `d.failed`. -/
  failed : Nat
  deriving DecidableEq, Repr

/-- A node `ngx_pool_large` at address `node`. -/
structure Large where
  /-- Address of the node. -/
  node : Nat
  /-- Field `alloc`; `0` is a freed slot. -/
  alloc : Nat
  deriving DecidableEq, Repr

/-- An entry `ngx_pool_cleanup` at address `node`. -/
structure Cleanup where
  /-- Address of the entry. -/
  node : Nat
  /-- Field `handler`; `0` is the null function pointer. -/
  handler : Nat
  /-- Field `data`. -/
  data : Nat
  deriving DecidableEq, Repr

/-- The pool `pool_`: its block chain starting with the head block, and the
metadata of `ngx_pool`. -/
structure Pool where
  /-- The chain of blocks from `pool_` through `d.next`; never empty. -/
  blocks : List Block
  /-- Field `max`. -/
  max : Nat
  /-- Field `current`, as the position of that block in `blocks`. -/
  current : Nat
  /-- The registry from `large` through `next`. -/
  large : List Large
  /-- The cleanup chain from `cleanup` through `next`. -/
  cleanup : List Cleanup
  deriving DecidableEq, Repr

/-! ## Operations (`nginx_mem.cpp`) -/

/-- Macro `ngx_align_ptr(p, a)`: `(p + (a - 1)) & ~(a - 1)` on `uintptr_t`; for a
power of two `a`, clearing the low bits is `/ a * a`. -/
def ngx_align_ptr (p a : Nat) : Nat :=
  ((p + (a - 1)) % WORD) / a * a

/-- The value of `(size_t)(e - m)` for two pointers. -/
def ptr_diff (e m : Nat) : Nat :=
  (e + WORD - m % WORD) % WORD

/-- The value of `p + n` for a pointer `p`. -/
def ptr_add (p n : Nat) : Nat :=
  (p + n) % WORD

/-- Function `ngx_create_pool`: `none` when `malloc` fails. -/
def ngx_create_pool (size : Nat) (y : Sys) : Option Pool × Sys :=
  let r := y.malloc size
  if r.1 = 0 then (none, r.2)
  else
    let size1 := (size + WORD - SIZEOF_POOL) % WORD
    (some { blocks := [{ base := r.1, last := ptr_add r.1 SIZEOF_POOL,
                         end_ := ptr_add r.1 size, failed := 0 }],
            max := if size1 < NGX_MAX_ALLOC_FROM_POOL then size1 else NGX_MAX_ALLOC_FROM_POOL,
            current := 0, large := [], cleanup := [] }, r.2)

/-- First loop of `ngx_destroy_pool`: call every handler that is set. -/
def run_cleanups : List Cleanup → Sys → Sys
  | [], y => y
  | c :: cs, y => run_cleanups cs (if c.handler ≠ 0 then y.call c.handler c.data else y)

/-- Loop over the registry in `ngx_destroy_pool` and `ngx_reset_pool`: free every
buffer that is not null. -/
def free_larges : List Large → Sys → Sys
  | [], y => y
  | l :: ls, y => free_larges ls (if l.alloc ≠ 0 then y.free l.alloc else y)

/-- Last loop of `ngx_destroy_pool`: free every block, head first. -/
def free_blocks : List Block → Sys → Sys
  | [], y => y
  | p :: ps, y => free_blocks ps (y.free p.base)

/-- Function `ngx_destroy_pool`: its three loops, each over the chain as it is when the
function is called.  The code follows the `next` pointers in memory; it is this
traversal when the three chains are null-terminated and made of distinct objects. -/
def ngx_destroy_pool (s : Pool) (y : Sys) : Sys :=
  free_blocks s.blocks (free_larges s.large (run_cleanups s.cleanup y))

/-- Body of the second loop of `ngx_reset_pool`. -/
def reset_block (p : Block) : Block :=
  { p with last := ptr_add p.base SIZEOF_POOL, failed := 0 }

/-- Function `ngx_reset_pool`: the loop over the registry, the loop over the blocks, and
the two stores into `pool_`.  The code follows the `next` pointers in memory; it is this
traversal when the chains are null-terminated and made of distinct objects.  The field
`cleanup` is not written: the entries stay linked although the memory they lie in is
handed out again by the allocations that follow. -/
def ngx_reset_pool (s : Pool) (y : Sys) : Pool × Sys :=
  ({ s with blocks := s.blocks.map reset_block, current := 0, large := [] },
   free_larges s.large y)

/-- Loop of `ngx_pfree`: the registry after the first node whose buffer is `p` has
been cleared, `none` when no node holds `p`. -/
def pfree_loop (p : Nat) : List Large → Option (List Large)
  | [] => none
  | l :: ls =>
    if p = l.alloc then some ({ l with alloc := 0 } :: ls)
    else (pfree_loop p ls).map (fun t => l :: t)

/-- Function `ngx_pfree`. -/
def ngx_pfree (p : Nat) (s : Pool) (y : Sys) : Bool × Pool × Sys :=
  match pfree_loop p s.large with
  | some ls => (true, { s with large := ls }, y.free p)
  | none => (false, s, y)

/-- The address `m` that `ngx_palloc_small` tries in block `p`. -/
def candidate (align : Bool) (p : Block) : Nat :=
  if align then ngx_align_ptr p.last NGX_ALIGNMENT else p.last

/-- The test `p->d.end - m >= size` of `ngx_palloc_small`, both sides `size_t`. -/
def fits (size : Nat) (align : Bool) (p : Block) : Bool :=
  decide (size ≤ ptr_diff p.end_ (candidate align p))

/-- Loop of `ngx_palloc_small`: the returned address and the chain after the bump,
`none` when the loop runs off the end of the chain. -/
def small_loop (size : Nat) (align : Bool) : List Block → Option (Nat × List Block)
  | [] => none
  | p :: ps =>
    if fits size align p then
      some (candidate align p, { p with last := ptr_add (candidate align p) size } :: ps)
    else
      match small_loop size align ps with
      | none => none
      | some (m, t) => some (m, p :: t)

/-- Loop of `ngx_palloc_block` from the block at position `i`: the blocks from there
on with their `failed` counters incremented, and the new value of `current`. -/
def walk_failed : List Block → Nat → Nat → List Block × Nat
  | [], _, cur => ([], cur)
  | [p], _, cur => ([p], cur)
  | p :: q :: rest, i, cur =>
    let r := walk_failed (q :: rest) (i + 1) (if 4 < p.failed then i + 1 else cur)
    ({ p with failed := (p.failed + 1) % UINT } :: r.1, r.2)

/-- The value `psize` of `ngx_palloc_block`: the total size of the head block. -/
def pool_psize (s : Pool) : Nat :=
  match s.blocks with
  | [] => 0
  | h :: _ => ptr_diff h.end_ h.base

/-- Function `ngx_palloc_block`. -/
def ngx_palloc_block (size : Nat) (s : Pool) (y : Sys) : Nat × Pool × Sys :=
  let psize := pool_psize s
  let r := y.malloc psize
  if r.1 = 0 then (0, s, r.2)
  else
    let m := ngx_align_ptr (ptr_add r.1 SIZEOF_POOL_DATA) NGX_ALIGNMENT
    let n : Block := { base := r.1, last := ptr_add m size, end_ := ptr_add r.1 psize, failed := 0 }
    let w := walk_failed (s.blocks.drop s.current) s.current s.current
    (m, { s with blocks := s.blocks.take s.current ++ w.1 ++ [n], current := w.2 }, r.2)

/-- Function `ngx_palloc_small`. -/
def ngx_palloc_small (size : Nat) (align : Bool) (s : Pool) (y : Sys) : Nat × Pool × Sys :=
  match small_loop size align s.blocks with
  | some (m, bs) => (m, { s with blocks := bs }, y)
  | none => ngx_palloc_block size s y

/-- Reuse loop of `ngx_palloc_large` with the counter `n`: the registry after `p` has
been stored in the first freed slot among the nodes the loop looks at. -/
def reuse_loop (p : Nat) : List Large → Nat → Option (List Large)
  | [], _ => none
  | l :: ls, n =>
    if l.alloc = 0 then some ({ l with alloc := p } :: ls)
    else if 3 ≤ n then none
    else (reuse_loop p ls (n + 1)).map (fun t => l :: t)

/-- Function `ngx_palloc_large`.  The stores `large->alloc = p`, `large->next =
pool_->large` and `pool_->large = large` are the new head of the registry list; what
else lies at the address of the node (after the overrun of C1: a block header or a node
that is still linked) is not part of the model. -/
def ngx_palloc_large (size : Nat) (s : Pool) (y : Sys) : Nat × Pool × Sys :=
  let r := y.malloc size
  if r.1 = 0 then (0, s, r.2)
  else
    match reuse_loop r.1 s.large 0 with
    | some ls => (r.1, { s with large := ls }, r.2)
    | none =>
      let a := ngx_palloc_small SIZEOF_POOL_LARGE true s r.2
      if a.1 = 0 then (0, a.2.1, a.2.2.free r.1)
      else (r.1, { a.2.1 with large := { node := a.1, alloc := r.1 } :: a.2.1.large }, a.2.2)

/-- Function `ngx_pnalloc`. -/
def ngx_pnalloc (size : Nat) (s : Pool) (y : Sys) : Nat × Pool × Sys :=
  if size ≤ s.max then ngx_palloc_small size false s y else ngx_palloc_large size s y

/-- Function `ngx_palloc`. -/
def ngx_palloc (size : Nat) (s : Pool) (y : Sys) : Nat × Pool × Sys :=
  if size ≤ s.max then ngx_palloc_small size true s y else ngx_palloc_large size s y

/-- Function `ngx_pcalloc`.  The `memset` writes into the `size` bytes handed out, whose
contents are not modelled; where these bytes are a block header or a node (after the
overrun of C1) the code zeroes fields that the model leaves as they are. -/
def ngx_pcalloc (size : Nat) (s : Pool) (y : Sys) : Nat × Pool × Sys :=
  ngx_palloc size s y

/-- Function `ngx_pool_cleanup_add`.  The stores `c->data`, `c->handler = nullptr`,
`c->next = pool_->cleanup` and `pool_->cleanup = c` are the new head of the cleanup
list; what else lies at the address of the entry (a block header after the overrun of
C1, an entry that is still linked after `ngx_reset_pool`) is not part of the model. -/
def ngx_pool_cleanup_add (size : Nat) (s : Pool) (y : Sys) : Nat × Pool × Sys :=
  let c := ngx_palloc SIZEOF_POOL_CLEANUP s y
  if c.1 = 0 then (0, c.2.1, c.2.2)
  else if size ≠ 0 then
    let d := ngx_palloc size c.2.1 c.2.2
    if d.1 = 0 then (0, d.2.1, d.2.2)
    else (c.1, { d.2.1 with cleanup := { node := c.1, handler := 0, data := d.1 } :: d.2.1.cleanup },
          d.2.2)
  else (c.1, { c.2.1 with cleanup := { node := c.1, handler := 0, data := 0 } :: c.2.1.cleanup },
        c.2.2)

/-- The write `c->handler = h` a caller makes through the handle `c` that
`ngx_pool_cleanup_add` returned. -/
def set_handler (c h : Nat) (s : Pool) : Pool :=
  { s with cleanup := s.cleanup.map (fun e => if e.node = c then { e with handler := h } else e) }

/-! ## Allocations that find no memory -/

/-- The small path finds no memory for `size` bytes: the test of `ngx_palloc_small` fails
on every block of the chain, and `malloc` fails for the new block of `ngx_palloc_block`. -/
def small_path_fails (size : Nat) (align : Bool) (s : Pool) (y : Sys) : Bool :=
  s.blocks.all (fun p => !fits size align p) && decide ((y.malloc (pool_psize s)).1 = 0)

/-- The large path finds no memory for `size` bytes: `malloc(size)` fails; or it returns
a buffer, none of the first 4 registry nodes is free, and the small path finds no memory
for the registry node. -/
def large_path_fails (size : Nat) (s : Pool) (y : Sys) : Bool :=
  decide ((y.malloc size).1 = 0) ||
    ((s.large.take 4).all (fun l => decide (l.alloc ≠ 0)) &&
      small_path_fails SIZEOF_POOL_LARGE true s (y.malloc size).2)

/-- The call `ngx_palloc(size)` finds no memory, on the path that `size` selects. -/
def palloc_fails (size : Nat) (s : Pool) (y : Sys) : Bool :=
  if size ≤ s.max then small_path_fails size true s y else large_path_fails size s y

/-! ## Layout of the structures (`nginx_mem.h`, LP64) -/

/-- Offset of the field `d.next` in `ngx_pool`: it follows the pointers `d.last` and
`d.end`. -/
def OFFSETOF_NEXT : Nat := 16

/-- Offset of the field `next` in `ngx_pool_cleanup`: it follows the pointers `handler`
and `data`. -/
def OFFSETOF_CLEANUP_NEXT : Nat := 16

/-! ## Runs of the pool -/

/-- A call on an existing pool. -/
inductive Op where
  | palloc (size : Nat)
  | pnalloc (size : Nat)
  | pcalloc (size : Nat)
  | pfree (p : Nat)
  | cleanup_add (size : Nat)
  | handler (c h : Nat)
  | reset
  deriving DecidableEq, Repr

/-- One call, its result dropped. -/
def step (op : Op) (st : Pool × Sys) : Pool × Sys :=
  match op with
  | Op.palloc n => (ngx_palloc n st.1 st.2).2
  | Op.pnalloc n => (ngx_pnalloc n st.1 st.2).2
  | Op.pcalloc n => (ngx_pcalloc n st.1 st.2).2
  | Op.pfree p => (ngx_pfree p st.1 st.2).2
  | Op.cleanup_add n => (ngx_pool_cleanup_add n st.1 st.2).2
  | Op.handler c h => (set_handler c h st.1, st.2)
  | Op.reset => ngx_reset_pool st.1 st.2

/-- A sequence of calls, first to last. -/
def run : List Op → Pool × Sys → Pool × Sys
  | [], st => st
  | op :: ops, st => run ops (step op st)

/-- The pool `s` with system `y` is reached from `ngx_create_pool(size)` at address
`b` by a sequence of calls. -/
def ReachableFrom (size b : Nat) (s : Pool) (y : Sys) : Prop :=
  ∃ (y0 : Sys) (p : Pool) (y1 : Sys) (ops : List Op),
    SIZEOF_POOL ≤ size ∧ ngx_create_pool size y0 = (some p, y1) ∧
    p.blocks.map Block.base = [b] ∧ run ops (p, y1) = (s, y)

/-! ## The invariant of reachable pools -/

/-- The buffers the registry holds: the `alloc` fields that are not null. -/
def live_allocs (ls : List Large) : List Nat :=
  (ls.map Large.alloc).filter (fun a => decide (a ≠ 0))

/-- What holds of every pool reached from `ngx_create_pool(C)` at address `b0`: the
head block is at `b0`; every block is a `malloc` buffer of `C` bytes with `end` at
its end; `max` is as `ngx_create_pool` set it; `current` is inside the chain; the
blocks and the buffers of the registry are distinct live allocations. -/
structure Inv (C b0 : Nat) (s : Pool) (y : Sys) : Prop where
  size_ge : SIZEOF_POOL ≤ C
  head : (s.blocks.map Block.base).head? = some b0
  block_ok : ∀ p ∈ s.blocks,
    p.base % MALLOC_ALIGN = 0 ∧ p.end_ = p.base + C ∧ p.base + C < WORD ∧ p.last < WORD
  max_eq : s.max = min (C - SIZEOF_POOL) NGX_MAX_ALLOC_FROM_POOL
  current_lt : s.current < s.blocks.length
  blocks_nodup : (s.blocks.map Block.base).Nodup
  large_nodup : (live_allocs s.large).Nodup
  apart : ∀ p ∈ s.blocks, p.base ∉ live_allocs s.large
  blocks_live : ∀ p ∈ s.blocks, p.base ∈ y.live.map Prod.fst
  large_live : ∀ a ∈ live_allocs s.large, a ∈ y.live.map Prod.fst

/-- The address, bump pointer and end of a block: everything but `failed`. -/
def Block.region (p : Block) : Nat × Nat × Nat :=
  (p.base, p.last, p.end_)

/-- No block of the pool is overrun: `last <= end` in every block. -/
def Bounded (s : Pool) : Prop :=
  ∀ p ∈ s.blocks, p.last ≤ p.end_

/-- The bump pointer of every block is past the block header: `base +
sizeof(ngx_pool_data) <= last`. -/
def Lower (s : Pool) : Prop :=
  ∀ p ∈ s.blocks, p.base + SIZEOF_POOL_DATA ≤ p.last

/-! ## Example states -/

/-- Example: a system with two proposals left and the block and the buffers of
`example_pool` live. -/
def example_sys : Sys :=
  { oracle := [32768, 40960],
    live := [(4096, 4096), (8192, 5000), (16384, 5000), (24576, 5000)],
    trace := [] }

/-- Example: the system `example_sys` with the buffer 49152 live as well. -/
def example_sys_fifth_free : Sys :=
  { example_sys with live := (49152, 5000) :: example_sys.live }

/-- Example: a pool of `ngx_create_pool(4096)` at 4096 whose registry has five nodes,
the third and the fifth with a null buffer. -/
def example_pool : Pool :=
  { blocks := [{ base := 4096, last := 4240, end_ := 8192, failed := 0 }],
    max := 4032, current := 0,
    large := [{ node := 4224, alloc := 24576 }, { node := 4208, alloc := 16384 },
              { node := 4192, alloc := 0 }, { node := 4176, alloc := 8192 },
              { node := 4160, alloc := 0 }],
    cleanup := [] }

/-- Example: the pool `example_pool` with the third buffer still in place, so that the
only null buffer is in the fifth node. -/
def example_pool_fifth_free : Pool :=
  { example_pool with
    large := [{ node := 4224, alloc := 24576 }, { node := 4208, alloc := 16384 },
              { node := 4192, alloc := 49152 }, { node := 4176, alloc := 8192 },
              { node := 4160, alloc := 0 }] }

/-- Example: the system right after `ngx_create_pool(4096)` returned the pool at 4096. -/
def fresh_sys : Sys :=
  { oracle := [8192], live := [(4096, 4096)], trace := [Event.malloc 4096 4096] }

/-- Example: the pool right after `ngx_create_pool(4096)` at 4096. -/
def fresh_pool : Pool :=
  { blocks := [{ base := 4096, last := 4160, end_ := 8192, failed := 0 }],
    max := 4032, current := 0, large := [], cleanup := [] }

/-- Example: `fresh_pool` after the registration of handler 111 and then of handler
222, each with 8 bytes of data. -/
def two_cleanups_pool : Pool :=
  { fresh_pool with
    blocks := [{ base := 4096, last := 4224, end_ := 8192, failed := 0 }],
    cleanup := [{ node := 4192, handler := 222, data := 4216 },
                { node := 4160, handler := 111, data := 4184 }] }

/-- Example: the system after `ngx_create_pool(4096)` at 4096 and `ngx_palloc(5000)`,
which returned the buffer 8192. -/
def large_sys : Sys :=
  { oracle := [], live := [(8192, 5000), (4096, 4096)],
    trace := [Event.malloc 4096 4096, Event.malloc 5000 8192] }

/-- Example: the pool after `ngx_create_pool(4096)` at 4096 and `ngx_palloc(5000)`. -/
def large_pool : Pool :=
  { blocks := [{ base := 4096, last := 4176, end_ := 8192, failed := 0 }],
    max := 4032, current := 0, large := [{ node := 4160, alloc := 8192 }], cleanup := [] }

/-- Example: the system right after `ngx_create_pool(64)` returned the pool at 4096,
with one proposal left. -/
def full_sys : Sys :=
  { oracle := [8192], live := [(4096, 64)], trace := [Event.malloc 64 4096] }

/-- Example: the pool right after `ngx_create_pool(64)` at 4096: the head block has no
room and `max` is 0. -/
def full_pool : Pool :=
  { blocks := [{ base := 4096, last := 4160, end_ := 4160, failed := 0 }],
    max := 0, current := 0, large := [], cleanup := [] }

/-- Example: the system right after `ngx_create_pool(96)` returned the pool at 4096,
with six proposals left. -/
def small_sys : Sys :=
  { oracle := [8192, 12288, 16384, 20480, 24576, 28672], live := [(4096, 96)],
    trace := [Event.malloc 96 4096] }

/-- Example: the pool right after `ngx_create_pool(96)` at 4096: `max` is 32 and every
block holds two requests of 32 bytes, the head block one. -/
def small_pool : Pool :=
  { blocks := [{ base := 4096, last := 4160, end_ := 4192, failed := 0 }],
    max := 32, current := 0, large := [], cleanup := [] }

/-- Example: the system after eleven calls `ngx_palloc(32)` on `small_pool`. -/
def six_blocks_sys : Sys :=
  { oracle := [28672],
    live := [(24576, 96), (20480, 96), (16384, 96), (12288, 96), (8192, 96), (4096, 96)],
    trace := [Event.malloc 96 4096, Event.malloc 96 8192, Event.malloc 96 12288,
              Event.malloc 96 16384, Event.malloc 96 20480, Event.malloc 96 24576] }

/-- Example: the pool after eleven calls `ngx_palloc(32)` on `small_pool`: six full
blocks, the head block with `failed = 4`. -/
def six_blocks_pool : Pool :=
  { blocks := [{ base := 4096, last := 4192, end_ := 4192, failed := 4 },
               { base := 8192, last := 8288, end_ := 8288, failed := 3 },
               { base := 12288, last := 12384, end_ := 12384, failed := 2 },
               { base := 16384, last := 16480, end_ := 16480, failed := 1 },
               { base := 20480, last := 20576, end_ := 20576, failed := 0 },
               { base := 24576, last := 24672, end_ := 24672, failed := 0 }],
    max := 32, current := 0, large := [], cleanup := [] }

/-- Example: the system after thirteen calls `ngx_palloc(32)` on `small_pool`, with one
more proposal of the environment. -/
def seven_blocks_sys : Sys :=
  { oracle := [32768],
    live := [(28672, 96), (24576, 96), (20480, 96), (16384, 96), (12288, 96), (8192, 96),
             (4096, 96)],
    trace := [Event.malloc 96 4096, Event.malloc 96 8192, Event.malloc 96 12288,
              Event.malloc 96 16384, Event.malloc 96 20480, Event.malloc 96 24576,
              Event.malloc 96 28672] }

/-- Example: the pool after thirteen calls `ngx_palloc(32)` on `small_pool`: seven full
blocks, the head block with `failed = 5`. -/
def seven_blocks_pool : Pool :=
  { blocks := [{ base := 4096, last := 4192, end_ := 4192, failed := 5 },
               { base := 8192, last := 8288, end_ := 8288, failed := 4 },
               { base := 12288, last := 12384, end_ := 12384, failed := 3 },
               { base := 16384, last := 16480, end_ := 16480, failed := 2 },
               { base := 20480, last := 20576, end_ := 20576, failed := 1 },
               { base := 24576, last := 24672, end_ := 24672, failed := 0 },
               { base := 28672, last := 28768, end_ := 28768, failed := 0 }],
    max := 32, current := 0, large := [], cleanup := [] }

/-- Example: the system right after `ngx_create_pool(100)` returned the pool at 4096;
the next proposal of the environment is 4208, right behind the 100 bytes of the head
block. -/
def odd_sys : Sys :=
  { oracle := [4208], live := [(4096, 100)], trace := [Event.malloc 100 4096] }

/-- Example: the pool right after `ngx_create_pool(100)` at 4096; its `end` is not a
multiple of `NGX_ALIGNMENT`. -/
def odd_pool : Pool :=
  { blocks := [{ base := 4096, last := 4160, end_ := 4196, failed := 0 }],
    max := 36, current := 0, large := [], cleanup := [] }

/-- The address ranges `[a, a + n)` and `[b, b + m)` have a byte in common. -/
def ranges_overlap (a n b m : Nat) : Prop :=
  a < b + m ∧ b < a + n

/-- Example: the system right after `ngx_create_pool(100)` returned the pool at 4096,
when the environment is going to propose 8192, then 4208, then 16384. -/
def node_twice_sys : Sys :=
  { oracle := [8192, 4208, 16384], live := [(4096, 100)], trace := [Event.malloc 100 4096] }

/-- Example: the system right after `ngx_create_pool(100)` returned the pool at 4096,
when the environment is going to propose 4208, then 8192, then 12288. -/
def self_link_sys : Sys :=
  { oracle := [4208, 8192, 12288], live := [(4096, 100)], trace := [Event.malloc 100 4096] }

/-- Example: the system right after `ngx_create_pool(100)` returned the pool at 4096,
when the environment is going to propose 4208 and then seven addresses 4096 apart. -/
def nine_blocks_sys : Sys :=
  { oracle := [4208, 8192, 12288, 16384, 20480, 24576, 28672, 32768],
    live := [(4096, 100)], trace := [Event.malloc 100 4096] }

/-- Example: the system of `nine_blocks_pool`. -/
def nine_blocks_sys_after : Sys :=
  { oracle := [],
    live := [(32768, 100), (28672, 100), (24576, 100), (20480, 100), (16384, 100),
             (12288, 100), (8192, 100), (4208, 100), (4096, 100)],
    trace := [Event.malloc 100 4096, Event.malloc 100 4208, Event.malloc 100 8192,
              Event.malloc 100 12288, Event.malloc 100 16384, Event.malloc 100 20480,
              Event.malloc 100 24576, Event.malloc 100 28672, Event.malloc 100 32768] }

/-- Example: the pool of `ngx_create_pool(100)` at 4096 after nine calls
`ngx_pnalloc(36)` and three calls `ngx_palloc(8)`: nine blocks, `current` at the third
one (8192), and `last` of the head block at 4224, past its `end` and inside the header
of the second block, which is at 4208. -/
def nine_blocks_pool : Pool :=
  { blocks := [{ base := 4096, last := 4224, end_ := 4196, failed := 6 },
               { base := 4208, last := 4276, end_ := 4308, failed := 6 },
               { base := 8192, last := 8260, end_ := 8292, failed := 5 },
               { base := 12288, last := 12356, end_ := 12388, failed := 4 },
               { base := 16384, last := 16452, end_ := 16484, failed := 3 },
               { base := 20480, last := 20548, end_ := 20580, failed := 2 },
               { base := 24576, last := 24644, end_ := 24676, failed := 1 },
               { base := 28672, last := 28740, end_ := 28772, failed := 0 },
               { base := 32768, last := 32836, end_ := 32868, failed := 0 }],
    max := 36, current := 2, large := [], cleanup := [] }

/-- Example: the system right after `ngx_create_pool(100)` returned the pool at 4208,
when the environment is going to propose 4096, the 100 bytes right below the pool, and
then 8192. -/
def low_block_sys : Sys :=
  { oracle := [4096, 8192], live := [(4208, 100)], trace := [Event.malloc 100 4208] }

/-- Example: the pool right after `ngx_create_pool(100)` at 4208. -/
def low_block_pool : Pool :=
  { blocks := [{ base := 4208, last := 4272, end_ := 4308, failed := 0 }],
    max := 36, current := 0, large := [], cleanup := [] }

/-- Example: the system of `zeroed_last_pool`; the next proposal of the environment is
8192. -/
def zeroed_last_sys : Sys :=
  { oracle := [8192], live := [(4096, 100), (4208, 100)],
    trace := [Event.malloc 100 4208, Event.malloc 100 4096] }

/-- Example: the pool of `ngx_create_pool(100)` at 4208 with its second block at 4096,
as the code leaves it after `ngx_pnalloc(30)`, `ngx_pnalloc(36)`, `ngx_pnalloc(29)`,
`ngx_palloc(8)` and `ngx_pcalloc(8)`: the last call returned 4208, the address of the
head block, and its `memset` wrote 0 into the field `d.last` there. -/
def zeroed_last_pool : Pool :=
  { blocks := [{ base := 4208, last := 0, end_ := 4308, failed := 0 },
               { base := 4096, last := 4216, end_ := 4196, failed := 0 }],
    max := 36, current := 0, large := [], cleanup := [] }

/-- Example: the system of `busy_pool`. -/
def busy_sys : Sys :=
  { oracle := [],
    live := [(40960, 96), (36864, 96), (32768, 96), (28672, 96), (24576, 96), (20480, 96),
             (16384, 200), (12288, 96), (4096, 96)],
    trace := [Event.malloc 96 4096, Event.malloc 100 8192, Event.malloc 96 12288,
              Event.malloc 200 16384, Event.free 8192, Event.malloc 96 20480,
              Event.malloc 96 24576, Event.malloc 96 28672, Event.malloc 96 32768,
              Event.malloc 96 36864, Event.malloc 96 40960] }

/-- Example: the pool of `ngx_create_pool(96)` at 4096 after the registration of handler
111 with 8 bytes of data, `ngx_palloc(100)` (buffer 8192), `ngx_palloc(200)` (buffer
16384), a registration whose handler is left null, `ngx_pfree(8192)` and twelve calls
`ngx_palloc(32)`: eight blocks with `failed` counters up to 6, `current` at the second
block, a registry with a live buffer and a freed slot, and two cleanup entries. -/
def busy_pool : Pool :=
  { blocks := [{ base := 4096, last := 4192, end_ := 4192, failed := 6 },
               { base := 12288, last := 12376, end_ := 12384, failed := 5 },
               { base := 20480, last := 20576, end_ := 20576, failed := 4 },
               { base := 24576, last := 24672, end_ := 24672, failed := 3 },
               { base := 28672, last := 28768, end_ := 28768, failed := 2 },
               { base := 32768, last := 32864, end_ := 32864, failed := 1 },
               { base := 36864, last := 36960, end_ := 36960, failed := 0 },
               { base := 40960, last := 41056, end_ := 41056, failed := 0 }],
    max := 32, current := 1,
    large := [{ node := 12336, alloc := 16384 }, { node := 12320, alloc := 0 }],
    cleanup := [{ node := 12352, handler := 0, data := 0 },
                { node := 4160, handler := 111, data := 4184 }] }

/-! ## Cleanup registrations as callers make them -/

/-- The calls a cleanup chain stands for: one call `handler(data)` for every entry
whose handler is set, in chain order, each with the data pointer of its own entry. -/
def cleanup_calls (cs : List Cleanup) : List Event :=
  (cs.filter (fun c => decide (c.handler ≠ 0))).map (fun c => Event.call c.handler c.data)

/-- A sequence of registrations, given as pairs of the size of the extra data and the
handler: each is a call `ngx_pool_cleanup_add(size)` followed by the write of the
handler through the handle returned; `none` when a registration fails. -/
def register_all : List (Nat × Nat) → Pool × Sys → Option (Pool × Sys)
  | [], st => some st
  | r :: rest, st =>
    if (ngx_pool_cleanup_add r.1 st.1 st.2).1 = 0 then none
    else register_all rest
      (set_handler (ngx_pool_cleanup_add r.1 st.1 st.2).1 r.2 (ngx_pool_cleanup_add r.1 st.1 st.2).2.1,
       (ngx_pool_cleanup_add r.1 st.1 st.2).2.2)

/-! ## The system allocator and pointer arithmetic -/

theorem malloc_ok {y : Sys} {n r : Nat} {y1 : Sys} (h : y.malloc n = (r, y1)) (hr : r ≠ 0) :
    r % MALLOC_ALIGN = 0 ∧ r + n < WORD ∧ (∀ a ∈ y.live, r ≠ a.1) ∧
      y1.live = (r, n) :: y.live ∧ y1.trace = y.trace ++ [Event.malloc n r] := by
  unfold Sys.malloc at h
  cases ho : y.oracle with
  | nil =>
    rw [ho] at h
    simp only [Prod.mk.injEq] at h
    exact absurd h.1.symm hr
  | cons q rest =>
    rw [ho] at h
    dsimp only at h
    by_cases ha : y.admissible q n = true
    · rw [if_pos ha] at h
      simp only [Prod.mk.injEq] at h
      obtain ⟨rfl, rfl⟩ := h
      simp only [Sys.admissible, Bool.and_eq_true, decide_eq_true_eq, List.all_eq_true,
        Bool.or_eq_true] at ha
      refine ⟨ha.1.1.2, ha.1.2, fun a hmem => (ha.2 a hmem).1, rfl, rfl⟩
    · rw [if_neg ha] at h
      simp only [Prod.mk.injEq] at h
      exact absurd h.1.symm hr

theorem malloc_null {y : Sys} {n : Nat} (h : (y.malloc n).1 = 0) :
    (y.malloc n).2.live = y.live ∧ (y.malloc n).2.trace = y.trace ++ [Event.malloc n 0] := by
  unfold Sys.malloc at h ⊢
  cases ho : y.oracle with
  | nil => simp
  | cons q rest =>
    rw [ho] at h
    simp only at h ⊢
    by_cases ha : y.admissible q n = true
    · rw [if_pos ha] at h
      simp only [Sys.admissible, Bool.and_eq_true, decide_eq_true_eq] at ha
      exact absurd h ha.1.1.1
    · rw [if_neg ha]
      simp

theorem ngx_align_ptr_dvd (p : Nat) : ngx_align_ptr p NGX_ALIGNMENT % NGX_ALIGNMENT = 0 := by
  simp only [ngx_align_ptr, NGX_ALIGNMENT]
  omega

theorem ngx_align_ptr_of_aligned {p : Nat} (h : p % NGX_ALIGNMENT = 0) (hp : p < WORD) :
    ngx_align_ptr p NGX_ALIGNMENT = p := by
  simp only [ngx_align_ptr, NGX_ALIGNMENT, WORD] at *
  omega

theorem ngx_align_ptr_bounds {p : Nat} (hp : p + 7 < WORD) :
    p ≤ ngx_align_ptr p NGX_ALIGNMENT ∧ ngx_align_ptr p NGX_ALIGNMENT < p + 8 := by
  simp only [ngx_align_ptr, NGX_ALIGNMENT, WORD] at *
  omega

/-! ## The scan of `ngx_palloc_small` -/

theorem small_loop_some {size : Nat} {align : Bool} :
    ∀ {bs : List Block} {m : Nat} {bs1 : List Block},
      small_loop size align bs = some (m, bs1) →
      ∃ pre p post, bs = pre ++ p :: post ∧ (∀ q ∈ pre, fits size align q = false) ∧
        fits size align p = true ∧ m = candidate align p ∧
        bs1 = pre ++ { p with last := ptr_add (candidate align p) size } :: post
  | [], m, bs1, h => by simp [small_loop] at h
  | p :: ps, m, bs1, h => by
    unfold small_loop at h
    by_cases hf : fits size align p = true
    · rw [if_pos hf] at h
      simp only [Option.some.injEq, Prod.mk.injEq] at h
      exact ⟨[], p, ps, rfl, by simp, hf, h.1.symm, h.2.symm⟩
    · rw [if_neg hf] at h
      cases hr : small_loop size align ps with
      | none => rw [hr] at h; simp at h
      | some r =>
        obtain ⟨m1, t⟩ := r
        rw [hr] at h
        simp only [Option.some.injEq, Prod.mk.injEq] at h
        obtain ⟨pre, p1, post, h1, h2, h3, h4, h5⟩ := small_loop_some hr
        refine ⟨p :: pre, p1, post, by simp [h1], ?_, h3, by rw [← h.1, h4], by simp [← h.2, h5]⟩
        intro q hq
        rcases List.mem_cons.1 hq with rfl | hq
        · simpa using hf
        · exact h2 q hq

theorem small_loop_none {size : Nat} {align : Bool} :
    ∀ {bs : List Block}, small_loop size align bs = none ↔ ∀ q ∈ bs, fits size align q = false
  | [] => by simp [small_loop]
  | p :: ps => by
    unfold small_loop
    by_cases hf : fits size align p = true
    · rw [if_pos hf]
      simp [hf]
    · rw [if_neg hf]
      have ih := @small_loop_none size align ps
      cases hr : small_loop size align ps with
      | none =>
        rw [hr] at ih
        simp only [true_iff] at ih
        simp only [List.mem_cons, forall_eq_or_imp, true_iff]
        exact ⟨by simpa using hf, ih⟩
      | some r =>
        rw [hr] at ih
        simp only [false_iff, reduceCtorEq] at ih ⊢
        intro hall
        exact ih (fun q hq => hall q (List.mem_cons_of_mem _ hq))

theorem small_loop_of_split {size : Nat} {align : Bool} {p : Block} {post : List Block} :
    ∀ {pre : List Block}, (∀ q ∈ pre, fits size align q = false) → fits size align p = true →
      small_loop size align (pre ++ p :: post) =
        some (candidate align p, pre ++ { p with last := ptr_add (candidate align p) size } :: post)
  | [], _, hp => by simp [small_loop, hp]
  | q :: pre, hpre, hp => by
    have hq : fits size align q = false := hpre q (List.mem_cons_self _ _)
    have ih := @small_loop_of_split size align p post pre
      (fun r hr => hpre r (List.mem_cons_of_mem _ hr)) hp
    simp [small_loop, hq, ih]

/-! ## C1 and C2: the bump pointer can pass the end of its block -/

/-- C1, at the failing input: after `ngx_create_pool(100)` at address 4096, the calls
`ngx_palloc(33)` and `ngx_palloc(1)` leave the head block with `last = 4201` beyond
its `end = 4196`: the second call rounds `last = 4193` up to 4200, past `end`, and
the unsigned comparison `end - m >= size` accepts it. -/
theorem palloc_moves_last_beyond_end :
    ngx_create_pool 100 { oracle := [4096], live := [], trace := [] } =
      (some { blocks := [{ base := 4096, last := 4160, end_ := 4196, failed := 0 }],
              max := 36, current := 0, large := [], cleanup := [] },
       { oracle := [], live := [(4096, 100)], trace := [Event.malloc 100 4096] }) ∧
    (run [Op.palloc 33, Op.palloc 1]
        ({ blocks := [{ base := 4096, last := 4160, end_ := 4196, failed := 0 }],
           max := 36, current := 0, large := [], cleanup := [] },
         { oracle := [], live := [(4096, 100)], trace := [Event.malloc 100 4096] })).1.blocks =
      [{ base := 4096, last := 4201, end_ := 4196, failed := 0 }] := by
  constructor <;> decide

/-- C2, at the failing input: in the pool left by `ngx_create_pool(100)` and
`ngx_palloc(33)`, the head block has `last = 4193` and `end = 4196`, so the aligned
candidate 4200 lies beyond `end` and the block has no room for any request; still
`ngx_palloc_small(1, true)` serves the request from that block, returns 4200 and sets
`last` to 4201, instead of falling through to `ngx_palloc_block`. -/
theorem palloc_small_serves_from_block_without_room :
    (run [Op.palloc 33]
        ({ blocks := [{ base := 4096, last := 4160, end_ := 4196, failed := 0 }],
           max := 36, current := 0, large := [], cleanup := [] },
         { oracle := [8192], live := [(4096, 100)], trace := [] })).1.blocks =
      [{ base := 4096, last := 4193, end_ := 4196, failed := 0 }] ∧
    candidate true { base := 4096, last := 4193, end_ := 4196, failed := 0 } = 4200 ∧
    ngx_palloc_small 1 true
        { blocks := [{ base := 4096, last := 4193, end_ := 4196, failed := 0 }],
          max := 36, current := 0, large := [], cleanup := [] }
        { oracle := [8192], live := [(4096, 100)], trace := [] } =
      (4200,
       { blocks := [{ base := 4096, last := 4201, end_ := 4196, failed := 0 }],
         max := 36, current := 0, large := [], cleanup := [] },
       { oracle := [8192], live := [(4096, 100)], trace := [] }) := by
  refine ⟨by decide, by decide, by decide⟩

/-- Where the candidate address is not beyond the end of the block, the test of
`ngx_palloc_small` is the test for room: `candidate + size <= end`. -/
theorem fits_iff_room {size : Nat} {align : Bool} {p : Block}
    (hc : candidate align p ≤ p.end_) (he : p.end_ < WORD) :
    fits size align p = true ↔ candidate align p + size ≤ p.end_ := by
  simp only [fits, ptr_diff, decide_eq_true_eq, WORD] at *
  omega

/-- Where the candidate address is beyond the end of the block, the test of
`ngx_palloc_small` accepts every request up to `2 ^ 64 - (candidate - end)` bytes. -/
theorem fits_of_candidate_beyond_end {size : Nat} {align : Bool} {p : Block}
    (hc : p.end_ < candidate align p) (hm : candidate align p < WORD)
    (hs : size + (candidate align p - p.end_) ≤ WORD) :
    fits size align p = true := by
  simp only [fits, ptr_diff, decide_eq_true_eq, WORD] at *
  omega

/-! ## C3: aligned allocations return aligned addresses -/

theorem ngx_palloc_block_aligned (size : Nat) (s : Pool) (y : Sys) :
    (ngx_palloc_block size s y).1 % NGX_ALIGNMENT = 0 := by
  unfold ngx_palloc_block
  dsimp only
  split
  · rfl
  · exact ngx_align_ptr_dvd _

theorem ngx_palloc_small_aligned (size : Nat) (s : Pool) (y : Sys) :
    (ngx_palloc_small size true s y).1 % NGX_ALIGNMENT = 0 := by
  unfold ngx_palloc_small
  cases h : small_loop size true s.blocks with
  | none => exact ngx_palloc_block_aligned size s y
  | some r =>
    obtain ⟨m, bs⟩ := r
    obtain ⟨pre, p, post, -, -, -, hm, -⟩ := small_loop_some h
    dsimp only
    rw [hm]
    exact ngx_align_ptr_dvd _

theorem malloc_aligned (y : Sys) (n : Nat) : (y.malloc n).1 % NGX_ALIGNMENT = 0 := by
  cases hm : y.malloc n with
  | mk r y1 =>
    by_cases h : r = 0
    · simp [h]
    · have h16 := (malloc_ok hm h).1
      simp only [MALLOC_ALIGN, NGX_ALIGNMENT] at *
      omega

theorem ngx_palloc_large_aligned (size : Nat) (s : Pool) (y : Sys) :
    (ngx_palloc_large size s y).1 % NGX_ALIGNMENT = 0 := by
  have hm := malloc_aligned y size
  unfold ngx_palloc_large
  dsimp only
  split
  · rfl
  · split
    · exact hm
    · split
      · rfl
      · exact hm

/-- C3: a successful `ngx_palloc(size)` returns a multiple of `NGX_ALIGNMENT`, in any
pool state: on the small path the address is a rounded-up `last` of an existing block
or the rounded-up start of the data area of a new block, on the large path it is the
address `malloc` returned. -/
theorem ngx_palloc_returns_aligned (size : Nat) (s : Pool) (y : Sys)
    (h : (ngx_palloc size s y).1 ≠ 0) :
    (ngx_palloc size s y).1 % NGX_ALIGNMENT = 0 := by
  have _ := h
  unfold ngx_palloc
  split
  · exact ngx_palloc_small_aligned size s y
  · exact ngx_palloc_large_aligned size s y

/-- C3 at a pool of `ngx_create_pool(4096)`: `ngx_palloc(100)` returns 4160. -/
theorem ngx_palloc_returns_aligned_witness :
    (ngx_palloc 100
        { blocks := [{ base := 4096, last := 4160, end_ := 8192, failed := 0 }],
          max := 4032, current := 0, large := [], cleanup := [] }
        { oracle := [8192], live := [(4096, 4096)], trace := [] }).1 ≠ 0 ∧
    (ngx_palloc 100
        { blocks := [{ base := 4096, last := 4160, end_ := 8192, failed := 0 }],
          max := 4032, current := 0, large := [], cleanup := [] }
        { oracle := [8192], live := [(4096, 4096)], trace := [] }).1 % NGX_ALIGNMENT = 0 :=
  ⟨by decide, ngx_palloc_returns_aligned _ _ _ (by decide)⟩

/-! ## Frame lemmas for the allocator -/

theorem mem_live_free {y : Sys} {p a : Nat} :
    a ∈ (y.free p).live.map Prod.fst ↔ a ∈ y.live.map Prod.fst ∧ (p = 0 ∨ a ≠ p) := by
  unfold Sys.free
  by_cases hp : p = 0
  · simp [hp]
  · simp only [if_neg hp, List.mem_map, List.mem_filter, decide_eq_true_eq]
    constructor
    · rintro ⟨x, ⟨hx, hne⟩, rfl⟩
      exact ⟨⟨x, hx, rfl⟩, Or.inr hne⟩
    · rintro ⟨⟨x, hx, rfl⟩, h⟩
      rcases h with h | h
      · exact absurd h hp
      · exact ⟨x, ⟨hx, h⟩, rfl⟩

theorem mem_live_malloc {y : Sys} {n a : Nat} (h : a ∈ y.live.map Prod.fst) :
    a ∈ (y.malloc n).2.live.map Prod.fst := by
  cases hm : y.malloc n with
  | mk r y1 =>
    by_cases hr : r = 0
    · have h0 := (malloc_null (y := y) (n := n) (by rw [hm]; exact hr)).1
      rw [hm] at h0
      dsimp only
      rw [h0]
      exact h
    · have h1 := (malloc_ok hm hr).2.2.2.1
      dsimp only
      rw [h1]
      simp only [List.map_cons, List.mem_cons]
      exact Or.inr h

theorem malloc_fresh {y : Sys} {n : Nat} (hr : (y.malloc n).1 ≠ 0) :
    (y.malloc n).1 ∉ y.live.map Prod.fst ∧ (y.malloc n).1 ∈ (y.malloc n).2.live.map Prod.fst := by
  cases hm : y.malloc n with
  | mk r y1 =>
    rw [hm] at hr
    obtain ⟨-, -, h3, h4, -⟩ := malloc_ok hm hr
    dsimp only at hr ⊢
    constructor
    · simp only [List.mem_map, not_exists, not_and]
      intro x hx hxe
      exact h3 x hx hxe.symm
    · rw [h4]
      simp

/-! ## Frame lemmas for the block chain -/

theorem small_loop_region {size : Nat} {align : Bool} {bs bs1 : List Block} {m : Nat}
    (h : small_loop size align bs = some (m, bs1)) :
    bs1.map Block.base = bs.map Block.base ∧ bs1.map Block.end_ = bs.map Block.end_ ∧
      bs1.map Block.failed = bs.map Block.failed ∧
      ∀ q ∈ bs1, q ∈ bs ∨ ∃ p ∈ bs, q = { p with last := ptr_add (candidate align p) size } := by
  obtain ⟨pre, p, post, rfl, -, -, -, rfl⟩ := small_loop_some h
  refine ⟨by simp, by simp, by simp, ?_⟩
  intro q hq
  simp only [List.mem_append, List.mem_cons] at hq ⊢
  rcases hq with hq | rfl | hq
  · exact Or.inl (Or.inl hq)
  · exact Or.inr ⟨p, Or.inr (Or.inl rfl), rfl⟩
  · exact Or.inl (Or.inr (Or.inr hq))

theorem walk_failed_region :
    ∀ (bs : List Block) (i c : Nat), (walk_failed bs i c).1.map Block.region = bs.map Block.region
  | [], _, _ => rfl
  | [_], _, _ => rfl
  | p :: q :: rest, i, c => by
    have ih := walk_failed_region (q :: rest) (i + 1) (if 4 < p.failed then i + 1 else c)
    simp only [walk_failed, List.map_cons, ih]
    rfl

theorem walk_failed_current :
    ∀ (bs : List Block) (i c : Nat),
      (walk_failed bs i c).2 = c ∨
        (i < (walk_failed bs i c).2 ∧ (walk_failed bs i c).2 < i + bs.length)
  | [], _, _ => Or.inl rfl
  | [_], _, _ => Or.inl rfl
  | p :: q :: rest, i, c => by
    have ih := walk_failed_current (q :: rest) (i + 1) (if 4 < p.failed then i + 1 else c)
    simp only [walk_failed, List.length_cons] at ih ⊢
    rcases ih with ih | ih
    · by_cases hf : 4 < p.failed
      · rw [if_pos hf] at ih ⊢
        right
        omega
      · rw [if_neg hf] at ih ⊢
        exact Or.inl ih
    · right
      omega

theorem mem_of_region_eq {bs bs1 : List Block} (h : bs1.map Block.region = bs.map Block.region)
    {q : Block} (hq : q ∈ bs1) : ∃ p ∈ bs, q.region = p.region := by
  have : q.region ∈ bs1.map Block.region := List.mem_map_of_mem _ hq
  rw [h] at this
  obtain ⟨p, hp, hpe⟩ := List.mem_map.1 this
  exact ⟨p, hp, hpe.symm⟩

theorem base_of_region_eq {bs bs1 : List Block} (h : bs1.map Block.region = bs.map Block.region) :
    bs1.map Block.base = bs.map Block.base := by
  have := congrArg (List.map Prod.fst) h
  simpa [List.map_map, Function.comp_def, Block.region] using this

/-- The state after a successful `ngx_palloc_block`: the chain is the old one, with
only `failed` counters changed, followed by the new block. -/
theorem ngx_palloc_block_ok {size : Nat} {s : Pool} {y : Sys}
    (h : (y.malloc (pool_psize s)).1 ≠ 0) :
    ∃ old cur,
      ngx_palloc_block size s y =
        (ngx_align_ptr (ptr_add (y.malloc (pool_psize s)).1 SIZEOF_POOL_DATA) NGX_ALIGNMENT,
         { s with
           blocks := old ++ [{ base := (y.malloc (pool_psize s)).1,
                               last := ptr_add (ngx_align_ptr
                                 (ptr_add (y.malloc (pool_psize s)).1 SIZEOF_POOL_DATA)
                                 NGX_ALIGNMENT) size,
                               end_ := ptr_add (y.malloc (pool_psize s)).1 (pool_psize s),
                               failed := 0 }],
           current := cur },
         (y.malloc (pool_psize s)).2) ∧
      old.map Block.region = s.blocks.map Block.region ∧
      (cur = s.current ∨ (s.current < cur ∧ cur < s.blocks.length)) := by
  refine ⟨s.blocks.take s.current ++ (walk_failed (s.blocks.drop s.current) s.current s.current).1,
    (walk_failed (s.blocks.drop s.current) s.current s.current).2, ?_, ?_, ?_⟩
  · unfold ngx_palloc_block
    simp only [if_neg h]
  · rw [List.map_append, walk_failed_region, ← List.map_append, List.take_append_drop]
  · rcases walk_failed_current (s.blocks.drop s.current) s.current s.current with hc | hc
    · exact Or.inl hc
    · right
      rw [List.length_drop] at hc
      omega

theorem ngx_palloc_block_null {size : Nat} {s : Pool} {y : Sys}
    (h : (y.malloc (pool_psize s)).1 = 0) :
    ngx_palloc_block size s y = (0, s, (y.malloc (pool_psize s)).2) := by
  unfold ngx_palloc_block
  simp only [if_pos h]

/-! ## The invariant is kept by every call -/

theorem malloc_fst_ok {y : Sys} {n : Nat} (hr : (y.malloc n).1 ≠ 0) :
    (y.malloc n).1 % MALLOC_ALIGN = 0 ∧ (y.malloc n).1 + n < WORD := by
  cases hm : y.malloc n with
  | mk r y1 =>
    rw [hm] at hr
    exact ⟨(malloc_ok hm hr).1, (malloc_ok hm hr).2.1⟩

theorem Inv.with_blocks {C b0 : Nat} {s : Pool} {y : Sys} (h : Inv C b0 s y) {bs : List Block}
    (hb : bs.map Block.base = s.blocks.map Block.base)
    (hok : ∀ p ∈ bs,
      p.base % MALLOC_ALIGN = 0 ∧ p.end_ = p.base + C ∧ p.base + C < WORD ∧ p.last < WORD) :
    Inv C b0 { s with blocks := bs } y := by
  have hmem : ∀ p ∈ bs, ∃ q ∈ s.blocks, q.base = p.base := by
    intro p hp
    have : p.base ∈ bs.map Block.base := List.mem_map_of_mem _ hp
    rw [hb] at this
    obtain ⟨q, hq, hqe⟩ := List.mem_map.1 this
    exact ⟨q, hq, hqe⟩
  refine ⟨h.size_ge, ?_, hok, h.max_eq, ?_, ?_, h.large_nodup, ?_, ?_, h.large_live⟩
  · dsimp only
    rw [hb]
    exact h.head
  · have hl := congrArg List.length hb
    simp only [List.length_map] at hl
    dsimp only
    rw [hl]
    exact h.current_lt
  · dsimp only
    rw [hb]
    exact h.blocks_nodup
  · intro p hp
    obtain ⟨q, hq, hqe⟩ := hmem p hp
    rw [← hqe]
    exact h.apart q hq
  · intro p hp
    obtain ⟨q, hq, hqe⟩ := hmem p hp
    rw [← hqe]
    exact h.blocks_live q hq

theorem Inv.with_sys {C b0 : Nat} {s : Pool} {y y1 : Sys} (h : Inv C b0 s y)
    (hl : ∀ a ∈ y.live.map Prod.fst, a ∈ y1.live.map Prod.fst) : Inv C b0 s y1 :=
  ⟨h.size_ge, h.head, h.block_ok, h.max_eq, h.current_lt, h.blocks_nodup, h.large_nodup,
    h.apart, fun p hp => hl _ (h.blocks_live p hp), fun a ha => hl _ (h.large_live a ha)⟩

theorem Inv.psize {C b0 : Nat} {s : Pool} {y : Sys} (h : Inv C b0 s y) : pool_psize s = C := by
  have hh := h.head
  unfold pool_psize
  cases hb : s.blocks with
  | nil => rw [hb] at hh; simp at hh
  | cons p ps =>
    obtain ⟨-, h2, h3, -⟩ := h.block_ok p (by rw [hb]; exact List.mem_cons_self _ _)
    simp only [ptr_diff, WORD] at *
    omega

theorem Inv.palloc_small_loop {C b0 : Nat} {s : Pool} {y : Sys} (h : Inv C b0 s y)
    {size : Nat} {align : Bool} {m : Nat} {bs : List Block}
    (hl : small_loop size align s.blocks = some (m, bs)) :
    Inv C b0 { s with blocks := bs } y := by
  obtain ⟨h1, -, -, h4⟩ := small_loop_region hl
  refine h.with_blocks h1 ?_
  intro q hq
  rcases h4 q hq with hq | ⟨p, hp, rfl⟩
  · exact h.block_ok q hq
  · obtain ⟨a1, a2, a3, -⟩ := h.block_ok p hp
    refine ⟨a1, a2, a3, ?_⟩
    dsimp only [ptr_add]
    exact Nat.mod_lt _ (by decide)

theorem Inv.palloc_block {C b0 : Nat} {s : Pool} {y : Sys} (h : Inv C b0 s y) (size : Nat) :
    Inv C b0 (ngx_palloc_block size s y).2.1 (ngx_palloc_block size s y).2.2 := by
  by_cases hr : (y.malloc (pool_psize s)).1 = 0
  · rw [ngx_palloc_block_null hr]
    exact h.with_sys (fun a ha => mem_live_malloc ha)
  · obtain ⟨old, cur, heq, hreg, hcur⟩ := @ngx_palloc_block_ok size s y hr
    rw [heq]
    dsimp only
    have hps := h.psize
    obtain ⟨hfresh, hin⟩ := malloc_fresh hr
    obtain ⟨m1, m2⟩ := malloc_fst_ok hr
    have hbase := base_of_region_eq hreg
    have hlen : old.length = s.blocks.length := by
      have := congrArg List.length hbase
      simpa using this
    refine ⟨h.size_ge, ?_, ?_, h.max_eq, ?_, ?_, h.large_nodup, ?_, ?_, ?_⟩
    · dsimp only
      rw [List.map_append, hbase]
      have hh := h.head
      cases hb : s.blocks.map Block.base with
      | nil => rw [hb] at hh; simp at hh
      | cons x xs => rw [hb] at hh; simpa using hh
    · intro p hp
      rcases List.mem_append.1 hp with hp | hp
      · obtain ⟨q, hq, hqe⟩ := mem_of_region_eq hreg hp
        simp only [Block.region, Prod.mk.injEq] at hqe
        obtain ⟨a1, a2, a3, a4⟩ := h.block_ok q hq
        rw [hqe.1, hqe.2.1, hqe.2.2]
        exact ⟨a1, a2, a3, a4⟩
      · rw [List.mem_singleton] at hp
        subst hp
        dsimp only
        rw [hps] at m1 m2 ⊢
        refine ⟨m1, ?_, m2, ?_⟩
        · simp only [ptr_add]
          exact Nat.mod_eq_of_lt m2
        · simp only [ptr_add]
          exact Nat.mod_lt _ (by decide)
    · dsimp only
      rw [List.length_append, hlen, List.length_singleton]
      have := h.current_lt
      omega
    · dsimp only
      rw [List.map_append, hbase, List.map_singleton]
      refine List.Nodup.append h.blocks_nodup (List.nodup_singleton _) ?_
      intro a ha ha2
      rw [List.mem_singleton] at ha2
      subst ha2
      obtain ⟨q, hq, hqe⟩ := List.mem_map.1 ha
      have hlive := h.blocks_live q hq
      rw [hqe] at hlive
      exact hfresh hlive
    · intro p hp
      rcases List.mem_append.1 hp with hp | hp
      · obtain ⟨q, hq, hqe⟩ := mem_of_region_eq hreg hp
        simp only [Block.region, Prod.mk.injEq] at hqe
        rw [hqe.1]
        exact h.apart q hq
      · rw [List.mem_singleton] at hp
        subst hp
        dsimp only
        intro hmem
        exact hfresh (h.large_live _ hmem)
    · intro p hp
      rcases List.mem_append.1 hp with hp | hp
      · obtain ⟨q, hq, hqe⟩ := mem_of_region_eq hreg hp
        simp only [Block.region, Prod.mk.injEq] at hqe
        rw [hqe.1]
        exact mem_live_malloc (h.blocks_live q hq)
      · rw [List.mem_singleton] at hp
        subst hp
        exact hin
    · intro a ha
      exact mem_live_malloc (h.large_live a ha)

theorem Inv.palloc_small {C b0 : Nat} {s : Pool} {y : Sys} (h : Inv C b0 s y)
    (size : Nat) (align : Bool) :
    Inv C b0 (ngx_palloc_small size align s y).2.1 (ngx_palloc_small size align s y).2.2 := by
  unfold ngx_palloc_small
  cases hl : small_loop size align s.blocks with
  | none => exact h.palloc_block size
  | some r =>
    obtain ⟨m, bs⟩ := r
    exact h.palloc_small_loop hl

/-! ## The loops over the registry -/

theorem live_allocs_append (xs ys : List Large) :
    live_allocs (xs ++ ys) = live_allocs xs ++ live_allocs ys := by
  simp [live_allocs]

theorem live_allocs_cons_null {l : Large} (ls : List Large) (h : l.alloc = 0) :
    live_allocs (l :: ls) = live_allocs ls := by
  simp [live_allocs, h]

theorem live_allocs_cons_live {l : Large} (ls : List Large) (h : l.alloc ≠ 0) :
    live_allocs (l :: ls) = l.alloc :: live_allocs ls := by
  simp [live_allocs, h]

theorem mem_live_allocs {ls : List Large} {a : Nat} :
    a ∈ live_allocs ls ↔ a ≠ 0 ∧ ∃ l ∈ ls, l.alloc = a := by
  simp only [live_allocs, List.mem_filter, List.mem_map, decide_eq_true_eq]
  tauto

theorem reuse_loop_some {p : Nat} :
    ∀ {ls : List Large} {n : Nat} {ls1 : List Large}, reuse_loop p ls n = some ls1 →
      ∃ pre l post, ls = pre ++ l :: post ∧ (∀ q ∈ pre, q.alloc ≠ 0) ∧ l.alloc = 0 ∧
        (pre = [] ∨ pre.length + n ≤ 3) ∧ ls1 = pre ++ { l with alloc := p } :: post
  | [], n, ls1, h => by simp [reuse_loop] at h
  | l :: ls, n, ls1, h => by
    unfold reuse_loop at h
    by_cases h0 : l.alloc = 0
    · rw [if_pos h0] at h
      simp only [Option.some.injEq] at h
      exact ⟨[], l, ls, rfl, by simp, h0, Or.inl rfl, h.symm⟩
    · rw [if_neg h0] at h
      by_cases hn : 3 ≤ n
      · rw [if_pos hn] at h
        simp at h
      · rw [if_neg hn] at h
        cases hr : reuse_loop p ls (n + 1) with
        | none => rw [hr] at h; simp at h
        | some t =>
          rw [hr] at h
          simp only [Option.map_some', Option.some.injEq] at h
          obtain ⟨pre, l1, post, h1, h2, h3, h4, h5⟩ := reuse_loop_some hr
          refine ⟨l :: pre, l1, post, by simp [h1], ?_, h3, ?_, by simp [← h, h5]⟩
          · intro q hq
            rcases List.mem_cons.1 hq with rfl | hq
            · exact h0
            · exact h2 q hq
          · right
            rcases h4 with h4 | h4
            · subst h4
              simp only [List.length_cons, List.length_nil]
              omega
            · simp only [List.length_cons]
              omega

theorem reuse_loop_of_split {p : Nat} {l : Large} {post : List Large} (hl : l.alloc = 0) :
    ∀ (pre : List Large) (n : Nat), (∀ q ∈ pre, q.alloc ≠ 0) → (pre = [] ∨ pre.length + n ≤ 3) →
      reuse_loop p (pre ++ l :: post) n = some (pre ++ { l with alloc := p } :: post)
  | [], n, _, _ => by simp [reuse_loop, hl]
  | q :: pre, n, hpre, hlen => by
    have hq : q.alloc ≠ 0 := hpre q (List.mem_cons_self _ _)
    have hn : ¬ 3 ≤ n := by
      rcases hlen with hlen | hlen
      · simp at hlen
      · simp only [List.length_cons] at hlen
        omega
    have hlen1 : pre = [] ∨ pre.length + (n + 1) ≤ 3 := by
      rcases hlen with hlen | hlen
      · simp at hlen
      · right
        simp only [List.length_cons] at hlen
        omega
    have ih := @reuse_loop_of_split p l post hl pre (n + 1)
      (fun r hr => hpre r (List.mem_cons_of_mem _ hr)) hlen1
    simp [reuse_loop, hq, hn, ih]

theorem reuse_loop_none {p : Nat} :
    ∀ {ls : List Large} {n : Nat}, n ≤ 3 →
      (reuse_loop p ls n = none ↔ ∀ l ∈ ls.take (4 - n), l.alloc ≠ 0)
  | [], n, _ => by simp [reuse_loop]
  | l :: ls, n, hn => by
    unfold reuse_loop
    have h4 : 4 - n = (3 - n) + 1 := by omega
    rw [h4, List.take_succ_cons]
    by_cases h0 : l.alloc = 0
    · rw [if_pos h0]
      simp [h0]
    · rw [if_neg h0]
      by_cases h3 : 3 ≤ n
      · rw [if_pos h3]
        have : 3 - n = 0 := by omega
        simp [this, h0]
      · rw [if_neg h3]
        have ih := @reuse_loop_none p ls (n + 1) (by omega)
        have h5 : 4 - (n + 1) = 3 - n := by omega
        rw [h5] at ih
        simp only [Option.map_eq_none', List.mem_cons, forall_eq_or_imp]
        rw [ih]
        exact ⟨fun h => ⟨h0, h⟩, fun h => h.2⟩

theorem pfree_loop_some {p : Nat} :
    ∀ {ls ls1 : List Large}, pfree_loop p ls = some ls1 →
      ∃ pre l post, ls = pre ++ l :: post ∧ (∀ q ∈ pre, q.alloc ≠ p) ∧ l.alloc = p ∧
        ls1 = pre ++ { l with alloc := 0 } :: post
  | [], ls1, h => by simp [pfree_loop] at h
  | l :: ls, ls1, h => by
    unfold pfree_loop at h
    by_cases h0 : p = l.alloc
    · rw [if_pos h0] at h
      simp only [Option.some.injEq] at h
      exact ⟨[], l, ls, rfl, by simp, h0.symm, h.symm⟩
    · rw [if_neg h0] at h
      cases hr : pfree_loop p ls with
      | none => rw [hr] at h; simp at h
      | some t =>
        rw [hr] at h
        simp only [Option.map_some', Option.some.injEq] at h
        obtain ⟨pre, l1, post, h1, h2, h3, h5⟩ := pfree_loop_some hr
        refine ⟨l :: pre, l1, post, by simp [h1], ?_, h3, by simp [← h, h5]⟩
        intro q hq
        rcases List.mem_cons.1 hq with rfl | hq
        · exact fun hc => h0 hc.symm
        · exact h2 q hq

theorem pfree_loop_none {p : Nat} :
    ∀ {ls : List Large}, pfree_loop p ls = none ↔ ∀ l ∈ ls, l.alloc ≠ p
  | [] => by simp [pfree_loop]
  | l :: ls => by
    unfold pfree_loop
    by_cases h0 : p = l.alloc
    · rw [if_pos h0]
      simp [h0]
    · rw [if_neg h0]
      have ih := @pfree_loop_none p ls
      simp only [Option.map_eq_none', List.mem_cons, forall_eq_or_imp]
      rw [ih]
      exact ⟨fun h => ⟨fun hc => h0 hc.symm, h⟩, fun h => h.2⟩

/-! ## The invariant and the registry -/

theorem Inv.with_large {C b0 : Nat} {s : Pool} {y : Sys} (h : Inv C b0 s y) {L : List Large}
    (hl : live_allocs L = live_allocs s.large) : Inv C b0 { s with large := L } y := by
  refine ⟨h.size_ge, h.head, h.block_ok, h.max_eq, h.current_lt, h.blocks_nodup, ?_, ?_,
    h.blocks_live, ?_⟩
  · dsimp only
    rw [hl]
    exact h.large_nodup
  · dsimp only
    rw [hl]
    exact h.apart
  · dsimp only
    rw [hl]
    exact h.large_live

theorem Inv.insert_alloc {C b0 : Nat} {s : Pool} {y : Sys} (h : Inv C b0 s y) {L : List Large}
    {r : Nat} (hp : (live_allocs L).Perm (r :: live_allocs s.large))
    (h1 : r ∈ y.live.map Prod.fst) (h2 : ∀ p ∈ s.blocks, p.base ≠ r)
    (h3 : r ∉ live_allocs s.large) : Inv C b0 { s with large := L } y := by
  refine ⟨h.size_ge, h.head, h.block_ok, h.max_eq, h.current_lt, h.blocks_nodup, ?_, ?_,
    h.blocks_live, ?_⟩
  · dsimp only
    rw [hp.nodup_iff]
    exact List.nodup_cons.2 ⟨h3, h.large_nodup⟩
  · intro p hp1
    dsimp only
    rw [hp.mem_iff, List.mem_cons]
    rintro (hc | hc)
    · exact h2 p hp1 hc
    · exact h.apart p hp1 hc
  · intro a ha
    dsimp only at ha
    rw [hp.mem_iff, List.mem_cons] at ha
    rcases ha with rfl | ha
    · exact h1
    · exact h.large_live a ha

theorem Inv.remove_alloc {C b0 : Nat} {s : Pool} {y : Sys} (h : Inv C b0 s y) {L : List Large}
    {r : Nat} (hp : (live_allocs s.large).Perm (r :: live_allocs L)) :
    Inv C b0 { s with large := L } (y.free r) := by
  have hnd : (r :: live_allocs L).Nodup := hp.nodup_iff.1 h.large_nodup
  have hr : r ∈ live_allocs s.large := hp.mem_iff.2 (List.mem_cons_self _ _)
  refine ⟨h.size_ge, h.head, h.block_ok, h.max_eq, h.current_lt, h.blocks_nodup, ?_, ?_, ?_, ?_⟩
  · exact (List.nodup_cons.1 hnd).2
  · intro p hp1 hc
    exact h.apart p hp1 (hp.mem_iff.2 (List.mem_cons_of_mem _ hc))
  · intro p hp1
    rw [mem_live_free]
    refine ⟨h.blocks_live p hp1, Or.inr ?_⟩
    intro hc
    exact h.apart p hp1 (hc ▸ hr)
  · intro a ha
    rw [mem_live_free]
    refine ⟨h.large_live a (hp.mem_iff.2 (List.mem_cons_of_mem _ ha)), Or.inr ?_⟩
    intro hc
    subst hc
    exact (List.nodup_cons.1 hnd).1 ha

/-- The small path reads and writes only the block chain and `current`. -/
theorem ngx_palloc_block_frame (size : Nat) (s : Pool) (y : Sys) :
    (ngx_palloc_block size s y).2.1.max = s.max ∧
      (ngx_palloc_block size s y).2.1.large = s.large ∧
      (ngx_palloc_block size s y).2.1.cleanup = s.cleanup := by
  unfold ngx_palloc_block
  dsimp only
  split <;> exact ⟨rfl, rfl, rfl⟩

theorem ngx_palloc_small_frame (size : Nat) (align : Bool) (s : Pool) (y : Sys) :
    (ngx_palloc_small size align s y).2.1.max = s.max ∧
      (ngx_palloc_small size align s y).2.1.large = s.large ∧
      (ngx_palloc_small size align s y).2.1.cleanup = s.cleanup := by
  unfold ngx_palloc_small
  cases hl : small_loop size align s.blocks with
  | none => exact ngx_palloc_block_frame size s y
  | some r => exact ⟨rfl, rfl, rfl⟩

theorem ngx_palloc_small_with_large (size : Nat) (align : Bool) (s : Pool) (y : Sys)
    (L : List Large) :
    ngx_palloc_small size align { s with large := L } y =
      ((ngx_palloc_small size align s y).1,
       { (ngx_palloc_small size align s y).2.1 with large := L },
       (ngx_palloc_small size align s y).2.2) := by
  unfold ngx_palloc_small
  dsimp only
  cases hl : small_loop size align s.blocks with
  | none =>
    dsimp only
    unfold ngx_palloc_block pool_psize
    dsimp only
    split <;> rfl
  | some r => rfl

theorem Inv.palloc_large {C b0 : Nat} {s : Pool} {y : Sys} (h : Inv C b0 s y) (size : Nat) :
    Inv C b0 (ngx_palloc_large size s y).2.1 (ngx_palloc_large size s y).2.2 := by
  have h1 : Inv C b0 s (y.malloc size).2 := h.with_sys (fun a ha => mem_live_malloc ha)
  unfold ngx_palloc_large
  dsimp only
  by_cases hr : (y.malloc size).1 = 0
  · rw [if_pos hr]
    exact h1
  · rw [if_neg hr]
    obtain ⟨hfresh, hin⟩ := malloc_fresh hr
    have hb : ∀ p ∈ s.blocks, p.base ≠ (y.malloc size).1 := by
      intro p hp hc
      exact hfresh (hc ▸ h.blocks_live p hp)
    have hl : (y.malloc size).1 ∉ live_allocs s.large := fun hc => hfresh (h.large_live _ hc)
    cases hre : reuse_loop (y.malloc size).1 s.large 0 with
    | some ls =>
      dsimp only
      obtain ⟨pre, l, post, e1, -, e3, -, e5⟩ := reuse_loop_some hre
      refine h1.insert_alloc ?_ hin hb hl
      rw [e5, e1, live_allocs_append, live_allocs_append, live_allocs_cons_null _ e3,
        live_allocs_cons_live _ (by exact hr)]
      exact List.perm_middle
    | none =>
      dsimp only
      have haug : Inv C b0 { s with large := { node := 0, alloc := (y.malloc size).1 } :: s.large }
          (y.malloc size).2 := by
        refine h1.insert_alloc ?_ hin hb hl
        rw [live_allocs_cons_live _ (by exact hr)]
      have hsm := haug.palloc_small SIZEOF_POOL_LARGE true
      rw [ngx_palloc_small_with_large] at hsm
      dsimp only at hsm
      have hfr := (ngx_palloc_small_frame SIZEOF_POOL_LARGE true s (y.malloc size).2).2.1
      by_cases ha : (ngx_palloc_small SIZEOF_POOL_LARGE true s (y.malloc size).2).1 = 0
      · rw [if_pos ha]
        dsimp only
        have hrm := hsm.remove_alloc (L := s.large) (r := (y.malloc size).1)
          (by rw [live_allocs_cons_live _ (by exact hr)])
        dsimp only at hrm
        rw [← hfr] at hrm
        exact hrm
      · rw [if_neg ha]
        dsimp only
        have hwl := hsm.with_large
          (L := { node := (ngx_palloc_small SIZEOF_POOL_LARGE true s (y.malloc size).2).1,
                  alloc := (y.malloc size).1 } ::
            (ngx_palloc_small SIZEOF_POOL_LARGE true s (y.malloc size).2).2.1.large)
          (by
            rw [hfr, live_allocs_cons_live _ (by exact hr), live_allocs_cons_live _ (by exact hr)])
        exact hwl

theorem Inv.pfree {C b0 : Nat} {s : Pool} {y : Sys} (h : Inv C b0 s y) (p : Nat) :
    Inv C b0 (ngx_pfree p s y).2.1 (ngx_pfree p s y).2.2 := by
  unfold ngx_pfree
  cases hl : pfree_loop p s.large with
  | none => exact h
  | some ls =>
    dsimp only
    obtain ⟨pre, l, post, e1, -, e3, e5⟩ := pfree_loop_some hl
    by_cases hp : p = 0
    · subst hp
      have hsame : ls = s.large := by
        rw [e5, e1]
        congr 2
        cases l
        simp only at e3
        simp [e3]
      rw [hsame]
      simp only [Sys.free, if_true]
      exact h
    · refine h.remove_alloc ?_
      rw [e5, e1, live_allocs_append, live_allocs_append,
        live_allocs_cons_live _ (by rw [e3]; exact hp), live_allocs_cons_null _ rfl, e3]
      exact List.perm_middle

theorem free_larges_live :
    ∀ (ls : List Large) (y : Sys) (a : Nat),
      a ∈ (free_larges ls y).live.map Prod.fst ↔ a ∈ y.live.map Prod.fst ∧ a ∉ live_allocs ls
  | [], y, a => by simp [free_larges, live_allocs]
  | l :: ls, y, a => by
    unfold free_larges
    rw [free_larges_live ls]
    by_cases h0 : l.alloc = 0
    · simp only [h0, ne_eq, not_true_eq_false, if_false, live_allocs_cons_null ls h0]
    · simp only [ne_eq, h0, not_false_eq_true, if_true, live_allocs_cons_live ls h0,
        mem_live_free, List.mem_cons, not_or]
      constructor
      · rintro ⟨⟨h1, h2⟩, h3⟩
        rcases h2 with h2 | h2
        · exact h2.elim
        · exact ⟨h1, h2, h3⟩
      · rintro ⟨h1, h2, h3⟩
        exact ⟨⟨h1, Or.inr h2⟩, h3⟩

theorem Inv.reset {C b0 : Nat} {s : Pool} {y : Sys} (h : Inv C b0 s y) :
    Inv C b0 (ngx_reset_pool s y).1 (ngx_reset_pool s y).2 := by
  unfold ngx_reset_pool
  dsimp only
  have hbase : (s.blocks.map reset_block).map Block.base = s.blocks.map Block.base := by
    simp [List.map_map, Function.comp_def, reset_block]
  have hmem : ∀ p ∈ s.blocks.map reset_block, ∃ q ∈ s.blocks, p = reset_block q := by
    intro p hp
    obtain ⟨q, hq, rfl⟩ := List.mem_map.1 hp
    exact ⟨q, hq, rfl⟩
  refine ⟨h.size_ge, ?_, ?_, h.max_eq, ?_, ?_, ?_, ?_, ?_, ?_⟩
  · dsimp only
    rw [hbase]
    exact h.head
  · intro p hp
    obtain ⟨q, hq, rfl⟩ := hmem p hp
    obtain ⟨a1, a2, a3, -⟩ := h.block_ok q hq
    refine ⟨a1, a2, a3, ?_⟩
    simp only [reset_block, ptr_add]
    exact Nat.mod_lt _ (by decide)
  · dsimp only
    rw [List.length_map]
    have := h.current_lt
    omega
  · dsimp only
    rw [hbase]
    exact h.blocks_nodup
  · simp [live_allocs]
  · intro p _
    simp [live_allocs]
  · intro p hp
    obtain ⟨q, hq, rfl⟩ := hmem p hp
    rw [free_larges_live]
    exact ⟨h.blocks_live q hq, h.apart q hq⟩
  · intro a ha
    simp [live_allocs] at ha

theorem Inv.palloc {C b0 : Nat} {s : Pool} {y : Sys} (h : Inv C b0 s y) (size : Nat) :
    Inv C b0 (ngx_palloc size s y).2.1 (ngx_palloc size s y).2.2 := by
  unfold ngx_palloc
  split
  · exact h.palloc_small size true
  · exact h.palloc_large size

theorem Inv.pnalloc {C b0 : Nat} {s : Pool} {y : Sys} (h : Inv C b0 s y) (size : Nat) :
    Inv C b0 (ngx_pnalloc size s y).2.1 (ngx_pnalloc size s y).2.2 := by
  unfold ngx_pnalloc
  split
  · exact h.palloc_small size false
  · exact h.palloc_large size

theorem Inv.with_cleanup {C b0 : Nat} {s : Pool} {y : Sys} (h : Inv C b0 s y)
    (cs : List Cleanup) : Inv C b0 { s with cleanup := cs } y :=
  ⟨h.size_ge, h.head, h.block_ok, h.max_eq, h.current_lt, h.blocks_nodup, h.large_nodup,
    h.apart, h.blocks_live, h.large_live⟩

theorem Inv.cleanup_add {C b0 : Nat} {s : Pool} {y : Sys} (h : Inv C b0 s y) (size : Nat) :
    Inv C b0 (ngx_pool_cleanup_add size s y).2.1 (ngx_pool_cleanup_add size s y).2.2 := by
  have h1 := h.palloc SIZEOF_POOL_CLEANUP
  have h2 := h1.palloc size
  unfold ngx_pool_cleanup_add
  dsimp only
  split
  · exact h1
  · split
    · split
      · exact h2
      · exact h2.with_cleanup _
    · exact h1.with_cleanup _

theorem Inv.step {C b0 : Nat} {st : Pool × Sys} (h : Inv C b0 st.1 st.2) (op : Op) :
    Inv C b0 (step op st).1 (step op st).2 := by
  cases op with
  | palloc n => exact h.palloc n
  | pnalloc n => exact h.pnalloc n
  | pcalloc n => exact h.palloc n
  | pfree p => exact h.pfree p
  | cleanup_add n => exact h.cleanup_add n
  | handler c f => exact h.with_cleanup _
  | reset => exact h.reset

theorem Inv.run {C b0 : Nat} :
    ∀ (ops : List Op) {st : Pool × Sys}, Inv C b0 st.1 st.2 →
      Inv C b0 (run ops st).1 (run ops st).2
  | [], _, h => h
  | op :: ops, _, h => Inv.run ops (h.step op)

theorem Inv.create {C : Nat} {y0 : Sys} {p : Pool} {y1 : Sys} (hC : SIZEOF_POOL ≤ C)
    (h : ngx_create_pool C y0 = (some p, y1)) :
    ∃ b0, p.blocks = [{ base := b0, last := b0 + SIZEOF_POOL, end_ := b0 + C, failed := 0 }] ∧
      y0.malloc C = (b0, y1) ∧ b0 ≠ 0 ∧ p.current = 0 ∧ p.large = [] ∧ p.cleanup = [] ∧
      Inv C b0 p y1 := by
  unfold ngx_create_pool at h
  dsimp only at h
  by_cases hr : (y0.malloc C).1 = 0
  · rw [if_pos hr] at h
    simp at h
  · rw [if_neg hr] at h
    simp only [Prod.mk.injEq, Option.some.injEq] at h
    obtain ⟨hp, hy⟩ := h
    obtain ⟨m1, m2⟩ := malloc_fst_ok hr
    obtain ⟨-, hin⟩ := malloc_fresh hr
    have e1 : ptr_add (y0.malloc C).1 SIZEOF_POOL = (y0.malloc C).1 + SIZEOF_POOL := by
      simp only [ptr_add, SIZEOF_POOL, WORD] at *
      omega
    have e2 : ptr_add (y0.malloc C).1 C = (y0.malloc C).1 + C := by
      simp only [ptr_add, SIZEOF_POOL, WORD] at *
      omega
    rw [e1, e2] at hp
    subst hp
    subst hy
    refine ⟨(y0.malloc C).1, rfl, rfl, hr, rfl, rfl, rfl, ?_⟩
    refine ⟨hC, rfl, ?_, ?_, ?_, ?_, ?_, ?_, ?_, ?_⟩
    · intro q hq
      rw [List.mem_singleton] at hq
      subst hq
      refine ⟨m1, rfl, m2, ?_⟩
      simp only [SIZEOF_POOL, WORD] at *
      omega
    · dsimp only
      simp only [SIZEOF_POOL, WORD, NGX_MAX_ALLOC_FROM_POOL] at *
      split <;> omega
    · simp
    · simp
    · simp [live_allocs]
    · simp [live_allocs]
    · intro q hq
      rw [List.mem_singleton] at hq
      subst hq
      exact hin
    · intro a ha
      simp [live_allocs] at ha

theorem ReachableFrom.inv {C b0 : Nat} {s : Pool} {y : Sys} (h : ReachableFrom C b0 s y) :
    Inv C b0 s y := by
  obtain ⟨y0, p, y1, ops, hC, hcr, hb, hrun⟩ := h
  obtain ⟨b1, hp, -, -, -, -, -, hinv⟩ := Inv.create hC hcr
  have hb1 : b1 = b0 := by
    rw [hp] at hb
    simpa using hb
  subst hb1
  have := @Inv.run C b1 ops (p, y1) hinv
  rw [hrun] at this
  exact this

/-! ## C4: a new block -/

/-- Where the test of `ngx_palloc_small` fails on every block: for every pool state,
when `malloc` returns a buffer for the new block and the total size `psize` of the head
block has room for a header and `size` bytes, the chain afterwards is the old chain
(same blocks in the same order, `last` and `end` unchanged) followed by one new block
`n`; `malloc` was asked for `psize` bytes and `n.end - n.base = psize` whatever the
request size; the returned address is `n.base + sizeof(ngx_pool_data)` rounded up to
`NGX_ALIGNMENT` (which is `n.base + 32`), `n.last` is that address plus `size`, and
`n.failed = 0`. -/
theorem ngx_palloc_small_new_block (size : Nat) (align : Bool) (s : Pool) (y : Sys)
    (hfull : ∀ p ∈ s.blocks, fits size align p = false)
    (hm : (y.malloc (pool_psize s)).1 ≠ 0)
    (hsz : size + SIZEOF_POOL_DATA ≤ pool_psize s) :
    ∃ old n, (ngx_palloc_small size align s y).2.1.blocks = old ++ [n] ∧
      old.map Block.region = s.blocks.map Block.region ∧
      y.malloc (pool_psize s) = (n.base, (ngx_palloc_small size align s y).2.2) ∧
      n.end_ = n.base + pool_psize s ∧
      (ngx_palloc_small size align s y).1 =
        ngx_align_ptr (n.base + SIZEOF_POOL_DATA) NGX_ALIGNMENT ∧
      (ngx_palloc_small size align s y).1 = n.base + SIZEOF_POOL_DATA ∧
      n.last = (ngx_palloc_small size align s y).1 + size ∧ n.failed = 0 := by
  have hnone : small_loop size align s.blocks = none := small_loop_none.2 hfull
  obtain ⟨old, cur, heq, hreg, -⟩ := @ngx_palloc_block_ok size s y hm
  obtain ⟨m1, m2⟩ := malloc_fst_ok hm
  have hres : ngx_palloc_small size align s y = ngx_palloc_block size s y := by
    unfold ngx_palloc_small
    rw [hnone]
  rw [hres, heq]
  have hmal : y.malloc (pool_psize s) = ((y.malloc (pool_psize s)).1, (y.malloc (pool_psize s)).2) :=
    rfl
  generalize (y.malloc (pool_psize s)).1 = b at *
  generalize pool_psize s = C at *
  have e1 : ptr_add b SIZEOF_POOL_DATA = b + SIZEOF_POOL_DATA := by
    simp only [ptr_add, SIZEOF_POOL_DATA, WORD] at *
    omega
  have e2 : ngx_align_ptr (b + SIZEOF_POOL_DATA) NGX_ALIGNMENT = b + SIZEOF_POOL_DATA := by
    apply ngx_align_ptr_of_aligned
    · simp only [MALLOC_ALIGN, NGX_ALIGNMENT, SIZEOF_POOL_DATA] at *
      omega
    · simp only [SIZEOF_POOL_DATA, WORD] at *
      omega
  refine ⟨old, _, rfl, hreg, ?_, ?_, ?_, ?_, ?_, rfl⟩
  · exact hmal
  · dsimp only
    simp only [ptr_add, WORD] at *
    omega
  · dsimp only
    rw [e1]
  · dsimp only
    rw [e1, e2]
  · dsimp only
    rw [e1, e2]
    simp only [ptr_add, SIZEOF_POOL_DATA, WORD] at *
    omega

/-- The new block on a pool of `ngx_create_pool(80)` filled by `ngx_palloc(16)`: a
request of 8 bytes gets the block at 8192, of 80 bytes, and is served at 8224. -/
theorem ngx_palloc_small_new_block_example :
    ∃ old n,
      (ngx_palloc_small 8 true
        { blocks := [{ base := 4096, last := 4176, end_ := 4176, failed := 0 }],
          max := 16, current := 0, large := [], cleanup := [] }
        { oracle := [8192], live := [(4096, 80)], trace := [Event.malloc 80 4096] }).2.1.blocks =
        old ++ [n] ∧
      old.map Block.region = [(4096, 4176, 4176)] ∧ n.base = 8192 ∧ n.end_ = 8192 + 80 ∧
      n.last = 8192 + 32 + 8 ∧ n.failed = 0 := by
  obtain ⟨old, n, h1, h2, h3, h4, -, h6, h7, h8⟩ :=
    ngx_palloc_small_new_block 8 true
      { blocks := [{ base := 4096, last := 4176, end_ := 4176, failed := 0 }],
        max := 16, current := 0, large := [], cleanup := [] }
      { oracle := [8192], live := [(4096, 80)], trace := [Event.malloc 80 4096] }
      (by decide) (by decide) (by decide)
  have hb : n.base = 8192 := by
    have := congrArg Prod.fst h3
    exact this.symm
  refine ⟨old, n, h1, h2, hb, ?_, ?_, h8⟩
  · rw [h4, hb]
    rfl
  · rw [h7, h6, hb]
    rfl

/-- C4, at the failing input: in the pool left by `ngx_create_pool(100)` at 4096 and
`ngx_palloc(33)` the only block has `last = 4193` and `end = 4196`; the aligned
candidate is 4200, so the block has no room for a request of 1 byte, and `malloc`
would return the buffer 4208 for a new block of 100 bytes.  Still `ngx_palloc(1)` adds
no block and does not call `malloc`: it returns 4200, beyond the end of the head block,
and moves `last` to 4201. -/
theorem palloc_overruns_instead_of_appending_block :
    run [Op.palloc 33] (odd_pool, odd_sys) =
      ({ odd_pool with blocks := [{ base := 4096, last := 4193, end_ := 4196, failed := 0 }] },
       odd_sys) ∧
    (∀ p ∈ [({ base := 4096, last := 4193, end_ := 4196, failed := 0 } : Block)],
      p.end_ < candidate true p + 1) ∧
    pool_psize
      { odd_pool with blocks := [{ base := 4096, last := 4193, end_ := 4196, failed := 0 }] } =
      100 ∧
    (odd_sys.malloc 100).1 = 4208 ∧
    ngx_palloc 1
        { odd_pool with blocks := [{ base := 4096, last := 4193, end_ := 4196, failed := 0 }] }
        odd_sys =
      (4200,
       { odd_pool with blocks := [{ base := 4096, last := 4201, end_ := 4196, failed := 0 }] },
       odd_sys) := by
  refine ⟨by decide, by decide, by decide, by decide, by decide⟩

/-! ## C5: reuse of freed registry slots -/

/-- C5: let `malloc(size)` succeed with buffer `p`.  If one of the first 4 registry
nodes has a null buffer, `ngx_palloc_large` stores `p` in the first node of the
registry with a null buffer (fewer than 4 nodes precede it) and changes nothing else:
same nodes in the same order, same blocks.  If none of the first 4 nodes has a null
buffer, the registry is left as it is, null buffers further down included, and once the
node is allocated by `ngx_palloc_small(sizeof(ngx_pool_large), true)` at `a` the
registry becomes the new node `(a, p)` followed by the old registry. -/
theorem ngx_palloc_large_reuses_first_four (size : Nat) (s : Pool) (y : Sys)
    (hm : (y.malloc size).1 ≠ 0) :
    ((∃ l ∈ s.large.take 4, l.alloc = 0) →
      ∃ pre l post, s.large = pre ++ l :: post ∧ pre.length < 4 ∧
        (∀ q ∈ pre, q.alloc ≠ 0) ∧ l.alloc = 0 ∧
        ngx_palloc_large size s y =
          ((y.malloc size).1,
           { s with large := pre ++ { l with alloc := (y.malloc size).1 } :: post },
           (y.malloc size).2)) ∧
    ((∀ l ∈ s.large.take 4, l.alloc ≠ 0) →
      (ngx_palloc_small SIZEOF_POOL_LARGE true s (y.malloc size).2).1 ≠ 0 →
      ngx_palloc_large size s y =
        ((y.malloc size).1,
         { (ngx_palloc_small SIZEOF_POOL_LARGE true s (y.malloc size).2).2.1 with
           large := { node := (ngx_palloc_small SIZEOF_POOL_LARGE true s (y.malloc size).2).1,
                      alloc := (y.malloc size).1 } :: s.large },
         (ngx_palloc_small SIZEOF_POOL_LARGE true s (y.malloc size).2).2.2)) := by
  have hnone := @reuse_loop_none (y.malloc size).1 s.large 0 (by omega)
  constructor
  · intro hex
    cases hre : reuse_loop (y.malloc size).1 s.large 0 with
    | none =>
      rw [hre] at hnone
      obtain ⟨l, hl, hl0⟩ := hex
      exact absurd hl0 (hnone.1 rfl l hl)
    | some ls =>
      obtain ⟨pre, l, post, e1, e2, e3, e4, e5⟩ := reuse_loop_some hre
      refine ⟨pre, l, post, e1, ?_, e2, e3, ?_⟩
      · rcases e4 with e4 | e4
        · simp [e4]
        · omega
      · unfold ngx_palloc_large
        dsimp only
        rw [if_neg hm, hre, e5]
  · intro hall ha
    have hre : reuse_loop (y.malloc size).1 s.large 0 = none := hnone.2 hall
    have hfr := (ngx_palloc_small_frame SIZEOF_POOL_LARGE true s (y.malloc size).2).2.1
    unfold ngx_palloc_large
    dsimp only
    rw [if_neg hm, hre]
    dsimp only
    rw [if_neg ha, hfr]

/-- C5 at two registries of five nodes: with a null buffer in the third node the new
buffer 32768 goes into that node; with the only null buffer in the fifth node a new
node is allocated at 4240 and put in front, and the fifth node stays null. -/
theorem ngx_palloc_large_reuses_first_four_witness :
    (example_sys.malloc 5000).1 ≠ 0 ∧ (example_sys_fifth_free.malloc 5000).1 ≠ 0 ∧
    (ngx_palloc_large 5000 example_pool example_sys).2.1.large =
      [{ node := 4224, alloc := 24576 }, { node := 4208, alloc := 16384 },
       { node := 4192, alloc := 32768 }, { node := 4176, alloc := 8192 },
       { node := 4160, alloc := 0 }] ∧
    (ngx_palloc_large 5000 example_pool_fifth_free example_sys_fifth_free).2.1.large =
      { node := 4240, alloc := 32768 } :: example_pool_fifth_free.large := by
  refine ⟨by decide, by decide, ?_, ?_⟩
  · obtain ⟨pre, l, post, -, -, -, -, -⟩ :=
      (ngx_palloc_large_reuses_first_four 5000 example_pool example_sys (by decide)).1
        ⟨{ node := 4192, alloc := 0 }, by decide, rfl⟩
    decide
  · rw [(ngx_palloc_large_reuses_first_four 5000 example_pool_fifth_free
      example_sys_fifth_free (by decide)).2 (by decide) (by decide)]
    decide

/-! ## C6: freeing a large buffer -/

/-- A successful `ngx_palloc_large` leaves its result as the buffer of a registry node. -/
theorem ngx_palloc_large_tracked (size : Nat) (s : Pool) (y : Sys)
    (h : (ngx_palloc_large size s y).1 ≠ 0) :
    (ngx_palloc_large size s y).1 = (y.malloc size).1 ∧
      (ngx_palloc_large size s y).1 ∈ live_allocs (ngx_palloc_large size s y).2.1.large := by
  unfold ngx_palloc_large at h ⊢
  dsimp only at h ⊢
  by_cases hm : (y.malloc size).1 = 0
  · rw [if_pos hm] at h
    exact absurd rfl h
  · rw [if_neg hm] at h ⊢
    cases hre : reuse_loop (y.malloc size).1 s.large 0 with
    | some ls =>
      obtain ⟨pre, l, post, -, -, -, -, e5⟩ := reuse_loop_some hre
      dsimp only
      refine ⟨rfl, ?_⟩
      rw [e5, mem_live_allocs]
      exact ⟨hm, { l with alloc := (y.malloc size).1 }, by simp, rfl⟩
    | none =>
      rw [hre] at h
      dsimp only at h ⊢
      by_cases ha : (ngx_palloc_small SIZEOF_POOL_LARGE true s (y.malloc size).2).1 = 0
      · rw [if_pos ha] at h
        exact absurd rfl h
      · rw [if_neg ha]
        dsimp only
        refine ⟨rfl, ?_⟩
        rw [mem_live_allocs]
        exact ⟨hm, _, List.mem_cons_self _ _, rfl⟩

/-- For every pool state and every non-null `p` that is the buffer of a registry node,
`ngx_pfree(p)` returns true, calls `free(p)` and sets the buffer of the first node
holding `p` to null, leaving every node in place; when no node behind that one holds
`p` as well, `ngx_pfree(p)` right after returns false and changes nothing. -/
theorem ngx_pfree_clears_first_holder (p : Nat) (s : Pool) (y : Sys)
    (hp : p ≠ 0) (hmem : ∃ l ∈ s.large, l.alloc = p) :
    ∃ pre l post, s.large = pre ++ l :: post ∧ (∀ q ∈ pre, q.alloc ≠ p) ∧ l.alloc = p ∧
      ngx_pfree p s y =
        (true, { s with large := pre ++ { l with alloc := 0 } :: post }, y.free p) ∧
      ((∀ q ∈ post, q.alloc ≠ p) →
        ngx_pfree p { s with large := pre ++ { l with alloc := 0 } :: post } (y.free p) =
          (false, { s with large := pre ++ { l with alloc := 0 } :: post }, y.free p)) := by
  cases hl : pfree_loop p s.large with
  | none =>
    obtain ⟨l, hl1, hl2⟩ := hmem
    exact absurd hl2 (pfree_loop_none.1 hl l hl1)
  | some ls =>
    obtain ⟨pre, l, post, e1, e2, e3, e5⟩ := pfree_loop_some hl
    refine ⟨pre, l, post, e1, e2, e3, ?_, ?_⟩
    · unfold ngx_pfree
      rw [hl, e5]
    · intro hpost
      have hnone : pfree_loop p (pre ++ { l with alloc := 0 } :: post) = none := by
        rw [pfree_loop_none]
        intro q hq
        rw [List.mem_append, List.mem_cons] at hq
        rcases hq with hq | rfl | hq
        · exact e2 q hq
        · exact fun hc => hp hc.symm
        · exact hpost q hq
      unfold ngx_pfree
      dsimp only
      rw [hnone]

/-- The two calls of `ngx_pfree` after `ngx_create_pool(4096)` at 4096 and
`ngx_palloc(5000)`, which returned 8192: the first returns true, the second false. -/
theorem ngx_pfree_clears_first_holder_example :
    (ngx_pfree 8192 large_pool large_sys).1 = true ∧
    (ngx_pfree 8192 large_pool large_sys).2.1.large = [{ node := 4160, alloc := 0 }] ∧
    (ngx_pfree 8192 (ngx_pfree 8192 large_pool large_sys).2.1
      (ngx_pfree 8192 large_pool large_sys).2.2).1 = false := by
  obtain ⟨pre, l, post, -, -, -, h1, -⟩ :=
    ngx_pfree_clears_first_holder 8192 large_pool large_sys (by decide)
      ⟨{ node := 4160, alloc := 8192 }, by decide, rfl⟩
  refine ⟨?_, by decide, by decide⟩
  rw [h1]

/-- C6, at the failing input: after `ngx_create_pool(100)` at 4096, the calls
`ngx_pnalloc(20)`, `ngx_palloc(5000)` (buffer 8192, its registry node in a new block,
at 4240), `ngx_pnalloc(16)` and five calls `ngx_palloc(8)` leave the head block with
`last = 4240`, beyond its `end = 4196`, and the registry with the one node at 4240
that holds 8192.  The next `ngx_palloc(5000)` returns the buffer 16384 and takes its
registry node from the head block at 4240 again: the new head of the registry is at the
address of the node that holds 8192. -/
theorem large_node_carved_on_live_node :
    run [Op.pnalloc 20, Op.palloc 5000, Op.pnalloc 16, Op.palloc 8, Op.palloc 8, Op.palloc 8,
         Op.palloc 8, Op.palloc 8] (odd_pool, node_twice_sys) =
      ({ blocks := [{ base := 4096, last := 4240, end_ := 4196, failed := 0 },
                    { base := 4208, last := 4256, end_ := 4308, failed := 0 }],
         max := 36, current := 0, large := [{ node := 4240, alloc := 8192 }], cleanup := [] },
       { oracle := [16384], live := [(4208, 100), (8192, 5000), (4096, 100)],
         trace := [Event.malloc 100 4096, Event.malloc 5000 8192, Event.malloc 100 4208] }) ∧
    (ngx_palloc 5000
      { blocks := [{ base := 4096, last := 4240, end_ := 4196, failed := 0 },
                   { base := 4208, last := 4256, end_ := 4308, failed := 0 }],
        max := 36, current := 0, large := [{ node := 4240, alloc := 8192 }], cleanup := [] }
      { oracle := [16384], live := [(4208, 100), (8192, 5000), (4096, 100)],
        trace := [Event.malloc 100 4096, Event.malloc 5000 8192, Event.malloc 100 4208] }).1 =
      16384 ∧
    (ngx_palloc 5000
      { blocks := [{ base := 4096, last := 4240, end_ := 4196, failed := 0 },
                   { base := 4208, last := 4256, end_ := 4308, failed := 0 }],
        max := 36, current := 0, large := [{ node := 4240, alloc := 8192 }], cleanup := [] }
      { oracle := [16384], live := [(4208, 100), (8192, 5000), (4096, 100)],
        trace := [Event.malloc 100 4096, Event.malloc 5000 8192, Event.malloc 100 4208]
      }).2.1.large.head? = some { node := 4240, alloc := 16384 } := by
  refine ⟨by decide, by decide, by decide⟩

/-! ## C7: freeing a pointer the registry does not hold -/

/-- C7 as stated fails for the null pointer: after `ngx_create_pool(4096)` at 4096,
`ngx_palloc(5000)` (which returns 8192) and `ngx_pfree(8192)`, the registry has one node
with a null buffer, the null pointer is not the buffer of a live node, and
`ngx_pfree(nullptr)` returns true. -/
theorem ngx_pfree_null_returns_true :
    ngx_create_pool 4096 { oracle := [4096, 8192], live := [], trace := [] } =
      (some { blocks := [{ base := 4096, last := 4160, end_ := 8192, failed := 0 }],
              max := 4032, current := 0, large := [], cleanup := [] },
       { oracle := [8192], live := [(4096, 4096)], trace := [Event.malloc 4096 4096] }) ∧
    (run [Op.palloc 5000, Op.pfree 8192]
        ({ blocks := [{ base := 4096, last := 4160, end_ := 8192, failed := 0 }],
           max := 4032, current := 0, large := [], cleanup := [] },
         { oracle := [8192], live := [(4096, 4096)], trace := [Event.malloc 4096 4096] })).1.large =
      [{ node := 4160, alloc := 0 }] ∧
    (ngx_pfree 0
        (run [Op.palloc 5000, Op.pfree 8192]
          ({ blocks := [{ base := 4096, last := 4160, end_ := 8192, failed := 0 }],
             max := 4032, current := 0, large := [], cleanup := [] },
           { oracle := [8192], live := [(4096, 4096)], trace := [Event.malloc 4096 4096] })).1
        (run [Op.palloc 5000, Op.pfree 8192]
          ({ blocks := [{ base := 4096, last := 4160, end_ := 8192, failed := 0 }],
             max := 4032, current := 0, large := [], cleanup := [] },
           { oracle := [8192], live := [(4096, 4096)], trace := [Event.malloc 4096 4096] })).2).1 = true := by
  refine ⟨by decide, by decide, by decide⟩

/-- C7, amended: for a pointer `p` that is not the buffer of a live registry node,
`ngx_pfree(p)` leaves the pool and the system as they are (nothing is released); it
returns true only for the null pointer when some registry node has a null buffer, so
for every non-null `p` it returns false. -/
theorem ngx_pfree_not_live_changes_nothing (p : Nat) (s : Pool) (y : Sys)
    (h : p ∉ live_allocs s.large) :
    (ngx_pfree p s y).2 = (s, y) ∧
      ((ngx_pfree p s y).1 = true ↔ p = 0 ∧ ∃ l ∈ s.large, l.alloc = 0) := by
  unfold ngx_pfree
  cases hl : pfree_loop p s.large with
  | none =>
    dsimp only
    refine ⟨rfl, ?_⟩
    constructor
    · intro hc
      exact absurd hc (by decide)
    · rintro ⟨rfl, l, hl1, hl2⟩
      exact absurd hl2 (pfree_loop_none.1 hl l hl1)
  | some ls =>
    dsimp only
    obtain ⟨pre, l, post, e1, -, e3, e5⟩ := pfree_loop_some hl
    have hp : p = 0 := by
      by_contra hne
      exact h (mem_live_allocs.2 ⟨hne, l, by rw [e1]; simp, e3⟩)
    subst hp
    have hsame : ls = s.large := by
      rw [e5, e1]
      congr 2
      cases l
      simp only at e3
      simp [e3]
    rw [hsame]
    refine ⟨by simp [Sys.free], ?_⟩
    simp only [true_and, true_iff]
    exact ⟨l, by rw [e1]; simp, e3⟩

/-- C7, amended, at `example_pool`: the address 4160 of a small allocation is not a
buffer of the registry. -/
theorem ngx_pfree_not_live_changes_nothing_witness :
    4160 ∉ live_allocs example_pool.large ∧
    (ngx_pfree 4160 example_pool example_sys).2 = (example_pool, example_sys) ∧
    ((ngx_pfree 4160 example_pool example_sys).1 = true ↔
      4160 = 0 ∧ ∃ l ∈ example_pool.large, l.alloc = 0) :=
  ⟨by decide, ngx_pfree_not_live_changes_nothing 4160 example_pool example_sys (by decide)⟩

/-! ## Traces of the loops of `ngx_destroy_pool` and `ngx_reset_pool` -/

theorem run_cleanups_eq :
    ∀ (cs : List Cleanup) (y : Sys),
      run_cleanups cs y = { y with trace := y.trace ++ cleanup_calls cs }
  | [], y => by simp [run_cleanups, cleanup_calls]
  | c :: cs, y => by
    unfold run_cleanups
    rw [run_cleanups_eq cs]
    by_cases h : c.handler = 0
    · simp [h, cleanup_calls]
    · simp [h, cleanup_calls, Sys.call]

theorem free_larges_trace :
    ∀ (ls : List Large) (y : Sys),
      (free_larges ls y).trace = y.trace ++ (live_allocs ls).map Event.free ∧
        (free_larges ls y).oracle = y.oracle
  | [], y => by simp [free_larges, live_allocs]
  | l :: ls, y => by
    unfold free_larges
    obtain ⟨ih1, ih2⟩ := free_larges_trace ls (if l.alloc ≠ 0 then y.free l.alloc else y)
    rw [ih1, ih2]
    by_cases h : l.alloc = 0
    · simp [h, live_allocs]
    · simp [h, live_allocs, Sys.free]

theorem ngx_palloc_large_frame (size : Nat) (s : Pool) (y : Sys) :
    (ngx_palloc_large size s y).2.1.max = s.max ∧
      (ngx_palloc_large size s y).2.1.cleanup = s.cleanup := by
  have hf := ngx_palloc_small_frame SIZEOF_POOL_LARGE true s (y.malloc size).2
  unfold ngx_palloc_large
  dsimp only
  split
  · exact ⟨rfl, rfl⟩
  · split
    · exact ⟨rfl, rfl⟩
    · split
      · exact ⟨hf.1, hf.2.2⟩
      · exact ⟨hf.1, hf.2.2⟩

theorem ngx_palloc_frame (size : Nat) (s : Pool) (y : Sys) :
    (ngx_palloc size s y).2.1.max = s.max ∧ (ngx_palloc size s y).2.1.cleanup = s.cleanup := by
  unfold ngx_palloc
  split
  · exact ⟨(ngx_palloc_small_frame size true s y).1, (ngx_palloc_small_frame size true s y).2.2⟩
  · exact ngx_palloc_large_frame size s y

/-- A successful `ngx_pool_cleanup_add` puts the new entry, with its handler unset and
its own data pointer, in front of the cleanup chain. -/
theorem ngx_pool_cleanup_add_ok (size : Nat) (s : Pool) (y : Sys)
    (h : (ngx_pool_cleanup_add size s y).1 ≠ 0) :
    ∃ d, (ngx_pool_cleanup_add size s y).2.1.cleanup =
        { node := (ngx_pool_cleanup_add size s y).1, handler := 0, data := d } :: s.cleanup ∧
      (size = 0 → d = 0) ∧
      (size ≠ 0 → d ≠ 0 ∧ d = (ngx_palloc size (ngx_palloc SIZEOF_POOL_CLEANUP s y).2.1
        (ngx_palloc SIZEOF_POOL_CLEANUP s y).2.2).1) := by
  have f1 := (ngx_palloc_frame SIZEOF_POOL_CLEANUP s y).2
  have f2 := (ngx_palloc_frame size (ngx_palloc SIZEOF_POOL_CLEANUP s y).2.1
    (ngx_palloc SIZEOF_POOL_CLEANUP s y).2.2).2
  unfold ngx_pool_cleanup_add at h ⊢
  dsimp only at h ⊢
  by_cases hc : (ngx_palloc SIZEOF_POOL_CLEANUP s y).1 = 0
  · rw [if_pos hc] at h
    exact absurd rfl h
  · rw [if_neg hc] at h ⊢
    by_cases hs : size = 0
    · subst hs
      simp only [ne_eq, not_true_eq_false, if_false]
      exact ⟨0, by rw [f1], fun _ => rfl, fun hne => hne.elim⟩
    · rw [if_pos hs] at h ⊢
      by_cases hd : (ngx_palloc size (ngx_palloc SIZEOF_POOL_CLEANUP s y).2.1
          (ngx_palloc SIZEOF_POOL_CLEANUP s y).2.2).1 = 0
      · rw [if_pos hd] at h
        exact absurd rfl h
      · rw [if_neg hd]
        dsimp only
        exact ⟨_, by rw [f2, f1], fun h0 => absurd h0 hs, fun _ => ⟨hd, rfl⟩⟩

theorem set_handler_head {c h d : Nat} {cs : List Cleanup} {s : Pool}
    (hs : s.cleanup = { node := c, handler := 0, data := d } :: cs)
    (hnd : ∀ e ∈ cs, e.node ≠ c) :
    (set_handler c h s).cleanup = { node := c, handler := h, data := d } :: cs := by
  unfold set_handler
  dsimp only
  rw [hs, List.map_cons]
  simp only [if_true]
  congr 1
  rw [List.map_congr_left (g := id)]
  · simp
  · intro e he
    simp [hnd e he]

/-! ## C8: cleanup handlers run in reverse order of registration -/

theorem free_blocks_frees :
    ∀ (bs : List Block) (y : Sys),
      ∃ rest, (free_blocks bs y).trace = y.trace ++ rest ∧ ∀ e ∈ rest, ∃ a, e = Event.free a
  | [], y => ⟨[], by simp [free_blocks], by simp⟩
  | p :: ps, y => by
    unfold free_blocks
    obtain ⟨rest, h1, h2⟩ := free_blocks_frees ps (y.free p.base)
    by_cases hp : p.base = 0
    · refine ⟨rest, ?_, h2⟩
      rw [h1]
      simp [Sys.free, hp]
    · refine ⟨Event.free p.base :: rest, ?_, ?_⟩
      · rw [h1]
        simp [Sys.free, hp]
      · intro e he
        rcases List.mem_cons.1 he with rfl | he
        · exact ⟨_, rfl⟩
        · exact h2 e he

/-- The trace of `ngx_destroy_pool`: the calls of the cleanup chain, then only calls
of `free`. -/
theorem ngx_destroy_pool_trace (s : Pool) (y : Sys) :
    ∃ rest, (ngx_destroy_pool s y).trace = y.trace ++ cleanup_calls s.cleanup ++ rest ∧
      ∀ e ∈ rest, ∃ a, e = Event.free a := by
  unfold ngx_destroy_pool
  obtain ⟨rest, h1, h2⟩ := free_blocks_frees s.blocks (free_larges s.large (run_cleanups s.cleanup y))
  refine ⟨(live_allocs s.large).map Event.free ++ rest, ?_, ?_⟩
  · rw [h1, (free_larges_trace _ _).1, run_cleanups_eq]
    simp
  · intro e he
    rcases List.mem_append.1 he with he | he
    · obtain ⟨a, -, rfl⟩ := List.mem_map.1 he
      exact ⟨a, rfl⟩
    · exact h2 e he

theorem set_handler_nodes (c h : Nat) (s : Pool) :
    (set_handler c h s).cleanup.map Cleanup.node = s.cleanup.map Cleanup.node := by
  unfold set_handler
  dsimp only
  rw [List.map_map]
  apply List.map_congr_left
  intro e _
  simp only [Function.comp_apply]
  split <;> rfl

theorem register_all_chain :
    ∀ (regs : List (Nat × Nat)) (s : Pool) (y : Sys) (s1 : Pool) (y1 : Sys),
      register_all regs (s, y) = some (s1, y1) → (s1.cleanup.map Cleanup.node).Nodup →
      ∃ new, s1.cleanup = new ++ s.cleanup ∧
        new.reverse.map Cleanup.handler = regs.map Prod.snd
  | [], s, y, s1, y1, h, _ => by
    simp only [register_all, Option.some.injEq, Prod.mk.injEq] at h
    exact ⟨[], by simp [h.1], rfl⟩
  | r :: rest, s, y, s1, y1, h, hnd => by
    unfold register_all at h
    dsimp only at h
    by_cases hc : (ngx_pool_cleanup_add r.1 s y).1 = 0
    · rw [if_pos hc] at h
      simp at h
    · rw [if_neg hc] at h
      obtain ⟨new, h1, h2⟩ := register_all_chain rest _ _ s1 y1 h hnd
      obtain ⟨d, hd, -, -⟩ := ngx_pool_cleanup_add_ok r.1 s y hc
      have hnodes := set_handler_nodes (ngx_pool_cleanup_add r.1 s y).1 r.2
        (ngx_pool_cleanup_add r.1 s y).2.1
      have hnd2 : ∀ e ∈ s.cleanup, e.node ≠ (ngx_pool_cleanup_add r.1 s y).1 := by
        rw [h1, List.map_append, hnodes, hd, List.map_cons] at hnd
        have h3 := (List.nodup_append.1 hnd).2.1
        have h4 := (List.nodup_cons.1 h3).1
        intro e he hce
        have hmem : e.node ∈ s.cleanup.map Cleanup.node := List.mem_map_of_mem Cleanup.node he
        rw [hce] at hmem
        exact h4 hmem
      have hhead := set_handler_head (h := r.2) hd hnd2
      refine ⟨new ++ [{ node := (ngx_pool_cleanup_add r.1 s y).1, handler := r.2, data := d }],
        ?_, ?_⟩
      · rw [h1, hhead]
        simp
      · rw [List.reverse_append, List.map_append, h2]
        simp

/-- C8, at the failing input: on the pool of `ngx_create_pool(100)` at 4096, four
registrations, the second with 9 bytes of data, each followed by the write of its
handler.  The handles returned are 4160, 4240 (in the new block at 4208, after which
the head block has `last = 4193`), 4200 and 4224: the third and the fourth entry are
taken from the head block beyond its `end = 4196`.  The chain is the four entries, last registered first, with the data
pointers 0, 0, 4184, 0; the field `next` of the fourth entry, at
`4224 + OFFSETOF_CLEANUP_NEXT`, is the address 4240 of the second entry, where its
field `handler` lies, so the 24 bytes of the two entries overlap. -/
theorem cleanup_entry_carved_on_earlier_entry :
    (register_all [(0, 101)] (odd_pool, odd_sys)).map
      (fun st => st.1.cleanup.map Cleanup.node) = some [4160] ∧
    (register_all [(0, 101), (9, 102)] (odd_pool, odd_sys)).map
      (fun st => st.1.cleanup.map Cleanup.node) = some [4240, 4160] ∧
    (register_all [(0, 101), (9, 102)] (odd_pool, odd_sys)).map (fun st => st.1.blocks) =
      some [{ base := 4096, last := 4193, end_ := 4196, failed := 0 },
            { base := 4208, last := 4264, end_ := 4308, failed := 0 }] ∧
    (register_all [(0, 101), (9, 102), (0, 103)] (odd_pool, odd_sys)).map
      (fun st => st.1.cleanup.map Cleanup.node) = some [4200, 4240, 4160] ∧
    (register_all [(0, 101), (9, 102), (0, 103), (0, 104)] (odd_pool, odd_sys)).map
      (fun st => st.1.cleanup.map (fun e => (e.node, e.data))) =
      some [(4224, 0), (4200, 0), (4240, 4184), (4160, 0)] ∧
    4224 + OFFSETOF_CLEANUP_NEXT = 4240 ∧
    ranges_overlap 4224 SIZEOF_POOL_CLEANUP 4240 SIZEOF_POOL_CLEANUP := by
  refine ⟨by decide, by decide, by decide, by decide, by decide, by decide, ?_⟩
  unfold ranges_overlap
  decide

/-- Two registrations on the pool of `ngx_create_pool(4096)`, where no block is
overrun: handler 111 and then handler 222, each with 8 bytes of data, give the entries
at 4160 and 4192; `ngx_destroy_pool` calls 222 with its data 4216, then 111 with its
data 4184, then frees the block. -/
theorem register_two_handlers_example :
    register_all [(8, 111), (8, 222)] (fresh_pool, fresh_sys) =
      some (two_cleanups_pool, fresh_sys) ∧
    (ngx_destroy_pool two_cleanups_pool fresh_sys).trace =
      [Event.malloc 4096 4096, Event.call 222 4216, Event.call 111 4184, Event.free 4096] ∧
    (ngx_reset_pool two_cleanups_pool fresh_sys).2.trace = fresh_sys.trace := by
  refine ⟨by decide, by decide, by decide⟩

/-! ## C9 and C10: reset -/

/-- A small request made when the head block is as `ngx_create_pool` or
`ngx_reset_pool` leaves it is served at the start of the data area of the head block. -/
theorem small_allocation_at_start {C : Nat} {s : Pool} {y : Sys} {h : Block} {t : List Block}
    (hb : s.blocks = h :: t) (hC : SIZEOF_POOL ≤ C) (h1 : h.base % MALLOC_ALIGN = 0)
    (h2 : h.end_ = h.base + C) (h3 : h.base + C < WORD) (h4 : h.last = h.base + SIZEOF_POOL)
    (hmax : s.max = min (C - SIZEOF_POOL) NGX_MAX_ALLOC_FROM_POOL) {size : Nat}
    (hs : size ≤ s.max) (align : Bool) :
    (ngx_palloc_small size align s y).1 = h.base + SIZEOF_POOL := by
  have hc : candidate align h = h.base + SIZEOF_POOL := by
    unfold candidate
    cases align with
    | false => simpa using h4
    | true =>
      simp only [if_true]
      rw [h4]
      apply ngx_align_ptr_of_aligned
      · simp only [MALLOC_ALIGN, NGX_ALIGNMENT, SIZEOF_POOL] at *
        omega
      · simp only [SIZEOF_POOL, WORD] at *
        omega
  have hf : fits size align h = true := by
    unfold fits
    rw [hc, h2, decide_eq_true_eq]
    rw [hmax] at hs
    simp only [ptr_diff, SIZEOF_POOL, NGX_MAX_ALLOC_FROM_POOL, WORD] at *
    omega
  unfold ngx_palloc_small
  rw [hb]
  simp only [small_loop, hf, if_true, hc]

/-- C9, at the failing input: after `ngx_create_pool(100)` at 4096, the calls
`ngx_pnalloc(36)`, `ngx_pnalloc(36)` (which adds the block at 4208), `ngx_palloc(8)` and
`ngx_palloc(100)` (buffer 8192) leave the head block with `last = 4224`, beyond its
`end = 4196`, and the registry with one node, at 4208.  The next `ngx_palloc(100)`
returns the buffer 12288 and takes its registry node from the head block at
`4208 + OFFSETOF_NEXT`: the node lies where the block at 4208 has its field `d.next`,
and the registry is this node followed by the node at 4208. -/
theorem large_node_carved_on_next_link :
    (run [Op.pnalloc 36, Op.pnalloc 36, Op.palloc 8, Op.palloc 100]
      (odd_pool, self_link_sys)).1.blocks.map Block.base = [4096, 4208] ∧
    (run [Op.pnalloc 36, Op.pnalloc 36, Op.palloc 8, Op.palloc 100]
      (odd_pool, self_link_sys)).1.blocks.head? =
      some { base := 4096, last := 4224, end_ := 4196, failed := 0 } ∧
    (run [Op.pnalloc 36, Op.pnalloc 36, Op.palloc 8, Op.palloc 100]
      (odd_pool, self_link_sys)).1.large = [{ node := 4208, alloc := 8192 }] ∧
    (ngx_palloc 100
      (run [Op.pnalloc 36, Op.pnalloc 36, Op.palloc 8, Op.palloc 100]
        (odd_pool, self_link_sys)).1
      (run [Op.pnalloc 36, Op.pnalloc 36, Op.palloc 8, Op.palloc 100]
        (odd_pool, self_link_sys)).2).1 = 12288 ∧
    (ngx_palloc 100
      (run [Op.pnalloc 36, Op.pnalloc 36, Op.palloc 8, Op.palloc 100]
        (odd_pool, self_link_sys)).1
      (run [Op.pnalloc 36, Op.pnalloc 36, Op.palloc 8, Op.palloc 100]
        (odd_pool, self_link_sys)).2).2.1.large =
      [{ node := 4208 + OFFSETOF_NEXT, alloc := 12288 }, { node := 4208, alloc := 8192 }] := by
  refine ⟨by decide, by decide, by decide, by decide, by decide⟩

/-- C10: for every pool state, `ngx_reset_pool` calls `free` for the buffer of every
registry node whose buffer is not null, in registry order, and for nothing else: these
buffers are no longer live and every other allocation, the blocks among them, stays
live; it empties the registry; it keeps the blocks, their order and the `end` of each;
it sets `last` of every block, head or not, to the address of the block plus
`sizeof(ngx_pool)` and `failed` to 0, and `current` to the head block; `max` and the
cleanup chain (entries, handlers, data, order) stay as they are. -/
theorem ngx_reset_pool_effect (s : Pool) (y : Sys) :
    (ngx_reset_pool s y).1.large = [] ∧
    (ngx_reset_pool s y).2.trace = y.trace ++ (live_allocs s.large).map Event.free ∧
    (∀ a, a ∈ (ngx_reset_pool s y).2.live.map Prod.fst ↔
      a ∈ y.live.map Prod.fst ∧ a ∉ live_allocs s.large) ∧
    (ngx_reset_pool s y).1.blocks.map Block.base = s.blocks.map Block.base ∧
    (ngx_reset_pool s y).1.blocks.map Block.end_ = s.blocks.map Block.end_ ∧
    (∀ p ∈ (ngx_reset_pool s y).1.blocks,
      p.last = ptr_add p.base SIZEOF_POOL ∧ p.failed = 0 ∧
      (p.base + SIZEOF_POOL < WORD → p.last = p.base + SIZEOF_POOL)) ∧
    (ngx_reset_pool s y).1.current = 0 ∧
    (ngx_reset_pool s y).1.max = s.max ∧
    (ngx_reset_pool s y).1.cleanup = s.cleanup := by
  refine ⟨rfl, (free_larges_trace _ _).1, free_larges_live s.large y, ?_, ?_, ?_, rfl, rfl, rfl⟩
  · simp [ngx_reset_pool, List.map_map, Function.comp_def, reset_block]
  · simp [ngx_reset_pool, List.map_map, Function.comp_def, reset_block]
  · intro p hp
    obtain ⟨q, hq, rfl⟩ := List.mem_map.1 hp
    refine ⟨rfl, rfl, ?_⟩
    intro hw
    simp only [reset_block, ptr_add, SIZEOF_POOL, WORD] at *
    omega

/-- C10 on `busy_pool`, which the calls listed reach from `ngx_create_pool(96)` at 4096:
a pool of eight blocks with `failed` counters up to 6, `current`
at the second block, the live buffer 16384, a freed registry slot and two cleanup
entries: the reset frees 16384 and nothing else, leaves the eight blocks live, rewinds
every block to its address plus 64 with `failed = 0`, moves `current` to the head block
and keeps the cleanup chain. -/
theorem ngx_reset_pool_effect_witness :
    run ([Op.cleanup_add 8, Op.handler 4160 111, Op.palloc 100, Op.palloc 200, Op.cleanup_add 0,
          Op.pfree 8192] ++ List.replicate 12 (Op.palloc 32))
        (small_pool,
         { small_sys with
           oracle := [8192, 12288, 16384, 20480, 24576, 28672, 32768, 36864, 40960] }) =
      (busy_pool, busy_sys) ∧
    (ngx_reset_pool busy_pool busy_sys).1 =
      { blocks := [{ base := 4096, last := 4160, end_ := 4192, failed := 0 },
                   { base := 12288, last := 12352, end_ := 12384, failed := 0 },
                   { base := 20480, last := 20544, end_ := 20576, failed := 0 },
                   { base := 24576, last := 24640, end_ := 24672, failed := 0 },
                   { base := 28672, last := 28736, end_ := 28768, failed := 0 },
                   { base := 32768, last := 32832, end_ := 32864, failed := 0 },
                   { base := 36864, last := 36928, end_ := 36960, failed := 0 },
                   { base := 40960, last := 41024, end_ := 41056, failed := 0 }],
        max := 32, current := 0, large := [],
        cleanup := [{ node := 12352, handler := 0, data := 0 },
                    { node := 4160, handler := 111, data := 4184 }] } ∧
    (ngx_reset_pool busy_pool busy_sys).2.trace = busy_sys.trace ++ [Event.free 16384] ∧
    (ngx_reset_pool busy_pool busy_sys).2.live.map Prod.fst =
      [40960, 36864, 32768, 28672, 24576, 20480, 12288, 4096] ∧
    (∀ p ∈ (ngx_reset_pool busy_pool busy_sys).1.blocks, p.last = p.base + SIZEOF_POOL) := by
  refine ⟨by decide, by decide, ?_, by decide, ?_⟩
  · rw [(ngx_reset_pool_effect busy_pool busy_sys).2.1]
    decide
  · intro p hp
    have hp2 := hp
    rw [show (ngx_reset_pool busy_pool busy_sys).1.blocks =
      busy_pool.blocks.map reset_block from rfl] at hp2
    obtain ⟨q, hq, rfl⟩ := List.mem_map.1 hp2
    refine ((ngx_reset_pool_effect busy_pool busy_sys).2.2.2.2.2.1 _ hp).2.2 ?_
    have : ∀ q ∈ busy_pool.blocks, (reset_block q).base + SIZEOF_POOL < WORD := by decide
    exact this q hq

/-! ## Where the defect of C1 and C2 cannot show: a size that is a multiple of the alignment -/

theorem candidate_le_end {C b0 : Nat} {s : Pool} {y : Sys} (h : Inv C b0 s y)
    (hC : C % NGX_ALIGNMENT = 0) {p : Block} (hp : p ∈ s.blocks) (hb : p.last ≤ p.end_)
    (align : Bool) : candidate align p ≤ p.end_ ∧ p.end_ < WORD := by
  obtain ⟨a1, a2, a3, -⟩ := h.block_ok p hp
  unfold candidate
  cases align with
  | false =>
    simp only [Bool.false_eq_true, if_false]
    exact ⟨hb, by omega⟩
  | true =>
    simp only [if_true, ngx_align_ptr, NGX_ALIGNMENT, MALLOC_ALIGN, WORD] at *
    omega

theorem bounded_of_small_loop {C b0 : Nat} {s : Pool} {y : Sys} (h : Inv C b0 s y)
    (hC : C % NGX_ALIGNMENT = 0) (hb : Bounded s) {size : Nat} {align : Bool} {m : Nat}
    {bs : List Block} (hl : small_loop size align s.blocks = some (m, bs)) :
    ∀ p ∈ bs, p.last ≤ p.end_ := by
  obtain ⟨pre, p, post, e1, -, e3, -, e5⟩ := small_loop_some hl
  have hp : p ∈ s.blocks := by rw [e1]; simp
  obtain ⟨c1, c2⟩ := candidate_le_end h hC hp (hb p hp) align
  have hroom := (fits_iff_room c1 c2).1 e3
  intro q hq
  rw [e5, List.mem_append, List.mem_cons] at hq
  rcases hq with hq | rfl | hq
  · exact hb q (by rw [e1]; simp [hq])
  · dsimp only
    simp only [ptr_add, WORD] at *
    omega
  · exact hb q (by rw [e1]; simp [hq])

theorem bounded_palloc_block {C b0 : Nat} {s : Pool} {y : Sys} (h : Inv C b0 s y)
    (hb : Bounded s) {size : Nat} (hs : size + SIZEOF_POOL_DATA ≤ C) :
    Bounded (ngx_palloc_block size s y).2.1 := by
  by_cases hr : (y.malloc (pool_psize s)).1 = 0
  · rw [ngx_palloc_block_null hr]
    exact hb
  · obtain ⟨old, cur, heq, hreg, -⟩ := @ngx_palloc_block_ok size s y hr
    obtain ⟨m1, m2⟩ := malloc_fst_ok hr
    have hps := h.psize
    subst hps
    rw [heq]
    intro q hq
    dsimp only at hq
    rcases List.mem_append.1 hq with hq | hq
    · obtain ⟨p, hp, hpe⟩ := mem_of_region_eq hreg hq
      simp only [Block.region, Prod.mk.injEq] at hpe
      rw [hpe.2.1, hpe.2.2]
      exact hb p hp
    · rw [List.mem_singleton] at hq
      subst hq
      dsimp only
      generalize (y.malloc (pool_psize s)).1 = b at *
      generalize pool_psize s = C at *
      simp only [ptr_add, ngx_align_ptr, NGX_ALIGNMENT, MALLOC_ALIGN, SIZEOF_POOL_DATA, WORD] at *
      omega

theorem bounded_palloc_small {C b0 : Nat} {s : Pool} {y : Sys} (h : Inv C b0 s y)
    (hC : C % NGX_ALIGNMENT = 0) (hb : Bounded s) {size : Nat}
    (hs : size + SIZEOF_POOL_DATA ≤ C) (align : Bool) :
    Bounded (ngx_palloc_small size align s y).2.1 := by
  unfold ngx_palloc_small
  cases hl : small_loop size align s.blocks with
  | none => exact bounded_palloc_block h hb hs
  | some r =>
    obtain ⟨m, bs⟩ := r
    exact bounded_of_small_loop h hC hb hl

theorem bounded_palloc_large {C b0 : Nat} {s : Pool} {y : Sys} (h : Inv C b0 s y)
    (hC : C % NGX_ALIGNMENT = 0) (hb : Bounded s) (size : Nat) :
    Bounded (ngx_palloc_large size s y).2.1 := by
  have h1 : Inv C b0 s (y.malloc size).2 := h.with_sys (fun a ha => mem_live_malloc ha)
  have hsz : SIZEOF_POOL_LARGE + SIZEOF_POOL_DATA ≤ C := by
    have := h.size_ge
    simp only [SIZEOF_POOL_LARGE, SIZEOF_POOL_DATA, SIZEOF_POOL] at *
    omega
  have hsm := bounded_palloc_small h1 hC hb hsz true
  unfold ngx_palloc_large
  dsimp only
  split
  · exact hb
  · split
    · exact hb
    · split
      · exact hsm
      · exact hsm

theorem bounded_palloc {C b0 : Nat} {s : Pool} {y : Sys} (h : Inv C b0 s y)
    (hC : C % NGX_ALIGNMENT = 0) (hb : Bounded s) (size : Nat) (align : Bool) :
    Bounded (if size ≤ s.max then ngx_palloc_small size align s y
      else ngx_palloc_large size s y).2.1 := by
  split
  · rename_i hs
    refine bounded_palloc_small h hC hb ?_ align
    have h1 := h.max_eq
    have h2 := h.size_ge
    simp only [SIZEOF_POOL_DATA, SIZEOF_POOL, NGX_MAX_ALLOC_FROM_POOL] at *
    omega
  · exact bounded_palloc_large h hC hb size

theorem bounded_reset {C b0 : Nat} {s : Pool} {y : Sys} (h : Inv C b0 s y) :
    Bounded (ngx_reset_pool s y).1 := by
  intro p hp
  obtain ⟨q, hq, rfl⟩ := List.mem_map.1 hp
  obtain ⟨-, a2, a3, -⟩ := h.block_ok q hq
  have hC := h.size_ge
  simp only [reset_block, ptr_add, SIZEOF_POOL, WORD] at *
  omega

theorem bounded_cleanup_add {C b0 : Nat} {s : Pool} {y : Sys} (h : Inv C b0 s y)
    (hC : C % NGX_ALIGNMENT = 0) (hb : Bounded s) (size : Nat) :
    Bounded (ngx_pool_cleanup_add size s y).2.1 := by
  have h1 := h.palloc SIZEOF_POOL_CLEANUP
  have b1 : Bounded (ngx_palloc SIZEOF_POOL_CLEANUP s y).2.1 :=
    bounded_palloc h hC hb SIZEOF_POOL_CLEANUP true
  have b2 : Bounded (ngx_palloc size (ngx_palloc SIZEOF_POOL_CLEANUP s y).2.1
      (ngx_palloc SIZEOF_POOL_CLEANUP s y).2.2).2.1 := bounded_palloc h1 hC b1 size true
  unfold ngx_pool_cleanup_add
  dsimp only
  split
  · exact b1
  · split
    · split
      · exact b2
      · exact b2
    · exact b1

theorem bounded_step {C b0 : Nat} {st : Pool × Sys} (h : Inv C b0 st.1 st.2)
    (hC : C % NGX_ALIGNMENT = 0) (hb : Bounded st.1) (op : Op) : Bounded (step op st).1 := by
  cases op with
  | palloc n => exact bounded_palloc h hC hb n true
  | pnalloc n => exact bounded_palloc h hC hb n false
  | pcalloc n => exact bounded_palloc h hC hb n true
  | pfree p =>
    show Bounded (ngx_pfree p st.1 st.2).2.1
    unfold ngx_pfree
    split
    · exact hb
    · exact hb
  | cleanup_add n => exact bounded_cleanup_add h hC hb n
  | handler c f => exact hb
  | reset => exact bounded_reset h

theorem bounded_run {C b0 : Nat} (hC : C % NGX_ALIGNMENT = 0) :
    ∀ (ops : List Op) {st : Pool × Sys}, Inv C b0 st.1 st.2 → Bounded st.1 →
      Bounded (run ops st).1
  | [], _, _, hb => hb
  | op :: ops, _, h, hb => bounded_run hC ops (h.step op) (bounded_step h hC hb op)

/-- The invariant of C1 holds for the pools created with a size that is a multiple of
`NGX_ALIGNMENT`: then every `end` is aligned, no candidate address lies beyond it, and
`last <= end` in every block of every reachable state. -/
theorem last_le_end_of_aligned_size {C b0 : Nat} {s : Pool} {y : Sys}
    (hr : ReachableFrom C b0 s y) (hC : C % NGX_ALIGNMENT = 0) :
    ∀ p ∈ s.blocks, p.last ≤ p.end_ := by
  obtain ⟨y0, p, y1, ops, hsz, hcr, -, hrun⟩ := hr
  obtain ⟨b1, hp, -, -, -, -, -, hinv⟩ := Inv.create hsz hcr
  have hb : Bounded p := by
    intro q hq
    rw [hp, List.mem_singleton] at hq
    subst hq
    simp only [SIZEOF_POOL] at *
    omega
  have := @bounded_run C b1 hC ops (p, y1) hinv hb
  rw [hrun] at this
  exact this

/-- In those pools the scan of `ngx_palloc_small` is the first fit C2 describes: the
request is served from the first block with `candidate + size <= end`, and the call
reaches `ngx_palloc_block` exactly when no block has that much room. -/
theorem ngx_palloc_small_first_fit_of_aligned_size {C b0 : Nat} {s : Pool} {y : Sys}
    (hr : ReachableFrom C b0 s y) (hC : C % NGX_ALIGNMENT = 0) (size : Nat) (align : Bool) :
    ((∀ p ∈ s.blocks, p.end_ < candidate align p + size) →
      ngx_palloc_small size align s y = ngx_palloc_block size s y) ∧
    (∀ pre p post, s.blocks = pre ++ p :: post →
      (∀ q ∈ pre, q.end_ < candidate align q + size) → candidate align p + size ≤ p.end_ →
      ngx_palloc_small size align s y =
        (candidate align p,
         { s with blocks := pre ++ { p with last := candidate align p + size } :: post }, y)) := by
  have hinv := hr.inv
  have hb := last_le_end_of_aligned_size hr hC
  have hfit : ∀ p ∈ s.blocks,
      (fits size align p = true ↔ candidate align p + size ≤ p.end_) := by
    intro p hp
    obtain ⟨c1, c2⟩ := candidate_le_end hinv hC hp (hb p hp) align
    exact fits_iff_room c1 c2
  constructor
  · intro hall
    have hnone : small_loop size align s.blocks = none := by
      rw [small_loop_none]
      intro q hq
      have := hall q hq
      cases hf : fits size align q with
      | false => rfl
      | true =>
        have := (hfit q hq).1 hf
        omega
    unfold ngx_palloc_small
    rw [hnone]
  · intro pre p post e1 hpre hp
    have hpm : p ∈ s.blocks := by rw [e1]; simp
    have h1 : ∀ q ∈ pre, fits size align q = false := by
      intro q hq
      have hqm : q ∈ s.blocks := by rw [e1]; simp [hq]
      have := hpre q hq
      cases hf : fits size align q with
      | false => rfl
      | true =>
        have := (hfit q hqm).1 hf
        omega
    have h2 : fits size align p = true := (hfit p hpm).2 hp
    obtain ⟨-, c2⟩ := candidate_le_end hinv hC hpm (hb p hpm) align
    have hadd : ptr_add (candidate align p) size = candidate align p + size := by
      simp only [ptr_add, WORD] at *
      omega
    unfold ngx_palloc_small
    rw [e1, small_loop_of_split h1 h2, hadd]

/-! ## C12 and C14: creation -/

/-- C12: for `size >= sizeof(ngx_pool)`, when `malloc(size)` succeeds with address `b`,
`ngx_create_pool(size)` yields the pool with the single block `b` (`last = b +
sizeof(ngx_pool)`, `end = b + size`, no successor, `failed = 0`), with `max = min(size -
sizeof(ngx_pool), 4095)`, `current` the head block, and empty registry and cleanup
chain; when `malloc` fails it reports failure and there is no pool. -/
theorem ngx_create_pool_result (size : Nat) (y : Sys) (hs : SIZEOF_POOL ≤ size) :
    ((y.malloc size).1 ≠ 0 →
      ngx_create_pool size y =
        (some { blocks := [{ base := (y.malloc size).1,
                             last := (y.malloc size).1 + SIZEOF_POOL,
                             end_ := (y.malloc size).1 + size, failed := 0 }],
                max := min (size - SIZEOF_POOL) NGX_MAX_ALLOC_FROM_POOL,
                current := 0, large := [], cleanup := [] },
         (y.malloc size).2)) ∧
    ((y.malloc size).1 = 0 → ngx_create_pool size y = (none, (y.malloc size).2)) := by
  constructor
  · intro hm
    obtain ⟨-, m2⟩ := malloc_fst_ok hm
    unfold ngx_create_pool
    dsimp only
    rw [if_neg hm]
    have e1 : ptr_add (y.malloc size).1 SIZEOF_POOL = (y.malloc size).1 + SIZEOF_POOL := by
      simp only [ptr_add, SIZEOF_POOL, WORD] at *
      omega
    have e2 : ptr_add (y.malloc size).1 size = (y.malloc size).1 + size := by
      simp only [ptr_add, WORD] at *
      omega
    have e3 : (if (size + WORD - SIZEOF_POOL) % WORD < NGX_MAX_ALLOC_FROM_POOL then
        (size + WORD - SIZEOF_POOL) % WORD else NGX_MAX_ALLOC_FROM_POOL) =
        min (size - SIZEOF_POOL) NGX_MAX_ALLOC_FROM_POOL := by
      simp only [SIZEOF_POOL, NGX_MAX_ALLOC_FROM_POOL, WORD] at *
      split <;> omega
    rw [e1, e2, e3]
  · intro hm
    unfold ngx_create_pool
    dsimp only
    rw [if_pos hm]

/-- C12 at `ngx_create_pool(4096)` with `malloc` returning 4096, and with `malloc`
failing. -/
theorem ngx_create_pool_result_witness :
    SIZEOF_POOL ≤ 4096 ∧
    ngx_create_pool 4096 { oracle := [4096, 8192], live := [], trace := [] } =
      (some fresh_pool, fresh_sys) ∧
    (ngx_create_pool 4096 { oracle := [], live := [], trace := [] }).1 = none := by
  have h1 := (ngx_create_pool_result 4096 { oracle := [4096, 8192], live := [], trace := [] }
    (by decide)).1 (by decide)
  have h2 := (ngx_create_pool_result 4096 { oracle := [], live := [], trace := [] }
    (by decide)).2 (by decide)
  refine ⟨by decide, ?_, ?_⟩
  · rw [h1]
    decide
  · rw [h2]

/-- C14, at the failing input: `ngx_create_pool(4096)` asks `malloc` for 4096 bytes,
not for `4096 + sizeof(ngx_pool) = 4160`, and the free capacity `end - last` of the
head block right after the creation is `4096 - 64 = 4032`, not 4096. -/
theorem ngx_create_pool_requests_size_only :
    ngx_create_pool 4096 { oracle := [4096, 8192], live := [], trace := [] } =
      (some { blocks := [{ base := 4096, last := 4160, end_ := 8192, failed := 0 }],
              max := 4032, current := 0, large := [], cleanup := [] },
       { oracle := [8192], live := [(4096, 4096)], trace := [Event.malloc 4096 4096] }) ∧
    (8192 : Nat) - 4160 = 4032 := by
  constructor <;> decide

/-- For every size from `sizeof(ngx_pool)` on, the request to `malloc` is for `size`
bytes and the free capacity of the head block after the creation is `size -
sizeof(ngx_pool)`. -/
theorem ngx_create_pool_capacity {size : Nat} {y : Sys} {p : Pool} {y1 : Sys}
    (hs : SIZEOF_POOL ≤ size) (h : ngx_create_pool size y = (some p, y1)) :
    ∃ b, y.malloc size = (b, y1) ∧ y1.trace = y.trace ++ [Event.malloc size b] ∧
      p.blocks = [{ base := b, last := b + SIZEOF_POOL, end_ := b + size, failed := 0 }] ∧
      (b + size) - (b + SIZEOF_POOL) = size - SIZEOF_POOL := by
  obtain ⟨b, h1, h2, h3, -⟩ := Inv.create hs h
  refine ⟨b, h2, (malloc_ok h2 h3).2.2.2.2, h1, by omega⟩

/-! ## C16: `current` and the chain -/

/-- C16, at the failing input: after `ngx_create_pool(100)` at 4096, nine calls
`ngx_pnalloc(36)` and three calls `ngx_palloc(8)` leave the pool `nine_blocks_pool`:
nine blocks, the second at 4208, `current` at the third block 8192, and `last = 4224` in
the head block, beyond its `end = 4196`.  Then `ngx_pcalloc(8)` returns
`4208 + OFFSETOF_NEXT`: the 8 bytes that its `memset` sets to 0 are the field `d.next`
of the block at 4208, the link from the second block to the block `current` points to. -/
theorem pcalloc_returns_next_link_of_block :
    run (List.replicate 9 (Op.pnalloc 36) ++ List.replicate 3 (Op.palloc 8))
        (odd_pool, nine_blocks_sys) = (nine_blocks_pool, nine_blocks_sys_after) ∧
    (nine_blocks_pool.blocks.map Block.base).take 2 = [4096, 4208] ∧
    (nine_blocks_pool.blocks.map Block.base)[nine_blocks_pool.current]? = some 8192 ∧
    (ngx_pcalloc 8 nine_blocks_pool nine_blocks_sys_after).1 = 4208 + OFFSETOF_NEXT := by
  refine ⟨by decide, by decide, by decide, by decide⟩

/-! ## C17: the frame of a request served from an existing block -/

/-- C17: when the test of `ngx_palloc_small` passes on some block of the chain, the call
is served by the first such block `p`: the result is the candidate address of `p`, the
pool afterwards is the pool before with `last` of `p` set to the candidate plus
`size` and nothing else changed (the other blocks, the order of the chain, `end` and
`failed` of every block, `max`, `current`, the registry and the cleanup chain), and no
call of `malloc` or `free` is made; with any other value of `current` the result and
the serving block are the same. -/
theorem ngx_palloc_small_changes_only_last (size : Nat) (align : Bool) (s : Pool) (y : Sys)
    (h : ∃ p ∈ s.blocks, fits size align p = true) :
    ∃ pre p post, s.blocks = pre ++ p :: post ∧ (∀ q ∈ pre, fits size align q = false) ∧
      fits size align p = true ∧
      ngx_palloc_small size align s y =
        (candidate align p,
         { s with blocks := pre ++ { p with last := ptr_add (candidate align p) size } :: post },
         y) ∧
      ∀ c, ngx_palloc_small size align { s with current := c } y =
        (candidate align p,
         { s with current := c,
                  blocks := pre ++ { p with last := ptr_add (candidate align p) size } :: post },
         y) := by
  cases hl : small_loop size align s.blocks with
  | none =>
    obtain ⟨p, hp, hf⟩ := h
    have := small_loop_none.1 hl p hp
    rw [hf] at this
    exact absurd this (by decide)
  | some r =>
    obtain ⟨m, bs⟩ := r
    obtain ⟨pre, p, post, e1, e2, e3, e4, e5⟩ := small_loop_some hl
    refine ⟨pre, p, post, e1, e2, e3, ?_, ?_⟩
    · unfold ngx_palloc_small
      rw [hl, e4, e5]
    · intro c
      unfold ngx_palloc_small
      dsimp only
      rw [hl, e4, e5]

/-- C17 on `fresh_pool`: a request of 100 bytes moves `last` of the head block from 4160
to 4260 and changes nothing else. -/
theorem ngx_palloc_small_changes_only_last_witness :
    (∃ p ∈ fresh_pool.blocks, fits 100 true p = true) ∧
    ngx_palloc_small 100 true fresh_pool fresh_sys =
      (4160, { fresh_pool with
               blocks := [{ base := 4096, last := 4260, end_ := 8192, failed := 0 }] },
       fresh_sys) ∧
    ∃ pre p post, fresh_pool.blocks = pre ++ p :: post ∧
      (∀ q ∈ pre, fits 100 true q = false) ∧ fits 100 true p = true ∧
      ngx_palloc_small 100 true fresh_pool fresh_sys =
        (candidate true p,
         { fresh_pool with
           blocks := pre ++ { p with last := ptr_add (candidate true p) 100 } :: post },
         fresh_sys) ∧
      ∀ c, ngx_palloc_small 100 true { fresh_pool with current := c } fresh_sys =
        (candidate true p,
         { fresh_pool with
           current := c,
           blocks := pre ++ { p with last := ptr_add (candidate true p) 100 } :: post },
         fresh_sys) :=
  ⟨⟨{ base := 4096, last := 4160, end_ := 8192, failed := 0 }, by decide, by decide⟩,
    by decide,
    ngx_palloc_small_changes_only_last 100 true fresh_pool fresh_sys
      ⟨{ base := 4096, last := 4160, end_ := 8192, failed := 0 }, by decide, by decide⟩⟩

/-! ## C11: a failed large allocation -/

theorem malloc_trace (y : Sys) (n : Nat) :
    (y.malloc n).2.trace = y.trace ++ [Event.malloc n (y.malloc n).1] := by
  cases hm : y.malloc n with
  | mk r y1 =>
    by_cases hr : r = 0
    · have := (malloc_null (y := y) (n := n) (by rw [hm]; exact hr)).2
      rw [hm] at this
      subst hr
      exact this
    · exact (malloc_ok hm hr).2.2.2.2

theorem small_path_fails_iff {size : Nat} {align : Bool} {s : Pool} {y : Sys} :
    small_path_fails size align s y = true ↔
      (∀ p ∈ s.blocks, fits size align p = false) ∧ (y.malloc (pool_psize s)).1 = 0 := by
  simp [small_path_fails]

/-- Where the small path finds no memory it returns null and changes nothing but the
trace, which gets the failed call of `malloc`. -/
theorem ngx_palloc_small_of_fails {size : Nat} {align : Bool} {s : Pool} {y : Sys}
    (h : small_path_fails size align s y = true) :
    ngx_palloc_small size align s y = (0, s, (y.malloc (pool_psize s)).2) := by
  obtain ⟨h1, h2⟩ := small_path_fails_iff.1 h
  unfold ngx_palloc_small
  rw [small_loop_none.2 h1]
  exact ngx_palloc_block_null h2

/-- The two failures of `ngx_palloc_large`, in every pool state.  When `malloc(size)`
fails, the call returns null and the pool is as before.  When `malloc(size)` returns a
buffer, none of the first 4 registry nodes is free, the test of `ngx_palloc_small` fails
on every block for the registry node and `malloc` fails for the new block, the call
returns null, the pool is as before, the buffer has been given back by `free` (the last
event of the call) and is not live. -/
theorem ngx_palloc_large_fails_cleanly (size : Nat) (s : Pool) (y : Sys) :
    ((y.malloc size).1 = 0 → ngx_palloc_large size s y = (0, s, (y.malloc size).2)) ∧
    ((y.malloc size).1 ≠ 0 → (∀ l ∈ s.large.take 4, l.alloc ≠ 0) →
      (∀ p ∈ s.blocks, fits SIZEOF_POOL_LARGE true p = false) →
      ((y.malloc size).2.malloc (pool_psize s)).1 = 0 →
      ngx_palloc_large size s y =
        (0, s, (((y.malloc size).2.malloc (pool_psize s)).2).free (y.malloc size).1) ∧
      (ngx_palloc_large size s y).2.2.trace =
        y.trace ++ [Event.malloc size (y.malloc size).1, Event.malloc (pool_psize s) 0,
                    Event.free (y.malloc size).1] ∧
      (y.malloc size).1 ∉ (ngx_palloc_large size s y).2.2.live.map Prod.fst) := by
  constructor
  · intro hm
    unfold ngx_palloc_large
    dsimp only
    rw [if_pos hm]
  · intro hm hfree hfull hblock
    have hre : reuse_loop (y.malloc size).1 s.large 0 = none :=
      (reuse_loop_none (by omega)).2 hfree
    have hsm : ngx_palloc_small SIZEOF_POOL_LARGE true s (y.malloc size).2 =
        (0, s, ((y.malloc size).2.malloc (pool_psize s)).2) :=
      ngx_palloc_small_of_fails (small_path_fails_iff.2 ⟨hfull, hblock⟩)
    have heq : ngx_palloc_large size s y =
        (0, s, (((y.malloc size).2.malloc (pool_psize s)).2).free (y.malloc size).1) := by
      unfold ngx_palloc_large
      dsimp only
      rw [if_neg hm, hre]
      dsimp only
      rw [hsm]
      simp
    refine ⟨heq, ?_, ?_⟩
    · rw [heq]
      have t1 := malloc_trace (y.malloc size).2 (pool_psize s)
      have t2 := malloc_trace y size
      rw [hblock] at t1
      simp only [Sys.free, if_neg hm, t1, t2, List.append_assoc, List.cons_append,
        List.nil_append]
    · rw [heq]
      dsimp only
      rw [mem_live_free]
      intro hcon
      rcases hcon.2 with h | h
      · exact hm h
      · exact h rfl

theorem large_path_fails_iff {size : Nat} {s : Pool} {y : Sys} :
    large_path_fails size s y = true ↔
      (y.malloc size).1 = 0 ∨
      ((∀ l ∈ s.large.take 4, l.alloc ≠ 0) ∧
        (∀ p ∈ s.blocks, fits SIZEOF_POOL_LARGE true p = false) ∧
        ((y.malloc size).2.malloc (pool_psize s)).1 = 0) := by
  simp [large_path_fails, small_path_fails]

/-- Where `ngx_palloc` finds no memory it returns null and leaves the pool as it is. -/
theorem ngx_palloc_of_fails {size : Nat} {s : Pool} {y : Sys}
    (h : palloc_fails size s y = true) :
    (ngx_palloc size s y).1 = 0 ∧ (ngx_palloc size s y).2.1 = s := by
  unfold palloc_fails at h
  unfold ngx_palloc
  by_cases hs : size ≤ s.max
  · rw [if_pos hs] at h ⊢
    rw [ngx_palloc_small_of_fails h]
    exact ⟨rfl, rfl⟩
  · rw [if_neg hs] at h ⊢
    by_cases hm : (y.malloc size).1 = 0
    · rw [(ngx_palloc_large_fails_cleanly size s y).1 hm]
      exact ⟨rfl, rfl⟩
    · rcases large_path_fails_iff.1 h with h0 | ⟨h1, h2, h3⟩
      · exact absurd h0 hm
      · rw [((ngx_palloc_large_fails_cleanly size s y).2 hm h1 h2 h3).1]
        exact ⟨rfl, rfl⟩

/-- C11, at the failing input.  The pool of `ngx_create_pool(100)` is at 4208 and its
second block at 4096, right below it.  After `ngx_pnalloc(30)`, `ngx_pnalloc(36)`,
`ngx_pnalloc(29)` and `ngx_palloc(8)` the second block has `last = 4208`, beyond its
`end = 4196`, and `ngx_pcalloc(8)` is served from it at 4208, the address of the head
block, where the field `d.last` of the head block lies: the `memset` of `ngx_pcalloc`
sets it to 0 and leaves the pool `zeroed_last_pool`.  There `ngx_palloc(100)` gets the
buffer 8192 from `malloc`, finds the aligned candidate 0 in the head block, moves
`last` from 0 to 16 and takes the null address for a failed allocation of the registry
node: it frees the buffer and returns null, no system allocation has failed, and the
pool is not the pool before the call. -/
theorem palloc_large_null_moves_last :
    run [Op.pnalloc 30, Op.pnalloc 36, Op.pnalloc 29, Op.palloc 8]
        (low_block_pool, low_block_sys) =
      ({ low_block_pool with
         blocks := [{ base := 4208, last := 4302, end_ := 4308, failed := 0 },
                    { base := 4096, last := 4208, end_ := 4196, failed := 0 }] },
       zeroed_last_sys) ∧
    (ngx_pcalloc 8
      { low_block_pool with
        blocks := [{ base := 4208, last := 4302, end_ := 4308, failed := 0 },
                   { base := 4096, last := 4208, end_ := 4196, failed := 0 }] }
      zeroed_last_sys).1 = 4208 ∧
    (ngx_pcalloc 8
      { low_block_pool with
        blocks := [{ base := 4208, last := 4302, end_ := 4308, failed := 0 },
                   { base := 4096, last := 4208, end_ := 4196, failed := 0 }] }
      zeroed_last_sys).2.1.blocks.drop 1 =
      [{ base := 4096, last := 4216, end_ := 4196, failed := 0 }] ∧
    (zeroed_last_sys.malloc 100).1 = 8192 ∧
    ngx_palloc 100 zeroed_last_pool zeroed_last_sys =
      (0,
       { zeroed_last_pool with
         blocks := [{ base := 4208, last := 16, end_ := 4308, failed := 0 },
                    { base := 4096, last := 4216, end_ := 4196, failed := 0 }] },
       { oracle := [], live := zeroed_last_sys.live,
         trace := zeroed_last_sys.trace ++ [Event.malloc 100 8192, Event.free 8192] }) := by
  refine ⟨by decide, by decide, by decide, by decide, by decide⟩

/-! ## Pools of aligned size: the bump pointer stays past the header -/

theorem last_le_candidate {C b0 : Nat} {s : Pool} {y : Sys} (h : Inv C b0 s y)
    (hC : C % NGX_ALIGNMENT = 0) {p : Block} (hp : p ∈ s.blocks) (hb : p.last ≤ p.end_)
    (align : Bool) : p.last ≤ candidate align p := by
  obtain ⟨a1, a2, a3, -⟩ := h.block_ok p hp
  unfold candidate
  cases align with
  | false => simp
  | true =>
    simp only [if_true, ngx_align_ptr, NGX_ALIGNMENT, MALLOC_ALIGN, WORD] at *
    omega

theorem lower_of_small_loop {C b0 : Nat} {s : Pool} {y : Sys} (h : Inv C b0 s y)
    (hC : C % NGX_ALIGNMENT = 0) (hb : Bounded s) (hl : Lower s) {size : Nat} {align : Bool}
    {m : Nat} {bs : List Block} (hs : small_loop size align s.blocks = some (m, bs)) :
    ∀ p ∈ bs, p.base + SIZEOF_POOL_DATA ≤ p.last := by
  obtain ⟨pre, p, post, e1, -, e3, -, e5⟩ := small_loop_some hs
  have hp : p ∈ s.blocks := by rw [e1]; simp
  obtain ⟨c1, c2⟩ := candidate_le_end h hC hp (hb p hp) align
  have c3 := last_le_candidate h hC hp (hb p hp) align
  have hroom := (fits_iff_room c1 c2).1 e3
  have hlp := hl p hp
  intro q hq
  rw [e5, List.mem_append, List.mem_cons] at hq
  rcases hq with hq | rfl | hq
  · exact hl q (by rw [e1]; simp [hq])
  · dsimp only
    simp only [ptr_add, WORD] at *
    omega
  · exact hl q (by rw [e1]; simp [hq])

theorem lower_palloc_block {C b0 : Nat} {s : Pool} {y : Sys} (h : Inv C b0 s y)
    (hl : Lower s) {size : Nat} (hs : size + SIZEOF_POOL_DATA ≤ C) :
    Lower (ngx_palloc_block size s y).2.1 := by
  by_cases hr : (y.malloc (pool_psize s)).1 = 0
  · rw [ngx_palloc_block_null hr]
    exact hl
  · obtain ⟨old, cur, heq, hreg, -⟩ := @ngx_palloc_block_ok size s y hr
    obtain ⟨m1, m2⟩ := malloc_fst_ok hr
    have hps := h.psize
    subst hps
    rw [heq]
    intro q hq
    dsimp only at hq
    rcases List.mem_append.1 hq with hq | hq
    · obtain ⟨p, hp, hpe⟩ := mem_of_region_eq hreg hq
      simp only [Block.region, Prod.mk.injEq] at hpe
      rw [hpe.1, hpe.2.1]
      exact hl p hp
    · rw [List.mem_singleton] at hq
      subst hq
      dsimp only
      generalize (y.malloc (pool_psize s)).1 = b at *
      generalize pool_psize s = C at *
      simp only [ptr_add, ngx_align_ptr, NGX_ALIGNMENT, MALLOC_ALIGN, SIZEOF_POOL_DATA, WORD] at *
      omega

theorem lower_palloc_small {C b0 : Nat} {s : Pool} {y : Sys} (h : Inv C b0 s y)
    (hC : C % NGX_ALIGNMENT = 0) (hb : Bounded s) (hl : Lower s) {size : Nat}
    (hs : size + SIZEOF_POOL_DATA ≤ C) (align : Bool) :
    Lower (ngx_palloc_small size align s y).2.1 := by
  unfold ngx_palloc_small
  cases hsl : small_loop size align s.blocks with
  | none => exact lower_palloc_block h hl hs
  | some r =>
    obtain ⟨m, bs⟩ := r
    exact lower_of_small_loop h hC hb hl hsl

theorem lower_palloc_large {C b0 : Nat} {s : Pool} {y : Sys} (h : Inv C b0 s y)
    (hC : C % NGX_ALIGNMENT = 0) (hb : Bounded s) (hl : Lower s) (size : Nat) :
    Lower (ngx_palloc_large size s y).2.1 := by
  have h1 : Inv C b0 s (y.malloc size).2 := h.with_sys (fun a ha => mem_live_malloc ha)
  have hsz : SIZEOF_POOL_LARGE + SIZEOF_POOL_DATA ≤ C := by
    have := h.size_ge
    simp only [SIZEOF_POOL_LARGE, SIZEOF_POOL_DATA, SIZEOF_POOL] at *
    omega
  have hsm := lower_palloc_small h1 hC hb hl hsz true
  unfold ngx_palloc_large
  dsimp only
  split
  · exact hl
  · split
    · exact hl
    · split
      · exact hsm
      · exact hsm

theorem lower_palloc {C b0 : Nat} {s : Pool} {y : Sys} (h : Inv C b0 s y)
    (hC : C % NGX_ALIGNMENT = 0) (hb : Bounded s) (hl : Lower s) (size : Nat) (align : Bool) :
    Lower (if size ≤ s.max then ngx_palloc_small size align s y
      else ngx_palloc_large size s y).2.1 := by
  split
  · rename_i hs
    refine lower_palloc_small h hC hb hl ?_ align
    have h1 := h.max_eq
    have h2 := h.size_ge
    simp only [SIZEOF_POOL_DATA, SIZEOF_POOL, NGX_MAX_ALLOC_FROM_POOL] at *
    omega
  · exact lower_palloc_large h hC hb hl size

theorem lower_reset {C b0 : Nat} {s : Pool} {y : Sys} (h : Inv C b0 s y) :
    Lower (ngx_reset_pool s y).1 := by
  intro p hp
  obtain ⟨q, hq, rfl⟩ := List.mem_map.1 hp
  obtain ⟨-, a2, a3, -⟩ := h.block_ok q hq
  have hC := h.size_ge
  simp only [reset_block, ptr_add, SIZEOF_POOL, SIZEOF_POOL_DATA, WORD] at *
  omega

theorem lower_cleanup_add {C b0 : Nat} {s : Pool} {y : Sys} (h : Inv C b0 s y)
    (hC : C % NGX_ALIGNMENT = 0) (hb : Bounded s) (hl : Lower s) (size : Nat) :
    Lower (ngx_pool_cleanup_add size s y).2.1 := by
  have h1 := h.palloc SIZEOF_POOL_CLEANUP
  have b1 : Bounded (ngx_palloc SIZEOF_POOL_CLEANUP s y).2.1 :=
    bounded_palloc h hC hb SIZEOF_POOL_CLEANUP true
  have l1 : Lower (ngx_palloc SIZEOF_POOL_CLEANUP s y).2.1 :=
    lower_palloc h hC hb hl SIZEOF_POOL_CLEANUP true
  have l2 : Lower (ngx_palloc size (ngx_palloc SIZEOF_POOL_CLEANUP s y).2.1
      (ngx_palloc SIZEOF_POOL_CLEANUP s y).2.2).2.1 := lower_palloc h1 hC b1 l1 size true
  unfold ngx_pool_cleanup_add
  dsimp only
  split
  · exact l1
  · split
    · split
      · exact l2
      · exact l2
    · exact l1

theorem lower_step {C b0 : Nat} {st : Pool × Sys} (h : Inv C b0 st.1 st.2)
    (hC : C % NGX_ALIGNMENT = 0) (hb : Bounded st.1) (hl : Lower st.1) (op : Op) :
    Lower (step op st).1 := by
  cases op with
  | palloc n => exact lower_palloc h hC hb hl n true
  | pnalloc n => exact lower_palloc h hC hb hl n false
  | pcalloc n => exact lower_palloc h hC hb hl n true
  | pfree p =>
    show Lower (ngx_pfree p st.1 st.2).2.1
    unfold ngx_pfree
    split
    · exact hl
    · exact hl
  | cleanup_add n => exact lower_cleanup_add h hC hb hl n
  | handler c f => exact hl
  | reset => exact lower_reset h

theorem lower_run {C b0 : Nat} (hC : C % NGX_ALIGNMENT = 0) :
    ∀ (ops : List Op) {st : Pool × Sys}, Inv C b0 st.1 st.2 → Bounded st.1 → Lower st.1 →
      Lower (run ops st).1
  | [], _, _, _, hl => hl
  | op :: ops, _, h, hb, hl =>
    lower_run hC ops (h.step op) (bounded_step h hC hb op) (lower_step h hC hb hl op)

/-- In every reachable state of a pool created with a size that is a multiple of
`NGX_ALIGNMENT`, `last` of every block is past the block header. -/
theorem header_le_last_of_aligned_size {C b0 : Nat} {s : Pool} {y : Sys}
    (hr : ReachableFrom C b0 s y) (hC : C % NGX_ALIGNMENT = 0) :
    ∀ p ∈ s.blocks, p.base + SIZEOF_POOL_DATA ≤ p.last := by
  obtain ⟨y0, p, y1, ops, hsz, hcr, -, hrun⟩ := hr
  obtain ⟨b1, hp, -, -, -, -, -, hinv⟩ := Inv.create hsz hcr
  have hb : Bounded p := by
    intro q hq
    rw [hp, List.mem_singleton] at hq
    subst hq
    simp only [SIZEOF_POOL] at *
    omega
  have hl : Lower p := by
    intro q hq
    rw [hp, List.mem_singleton] at hq
    subst hq
    simp only [SIZEOF_POOL, SIZEOF_POOL_DATA] at *
    omega
  have := @lower_run C b1 hC ops (p, y1) hinv hb hl
  rw [hrun] at this
  exact this

/-- In those pools the null pointer is not a candidate address of any block, so
`ngx_palloc_small` returns null only when it finds no memory. -/
theorem candidate_ne_null_of_aligned_size {C b0 : Nat} {s : Pool} {y : Sys}
    (hr : ReachableFrom C b0 s y) (hC : C % NGX_ALIGNMENT = 0) (align : Bool) :
    ∀ p ∈ s.blocks, candidate align p ≠ 0 := by
  intro p hp
  have h1 := header_le_last_of_aligned_size hr hC p hp
  have h2 := last_le_end_of_aligned_size hr hC p hp
  have h3 := last_le_candidate hr.inv hC hp h2 align
  simp only [SIZEOF_POOL_DATA] at h1
  omega

/-! ## C18: a failed cleanup registration -/

/-- C18 as stated fails when the allocation of the extra data fails: on the pool of
`ngx_create_pool(4096)` at 4096, with no memory left in the system,
`ngx_pool_cleanup_add(5000)` takes the 24 bytes of the entry from the head block, fails
to get the 5000 bytes of data, and returns null with `last` of the head block at 4184
instead of 4160. -/
theorem ngx_pool_cleanup_add_keeps_entry_memory :
    ngx_create_pool 4096 { oracle := [4096], live := [], trace := [] } =
      (some fresh_pool,
       { oracle := [], live := [(4096, 4096)], trace := [Event.malloc 4096 4096] }) ∧
    (ngx_pool_cleanup_add 5000 fresh_pool
      { oracle := [], live := [(4096, 4096)], trace := [Event.malloc 4096 4096] }).1 = 0 ∧
    (ngx_pool_cleanup_add 5000 fresh_pool
      { oracle := [], live := [(4096, 4096)], trace := [Event.malloc 4096 4096] }).2.1.blocks =
      [{ base := 4096, last := 4184, end_ := 8192, failed := 0 }] ∧
    fresh_pool.blocks = [{ base := 4096, last := 4160, end_ := 8192, failed := 0 }] := by
  refine ⟨by decide, by decide, by decide, by decide⟩

/-- C18, amended, for every pool state and every size of the extra data.  Whenever
`ngx_pool_cleanup_add` returns null, no entry has been linked: the cleanup chain and
`max` are as before.  When the allocation of the entry finds no memory, the call
returns null and the whole pool is as before the call.  When the entry has been
allocated and the allocation of its extra data finds no memory, the call returns null
and the pool is the one the allocation of the entry left: the memory of the entry is
not given back. -/
theorem ngx_pool_cleanup_add_null_links_nothing (size : Nat) (s : Pool) (y : Sys) :
    ((ngx_pool_cleanup_add size s y).1 = 0 →
      (ngx_pool_cleanup_add size s y).2.1.cleanup = s.cleanup ∧
      (ngx_pool_cleanup_add size s y).2.1.max = s.max) ∧
    (palloc_fails SIZEOF_POOL_CLEANUP s y = true →
      (ngx_pool_cleanup_add size s y).1 = 0 ∧ (ngx_pool_cleanup_add size s y).2.1 = s) ∧
    ((ngx_palloc SIZEOF_POOL_CLEANUP s y).1 ≠ 0 → size ≠ 0 →
      palloc_fails size (ngx_palloc SIZEOF_POOL_CLEANUP s y).2.1
        (ngx_palloc SIZEOF_POOL_CLEANUP s y).2.2 = true →
      (ngx_pool_cleanup_add size s y).1 = 0 ∧
      (ngx_pool_cleanup_add size s y).2.1 = (ngx_palloc SIZEOF_POOL_CLEANUP s y).2.1) := by
  have f1 := ngx_palloc_frame SIZEOF_POOL_CLEANUP s y
  have f2 := ngx_palloc_frame size (ngx_palloc SIZEOF_POOL_CLEANUP s y).2.1
    (ngx_palloc SIZEOF_POOL_CLEANUP s y).2.2
  refine ⟨?_, ?_, ?_⟩
  · intro h0
    unfold ngx_pool_cleanup_add at h0 ⊢
    dsimp only at h0 ⊢
    by_cases hcn : (ngx_palloc SIZEOF_POOL_CLEANUP s y).1 = 0
    · rw [if_pos hcn]
      exact ⟨f1.2, f1.1⟩
    · rw [if_neg hcn] at h0 ⊢
      by_cases hs : size = 0
      · subst hs
        simp only [ne_eq, not_true_eq_false, if_false] at h0
        exact absurd h0 hcn
      · rw [if_pos hs] at h0 ⊢
        by_cases hd : (ngx_palloc size (ngx_palloc SIZEOF_POOL_CLEANUP s y).2.1
            (ngx_palloc SIZEOF_POOL_CLEANUP s y).2.2).1 = 0
        · rw [if_pos hd]
          dsimp only
          exact ⟨by rw [f2.2, f1.2], by rw [f2.1, f1.1]⟩
        · rw [if_neg hd] at h0
          exact absurd h0 hcn
  · intro hf
    obtain ⟨e1, e2⟩ := ngx_palloc_of_fails hf
    unfold ngx_pool_cleanup_add
    dsimp only
    rw [if_pos e1]
    exact ⟨rfl, e2⟩
  · intro hcn hs hf
    obtain ⟨e1, e2⟩ := ngx_palloc_of_fails hf
    unfold ngx_pool_cleanup_add
    dsimp only
    rw [if_neg hcn, if_pos hs, if_pos e1]
    exact ⟨rfl, e2⟩

/-- C18, amended, at two inputs.  On the pool of `ngx_create_pool(64)` the entry itself
finds no memory (its 24 bytes exceed `max = 0`, the large path gets the buffer 8192 but
no registry node), and the pool is left as it was.  On the pool of
`ngx_create_pool(4096)` with no memory left in the system, the entry is taken from the
head block, the 5000 bytes of data find no memory, and the pool is left with `last` of
the head block at 4184: the 24 bytes of the entry stay allocated. -/
theorem ngx_pool_cleanup_add_null_links_nothing_witness :
    palloc_fails SIZEOF_POOL_CLEANUP full_pool full_sys = true ∧
    ((ngx_pool_cleanup_add 8 full_pool full_sys).1 = 0 ∧
      (ngx_pool_cleanup_add 8 full_pool full_sys).2.1 = full_pool) ∧
    (ngx_palloc SIZEOF_POOL_CLEANUP fresh_pool { fresh_sys with oracle := [] }).1 = 4160 ∧
    (ngx_palloc SIZEOF_POOL_CLEANUP fresh_pool { fresh_sys with oracle := [] }).2.1.blocks =
      [{ base := 4096, last := 4184, end_ := 8192, failed := 0 }] ∧
    ((ngx_pool_cleanup_add 5000 fresh_pool { fresh_sys with oracle := [] }).1 = 0 ∧
      (ngx_pool_cleanup_add 5000 fresh_pool { fresh_sys with oracle := [] }).2.1 =
        (ngx_palloc SIZEOF_POOL_CLEANUP fresh_pool { fresh_sys with oracle := [] }).2.1) ∧
    ((ngx_pool_cleanup_add 5000 fresh_pool { fresh_sys with oracle := [] }).2.1.cleanup =
        fresh_pool.cleanup ∧
      (ngx_pool_cleanup_add 5000 fresh_pool { fresh_sys with oracle := [] }).2.1.max =
        fresh_pool.max) :=
  ⟨by decide,
    (ngx_pool_cleanup_add_null_links_nothing 8 full_pool full_sys).2.1 (by decide),
    by decide, by decide,
    (ngx_pool_cleanup_add_null_links_nothing 5000 fresh_pool { fresh_sys with oracle := [] }).2.2
      (by decide) (by decide) (by decide),
    (ngx_pool_cleanup_add_null_links_nothing 5000 fresh_pool { fresh_sys with oracle := [] }).1
      (by decide)⟩

/-! ## C19: the order of the effects of `ngx_destroy_pool` -/

theorem count_free_cleanup_calls (cs : List Cleanup) (a : Nat) :
    (cleanup_calls cs).count (Event.free a) = 0 := by
  rw [List.count_eq_zero]
  intro h
  unfold cleanup_calls at h
  obtain ⟨c, -, hc⟩ := List.mem_map.1 h
  cases hc

theorem count_free_map (l : List Nat) (a : Nat) :
    (l.map Event.free).count (Event.free a) = l.count a := by
  apply List.count_map_of_injective
  intro x z h
  injection h

theorem free_blocks_trace_filter :
    ∀ (bs : List Block) (y : Sys),
      (free_blocks bs y).trace =
        y.trace ++ ((bs.map Block.base).filter (fun b => decide (b ≠ 0))).map Event.free
  | [], y => by simp [free_blocks]
  | p :: ps, y => by
    unfold free_blocks
    rw [free_blocks_trace_filter ps (y.free p.base)]
    by_cases hp : p.base = 0
    · simp [Sys.free, hp]
    · simp [Sys.free, hp]

/-- The events of `ngx_destroy_pool`, for every pool state: the calls of the handlers
that are set, the `free` of every registry buffer that is not null, the `free` of every
block. -/
theorem ngx_destroy_pool_events (s : Pool) (y : Sys) :
    (ngx_destroy_pool s y).trace =
      y.trace ++ cleanup_calls s.cleanup ++ (live_allocs s.large).map Event.free ++
        ((s.blocks.map Block.base).filter (fun b => decide (b ≠ 0))).map Event.free := by
  unfold ngx_destroy_pool
  rw [free_blocks_trace_filter, (free_larges_trace _ _).1, run_cleanups_eq]

/-- The buffers of the registry after a successful `ngx_pfree(p)`: one occurrence of `p`
is gone. -/
theorem live_allocs_pfree {p : Nat} {s : Pool} {y : Sys} (hp : p ≠ 0)
    (h : (ngx_pfree p s y).1 = true) :
    live_allocs (ngx_pfree p s y).2.1.large = (live_allocs s.large).erase p ∧
      (ngx_pfree p s y).2.1.blocks = s.blocks ∧ (ngx_pfree p s y).2.1.cleanup = s.cleanup ∧
      (ngx_pfree p s y).2.2 = y.free p := by
  unfold ngx_pfree at h ⊢
  cases hl : pfree_loop p s.large with
  | none =>
    rw [hl] at h
    simp at h
  | some ls =>
    obtain ⟨pre, l, post, e1, e2, e3, e5⟩ := pfree_loop_some hl
    dsimp only
    refine ⟨?_, rfl, rfl, rfl⟩
    have hpre : p ∉ live_allocs pre := by
      intro hc
      obtain ⟨-, q, hq, hqe⟩ := mem_live_allocs.1 hc
      exact e2 q hq hqe
    rw [e5, e1, live_allocs_append, live_allocs_append, live_allocs_cons_null _ rfl,
      live_allocs_cons_live _ (by rw [e3]; exact hp), e3, List.erase_append_right _ hpre,
      List.erase_cons_head]

/-- C19: for every pool state the events of `ngx_destroy_pool` are, in this order: the
calls of the cleanup handlers that are set, in chain order; one `free` for the buffer
of every registry node whose buffer is not null, in registry order, and none for a
node whose buffer is null; one `free` for every block, head first (a block is never at
the null address, which is not an argument of `free` in the trace).  So an address is
freed as many times as registry nodes and blocks hold it, once for each: exactly once
when the buffers and blocks are distinct, as `malloc` hands them out.  After a
successful `ngx_pfree(p)` the registry holds `p` once less: `ngx_destroy_pool` then
makes one `free(p)` less than it would have made before, none if one node held `p`. -/
theorem ngx_destroy_pool_three_phases (s : Pool) (y : Sys) :
    (ngx_destroy_pool s y).trace =
      y.trace ++ cleanup_calls s.cleanup ++ (live_allocs s.large).map Event.free ++
        ((s.blocks.map Block.base).filter (fun b => decide (b ≠ 0))).map Event.free ∧
    (∀ a, a ≠ 0 →
      ((ngx_destroy_pool s y).trace.drop y.trace.length).count (Event.free a) =
        (live_allocs s.large).count a + (s.blocks.map Block.base).count a) ∧
    ((live_allocs s.large ++ s.blocks.map Block.base).Nodup →
      ∀ a ∈ live_allocs s.large ++ s.blocks.map Block.base, a ≠ 0 →
        ((ngx_destroy_pool s y).trace.drop y.trace.length).count (Event.free a) = 1) ∧
    (∀ p, p ≠ 0 → (ngx_pfree p s y).1 = true →
      live_allocs (ngx_pfree p s y).2.1.large = (live_allocs s.large).erase p ∧
      (ngx_destroy_pool (ngx_pfree p s y).2.1 (ngx_pfree p s y).2.2).trace =
        y.trace ++ [Event.free p] ++ cleanup_calls s.cleanup ++
          ((live_allocs s.large).erase p).map Event.free ++
          ((s.blocks.map Block.base).filter (fun b => decide (b ≠ 0))).map Event.free ∧
      ((ngx_destroy_pool (ngx_pfree p s y).2.1 (ngx_pfree p s y).2.2).trace.drop
          (ngx_pfree p s y).2.2.trace.length).count (Event.free p) =
        (live_allocs s.large).count p - 1 + (s.blocks.map Block.base).count p) := by
  have key := ngx_destroy_pool_events
  have cnt : ∀ (s : Pool) (y : Sys) (a : Nat), a ≠ 0 →
      ((ngx_destroy_pool s y).trace.drop y.trace.length).count (Event.free a) =
        (live_allocs s.large).count a + (s.blocks.map Block.base).count a := by
    intro s y a ha
    rw [key, List.append_assoc, List.append_assoc, List.drop_left, List.count_append,
      List.count_append, count_free_cleanup_calls, count_free_map, count_free_map,
      List.count_filter (by simpa using ha)]
    omega
  refine ⟨key s y, cnt s y, ?_, ?_⟩
  · intro hnd a ha ha0
    rw [cnt s y a ha0, ← List.count_append]
    exact List.count_eq_one_of_mem hnd ha
  intro p hp hfound
  obtain ⟨e1, e2, e3, e4⟩ := live_allocs_pfree hp hfound
  refine ⟨e1, ?_, ?_⟩
  · rw [key, e1, e2, e3, e4]
    simp [Sys.free, hp]
  · rw [cnt _ _ p hp, e1, e2, List.count_erase_self]

/-- C19 on `busy_pool`: the call of handler 111 with its data 4184 (the entry whose
handler is null is skipped), then the `free` of the buffer 16384 (the freed slot is
skipped), then the `free` of the eight blocks, head first; the nine addresses are distinct and each is freed once.  After
`ngx_pfree(16384)` the destruction frees no buffer of the registry. -/
theorem ngx_destroy_pool_three_phases_witness :
    (ngx_destroy_pool busy_pool busy_sys).trace =
      busy_sys.trace ++ [Event.call 111 4184] ++ [Event.free 16384] ++
        [Event.free 4096, Event.free 12288, Event.free 20480, Event.free 24576,
         Event.free 28672, Event.free 32768, Event.free 36864, Event.free 40960] ∧
    ((ngx_destroy_pool busy_pool busy_sys).trace.drop busy_sys.trace.length).count
      (Event.free 16384) = 1 ∧
    ((ngx_destroy_pool busy_pool busy_sys).trace.drop busy_sys.trace.length).count
      (Event.free 12288) = 1 ∧
    (live_allocs busy_pool.large ++ busy_pool.blocks.map Block.base).Nodup ∧
    (∀ a ∈ live_allocs busy_pool.large ++ busy_pool.blocks.map Block.base, a ≠ 0 →
      ((ngx_destroy_pool busy_pool busy_sys).trace.drop busy_sys.trace.length).count
        (Event.free a) = 1) ∧
    (ngx_pfree 16384 busy_pool busy_sys).1 = true ∧
    (ngx_destroy_pool (ngx_pfree 16384 busy_pool busy_sys).2.1
        (ngx_pfree 16384 busy_pool busy_sys).2.2).trace =
      busy_sys.trace ++ [Event.free 16384] ++ [Event.call 111 4184] ++
        [Event.free 4096, Event.free 12288, Event.free 20480, Event.free 24576,
         Event.free 28672, Event.free 32768, Event.free 36864, Event.free 40960] ∧
    ((ngx_destroy_pool (ngx_pfree 16384 busy_pool busy_sys).2.1
        (ngx_pfree 16384 busy_pool busy_sys).2.2).trace.drop
      (ngx_pfree 16384 busy_pool busy_sys).2.2.trace.length).count (Event.free 16384) = 0 := by
  have h := ngx_destroy_pool_three_phases busy_pool busy_sys
  refine ⟨?_, ?_, ?_, by decide, h.2.2.1 (by decide), by decide, ?_, ?_⟩
  · rw [h.1]
    decide
  · rw [h.2.1 16384 (by decide)]
    decide
  · rw [h.2.1 12288 (by decide)]
    decide
  · rw [(h.2.2.2 16384 (by decide) (by decide)).2.1]
    decide
  · rw [(h.2.2.2 16384 (by decide) (by decide)).2.2]
    decide

/-! ## C13: the small and the large path -/

theorem ngx_palloc_small_trace (size : Nat) (align : Bool) (s : Pool) (y : Sys) :
    ∃ rest, (ngx_palloc_small size align s y).2.2.trace = y.trace ++ rest := by
  unfold ngx_palloc_small
  cases hl : small_loop size align s.blocks with
  | some r => exact ⟨[], by simp⟩
  | none =>
    dsimp only
    unfold ngx_palloc_block
    dsimp only
    split
    · exact ⟨_, malloc_trace y _⟩
    · exact ⟨_, malloc_trace y _⟩

theorem ngx_palloc_large_trace (size : Nat) (s : Pool) (y : Sys)
    (h : (ngx_palloc_large size s y).1 ≠ 0) :
    ∃ rest, (ngx_palloc_large size s y).2.2.trace =
      y.trace ++ Event.malloc size (ngx_palloc_large size s y).1 :: rest := by
  have ht := malloc_trace y size
  obtain ⟨rest, hrest⟩ := ngx_palloc_small_trace SIZEOF_POOL_LARGE true s (y.malloc size).2
  unfold ngx_palloc_large at h ⊢
  dsimp only at h ⊢
  by_cases hm : (y.malloc size).1 = 0
  · rw [if_pos hm] at h
    exact absurd rfl h
  · rw [if_neg hm] at h ⊢
    cases hre : reuse_loop (y.malloc size).1 s.large 0 with
    | some ls => exact ⟨[], ht⟩
    | none =>
      rw [hre] at h
      dsimp only at h ⊢
      by_cases ha : (ngx_palloc_small SIZEOF_POOL_LARGE true s (y.malloc size).2).1 = 0
      · rw [if_pos ha] at h
        exact absurd rfl h
      · rw [if_neg ha]
        dsimp only
        refine ⟨rest, ?_⟩
        rw [hrest, ht]
        simp

/-- The registry after a successful `ngx_palloc_large`: the buffer returned is held by
one node more than before. -/
theorem ngx_palloc_large_count (size : Nat) (s : Pool) (y : Sys)
    (h : (ngx_palloc_large size s y).1 ≠ 0) :
    ((ngx_palloc_large size s y).2.1.large.map Large.alloc).count (ngx_palloc_large size s y).1 =
      (s.large.map Large.alloc).count (ngx_palloc_large size s y).1 + 1 := by
  have hfr := (ngx_palloc_small_frame SIZEOF_POOL_LARGE true s (y.malloc size).2).2.1
  unfold ngx_palloc_large at h ⊢
  dsimp only at h ⊢
  by_cases hm : (y.malloc size).1 = 0
  · rw [if_pos hm] at h
    exact absurd rfl h
  · rw [if_neg hm] at h ⊢
    cases hre : reuse_loop (y.malloc size).1 s.large 0 with
    | some ls =>
      obtain ⟨pre, l, post, e1, -, e3, -, e5⟩ := reuse_loop_some hre
      dsimp only
      rw [e5, e1]
      have hne : ¬ l.alloc = (y.malloc size).1 := by
        rw [e3]
        exact fun hc => hm hc.symm
      simp [List.count_cons, hne]
      omega
    | none =>
      rw [hre] at h
      dsimp only at h ⊢
      by_cases ha : (ngx_palloc_small SIZEOF_POOL_LARGE true s (y.malloc size).2).1 = 0
      · rw [if_pos ha] at h
        exact absurd rfl h
      · rw [if_neg ha]
        dsimp only
        rw [hfr]
        simp [List.count_cons]

/-- C13: for every pool state, `ngx_palloc(size)` and `ngx_pnalloc(size)` are
`ngx_palloc_small` (aligned and unaligned) when `size <= max`, and then the registry is
left as it is; they are `ngx_palloc_large` when `size > max`, and then a non-null result
`p` is the address `malloc(size)` returned, a live allocation of `size` bytes (the call
is the first event of the allocation), one registry node more than before holds `p`,
which is exactly one node when the buffers the registry held are live allocations, and
the events `ngx_destroy_pool` adds to the trace include `free(p)`. -/
theorem ngx_palloc_takes_small_or_large_path (size : Nat) (s : Pool) (y : Sys) :
    (size ≤ s.max →
      ngx_palloc size s y = ngx_palloc_small size true s y ∧
      ngx_pnalloc size s y = ngx_palloc_small size false s y ∧
      (ngx_palloc size s y).2.1.large = s.large ∧
      (ngx_pnalloc size s y).2.1.large = s.large) ∧
    (s.max < size →
      ngx_palloc size s y = ngx_palloc_large size s y ∧
      ngx_pnalloc size s y = ngx_palloc_large size s y ∧
      ((ngx_palloc_large size s y).1 ≠ 0 →
        (ngx_palloc_large size s y).1 = (y.malloc size).1 ∧
        (y.malloc size).2.live = ((ngx_palloc_large size s y).1, size) :: y.live ∧
        (∃ rest, (ngx_palloc_large size s y).2.2.trace =
          y.trace ++ Event.malloc size (ngx_palloc_large size s y).1 :: rest) ∧
        ((ngx_palloc_large size s y).2.1.large.map Large.alloc).count
            (ngx_palloc_large size s y).1 =
          (s.large.map Large.alloc).count (ngx_palloc_large size s y).1 + 1 ∧
        ((∀ a ∈ live_allocs s.large, a ∈ y.live.map Prod.fst) →
          ((ngx_palloc_large size s y).2.1.large.map Large.alloc).count
            (ngx_palloc_large size s y).1 = 1) ∧
        Event.free (ngx_palloc_large size s y).1 ∈
          (ngx_destroy_pool (ngx_palloc_large size s y).2.1
            (ngx_palloc_large size s y).2.2).trace.drop
            (ngx_palloc_large size s y).2.2.trace.length)) := by
  constructor
  · intro hs
    have e1 : ngx_palloc size s y = ngx_palloc_small size true s y := by
      unfold ngx_palloc
      rw [if_pos hs]
    have e2 : ngx_pnalloc size s y = ngx_palloc_small size false s y := by
      unfold ngx_pnalloc
      rw [if_pos hs]
    refine ⟨e1, e2, ?_, ?_⟩
    · rw [e1]
      exact (ngx_palloc_small_frame size true s y).2.1
    · rw [e2]
      exact (ngx_palloc_small_frame size false s y).2.1
  · intro hs
    have e1 : ngx_palloc size s y = ngx_palloc_large size s y := by
      unfold ngx_palloc
      rw [if_neg (by omega)]
    have e2 : ngx_pnalloc size s y = ngx_palloc_large size s y := by
      unfold ngx_pnalloc
      rw [if_neg (by omega)]
    refine ⟨e1, e2, ?_⟩
    intro hp
    obtain ⟨t1, t2⟩ := ngx_palloc_large_tracked size s y hp
    have hcount := ngx_palloc_large_count size s y hp
    have hm : (y.malloc size).1 ≠ 0 := by
      rw [← t1]
      exact hp
    refine ⟨t1, ?_, ngx_palloc_large_trace size s y hp, hcount, ?_, ?_⟩
    · rw [t1]
      exact (malloc_ok (y := y) (n := size) rfl hm).2.2.2.1
    · intro hcoh
      rw [hcount, Nat.add_left_eq_self, List.count_eq_zero]
      intro hc
      have hl : (ngx_palloc_large size s y).1 ∈ live_allocs s.large := by
        unfold live_allocs
        rw [List.mem_filter]
        exact ⟨hc, by simpa using hp⟩
      have := hcoh _ hl
      rw [t1] at this
      exact (malloc_fresh hm).1 this
    · rw [ngx_destroy_pool_events, List.append_assoc, List.append_assoc, List.drop_left]
      rw [List.mem_append, List.mem_append]
      exact Or.inr (Or.inl (List.mem_map_of_mem _ t2))

/-- C13 end to end: `ngx_create_pool(4096)` gives `max = 4032`; `ngx_palloc(100)` returns
4160, non-null, a multiple of 8 and inside the head block, and leaves the registry
empty; `ngx_palloc(5000)` takes the large path, returns the 5000-byte buffer 8192 of
`malloc`, one registry node holds it, and `ngx_destroy_pool` frees it. -/
theorem ngx_palloc_takes_small_or_large_path_witness :
    ngx_create_pool 4096 { oracle := [4096, 8192], live := [], trace := [] } =
      (some fresh_pool, fresh_sys) ∧
    fresh_pool.max = 4032 ∧
    (ngx_palloc 100 fresh_pool fresh_sys).1 = 4160 ∧ 4160 % NGX_ALIGNMENT = 0 ∧
    (4096 + SIZEOF_POOL ≤ 4160 ∧ 4160 + 100 ≤ 4096 + 4096) ∧
    ngx_palloc 100 fresh_pool fresh_sys = ngx_palloc_small 100 true fresh_pool fresh_sys ∧
    (ngx_palloc 100 fresh_pool fresh_sys).2.1.large = fresh_pool.large ∧
    ngx_palloc 5000 fresh_pool fresh_sys = ngx_palloc_large 5000 fresh_pool fresh_sys ∧
    ngx_palloc 5000 fresh_pool fresh_sys = (8192, large_pool, large_sys) ∧
    (fresh_sys.malloc 5000).2.live = (8192, 5000) :: fresh_sys.live ∧
    ((ngx_palloc_large 5000 fresh_pool fresh_sys).2.1.large.map Large.alloc).count
      (ngx_palloc_large 5000 fresh_pool fresh_sys).1 = 1 ∧
    (ngx_destroy_pool large_pool large_sys).trace =
      [Event.malloc 4096 4096, Event.malloc 5000 8192, Event.free 8192, Event.free 4096] ∧
    Event.free (ngx_palloc_large 5000 fresh_pool fresh_sys).1 ∈
      (ngx_destroy_pool (ngx_palloc_large 5000 fresh_pool fresh_sys).2.1
        (ngx_palloc_large 5000 fresh_pool fresh_sys).2.2).trace.drop
        (ngx_palloc_large 5000 fresh_pool fresh_sys).2.2.trace.length := by
  have h100 := (ngx_palloc_takes_small_or_large_path 100 fresh_pool fresh_sys).1 (by decide)
  have h5000 := (ngx_palloc_takes_small_or_large_path 5000 fresh_pool fresh_sys).2 (by decide)
  have hl := h5000.2.2 (by decide)
  refine ⟨by decide, by decide, by decide, by decide, by decide, h100.1, h100.2.2.1, h5000.1,
    by decide, ?_, hl.2.2.2.2.1 (by decide), by decide, hl.2.2.2.2.2⟩
  have := hl.2.1
  rw [show (ngx_palloc_large 5000 fresh_pool fresh_sys).1 = 8192 from by decide] at this
  exact this

/-! ## C15: the walk of `ngx_palloc_block` -/

theorem walk_failed_getElem :
    ∀ (bs : List Block) (i c k : Nat) (p : Block), bs[k]? = some p →
      (walk_failed bs i c).1[k]? =
        some (if k + 1 < bs.length then { p with failed := (p.failed + 1) % UINT } else p)
  | [], _, _, k, p, h => by simp at h
  | [a], _, _, k, p, h => by
    cases k with
    | zero =>
      simp only [List.getElem?_cons_zero, Option.some.injEq] at h
      simp [walk_failed, h]
    | succ k => simp at h
  | a :: b :: rest, i, c, k, p, h => by
    cases k with
    | zero =>
      simp only [List.getElem?_cons_zero, Option.some.injEq] at h
      simp [walk_failed, h]
    | succ k =>
      rw [List.getElem?_cons_succ] at h
      have ih := walk_failed_getElem (b :: rest) (i + 1) (if 4 < a.failed then i + 1 else c) k p h
      simp only [walk_failed, List.getElem?_cons_succ, ih, List.length_cons]
      simp only [List.length_cons] at ih
      congr 1
      by_cases hk : k + 1 < rest.length + 1
      · rw [if_pos hk, if_pos (by omega)]
      · rw [if_neg hk, if_neg (by omega)]

theorem walk_failed_current_kept :
    ∀ (bs : List Block) (i c : Nat),
      (∀ k p, k + 1 < bs.length → bs[k]? = some p → p.failed ≤ 4) →
      (walk_failed bs i c).2 = c
  | [], _, _, _ => rfl
  | [_], _, _, _ => rfl
  | a :: b :: rest, i, c, h => by
    have ha : a.failed ≤ 4 := h 0 a (by simp) (by simp)
    have ih := walk_failed_current_kept (b :: rest) (i + 1) c (by
      intro k p hk hp
      exact h (k + 1) p (by simp only [List.length_cons] at hk ⊢; omega)
        (by rw [List.getElem?_cons_succ]; exact hp))
    simp only [walk_failed, if_neg (by omega : ¬ 4 < a.failed)]
    exact ih

theorem walk_failed_current_moved :
    ∀ (bs : List Block) (i c k : Nat) (p : Block), bs[k]? = some p → k + 1 < bs.length →
      4 < p.failed →
      (∀ j q, k < j → j + 1 < bs.length → bs[j]? = some q → q.failed ≤ 4) →
      (walk_failed bs i c).2 = i + k + 1
  | [], _, _, k, p, h, _, _, _ => by simp at h
  | [_], _, _, k, p, _, hk, _, _ => by simp at hk
  | a :: b :: rest, i, c, k, p, h, hk, hp, hlater => by
    cases k with
    | zero =>
      simp only [List.getElem?_cons_zero, Option.some.injEq] at h
      subst h
      simp only [walk_failed, if_pos hp]
      have := walk_failed_current_kept (b :: rest) (i + 1) (i + 1) (by
        intro j q hj hq
        exact hlater (j + 1) q (by omega) (by simp only [List.length_cons] at hj ⊢; omega)
          (by rw [List.getElem?_cons_succ]; exact hq))
      rw [this]
    | succ k =>
      rw [List.getElem?_cons_succ] at h
      have ih := walk_failed_current_moved (b :: rest) (i + 1)
        (if 4 < a.failed then i + 1 else c) k p h
        (by simp only [List.length_cons] at hk ⊢; omega) hp (by
          intro j q hj hj2 hq
          exact hlater (j + 1) q (by omega) (by simp only [List.length_cons] at hj2 ⊢; omega)
            (by rw [List.getElem?_cons_succ]; exact hq))
      simp only [walk_failed]
      rw [ih]
      omega

theorem walk_failed_length (bs : List Block) (i c : Nat) :
    (walk_failed bs i c).1.length = bs.length := by
  have := congrArg List.length (walk_failed_region bs i c)
  simpa using this

/-- C15 as stated fails at a counter that the walk brings to 5: on the pool of
`ngx_create_pool(96)` after eleven calls `ngx_palloc(32)`, the head block has `failed =
4` and `current` is the head block; `ngx_palloc_block` then passes the head block and
increments its counter to 5, which exceeds 4, yet `current` stays the head block. -/
theorem ngx_palloc_block_keeps_current_at_five :
    ngx_create_pool 96 { oracle := [4096, 8192, 12288, 16384, 20480, 24576, 28672],
                         live := [], trace := [] } = (some small_pool, small_sys) ∧
    run (List.replicate 11 (Op.palloc 32)) (small_pool, small_sys) =
      (six_blocks_pool, six_blocks_sys) ∧
    (ngx_palloc_block 32 six_blocks_pool six_blocks_sys).2.1.blocks.map Block.failed =
      [5, 4, 3, 2, 1, 0, 0] ∧
    six_blocks_pool.current = 0 ∧
    (ngx_palloc_block 32 six_blocks_pool six_blocks_sys).2.1.current = 0 := by
  refine ⟨by decide, by decide, by decide, by decide, by decide⟩

/-- C15, amended: when `ngx_palloc_block` runs with a successful `malloc`, the chain
grows by one block; every block from `current` onward that has a successor gets its
`failed` counter incremented by one (as a `u_int`), and no other field of any old
block changes: the blocks before `current` and the tail block keep their counter;
`current` becomes the successor of the last passed block whose counter before the
increment exceeds 4, and stays as it is when no passed block has such a counter. -/
theorem ngx_palloc_block_walk (size : Nat) (s : Pool) (y : Sys)
    (hm : (y.malloc (pool_psize s)).1 ≠ 0) :
    (ngx_palloc_block size s y).2.1.blocks.length = s.blocks.length + 1 ∧
    (∀ i p, s.blocks[i]? = some p →
      (ngx_palloc_block size s y).2.1.blocks[i]? =
        some (if s.current ≤ i ∧ i + 1 < s.blocks.length then
          { p with failed := (p.failed + 1) % UINT } else p)) ∧
    ((∀ i p, s.current ≤ i → i + 1 < s.blocks.length → s.blocks[i]? = some p →
        p.failed ≤ 4) →
      (ngx_palloc_block size s y).2.1.current = s.current) ∧
    (∀ i p, s.current ≤ i → i + 1 < s.blocks.length → s.blocks[i]? = some p → 4 < p.failed →
      (∀ j q, i < j → j + 1 < s.blocks.length → s.blocks[j]? = some q → q.failed ≤ 4) →
      (ngx_palloc_block size s y).2.1.current = i + 1) := by
  have hlen := walk_failed_length (s.blocks.drop s.current) s.current s.current
  have hdl : (s.blocks.drop s.current).length = s.blocks.length - s.current :=
    List.length_drop _ _
  unfold ngx_palloc_block
  simp only [if_neg hm]
  refine ⟨?_, ?_, ?_, ?_⟩
  · simp only [List.length_append, List.length_take, hlen, hdl, List.length_singleton]
    omega
  · intro i p hp
    have hi : i < s.blocks.length := (List.getElem?_eq_some.1 hp).1
    rw [List.append_assoc]
    by_cases hc : s.current ≤ i
    · rw [List.getElem?_append_right (by rw [List.length_take]; omega)]
      have htl : (s.blocks.take s.current).length = s.current := by
        rw [List.length_take]
        omega
      rw [htl, List.getElem?_append_left (by rw [hlen, hdl]; omega)]
      have hd : (s.blocks.drop s.current)[i - s.current]? = some p := by
        rw [List.getElem?_drop]
        have : s.current + (i - s.current) = i := by omega
        rw [this]
        exact hp
      rw [walk_failed_getElem _ _ _ _ p hd, hdl]
      congr 1
      by_cases h2 : i + 1 < s.blocks.length
      · rw [if_pos (by omega), if_pos ⟨hc, h2⟩]
      · rw [if_neg (by omega), if_neg (fun h => h2 h.2)]
    · rw [List.getElem?_append_left (by rw [List.length_take]; omega),
        List.getElem?_take_of_lt (by omega), hp, if_neg (fun h => hc h.1)]
  · intro hall
    apply walk_failed_current_kept
    intro k p hk hp
    rw [List.getElem?_drop] at hp
    rw [hdl] at hk
    exact hall (s.current + k) p (by omega) (by omega) hp
  · intro i p hc hi hp hf hlater
    have hd : (s.blocks.drop s.current)[i - s.current]? = some p := by
      rw [List.getElem?_drop]
      have : s.current + (i - s.current) = i := by omega
      rw [this]
      exact hp
    rw [walk_failed_current_moved _ _ _ _ p hd (by rw [hdl]; omega) hf]
    · omega
    · intro j q hj hj2 hq
      rw [List.getElem?_drop] at hq
      rw [hdl] at hj2
      exact hlater (s.current + j) q (by omega) (by omega) hq

/-- C15, amended, on the pool of `ngx_create_pool(96)` after thirteen calls
`ngx_palloc(32)`: the head block is passed with `failed = 5`, no later block has a
counter above 4, so `current` becomes the second block, and the counter of the head
block becomes 6. -/
theorem ngx_palloc_block_walk_witness :
    (seven_blocks_sys.malloc (pool_psize seven_blocks_pool)).1 ≠ 0 ∧
    (ngx_palloc_block 32 seven_blocks_pool seven_blocks_sys).2.1.blocks.length = 8 ∧
    (ngx_palloc_block 32 seven_blocks_pool seven_blocks_sys).2.1.blocks[0]? =
      some { base := 4096, last := 4192, end_ := 4192, failed := 6 } ∧
    (ngx_palloc_block 32 seven_blocks_pool seven_blocks_sys).2.1.current = 1 := by
  have h := ngx_palloc_block_walk 32 seven_blocks_pool seven_blocks_sys (by decide)
  refine ⟨by decide, h.1, ?_, ?_⟩
  · rw [h.2.1 0 { base := 4096, last := 4192, end_ := 4192, failed := 5 } (by decide)]
    decide
  · refine h.2.2.2 0 { base := 4096, last := 4192, end_ := 4192, failed := 5 }
      (by decide) (by decide) (by decide) (by decide) ?_
    intro j q hj hj2 hq
    have hj3 : j < 6 := by
      have : seven_blocks_pool.blocks.length = 7 := by decide
      omega
    interval_cases j <;> simp [seven_blocks_pool] at hq <;> subst hq <;> decide

/-! ## C20: small allocations that overlap -/

/-- C20, at the failing input: `ngx_create_pool(100)` at 4096, with `malloc` placing the
next block at 4208, and no reset.  `ngx_pnalloc(36)` fills the head block, a second
`ngx_pnalloc(36)` gets the new block 4208 and returns 4240; `ngx_palloc(8)` is then
served from the head block beyond its end (4200), the next `ngx_palloc(8)` returns 4208,
the first byte of the header of the second block, and `ngx_palloc(32)` returns 4216,
whose range `[4216, 4248)` overlaps the range `[4240, 4276)` returned before. -/
theorem small_allocations_overlap_after_overrun :
    ngx_create_pool 100 { oracle := [4096, 4208], live := [], trace := [] } =
      (some odd_pool, odd_sys) ∧
    (ngx_pnalloc 36 (run [Op.pnalloc 36] (odd_pool, odd_sys)).1
      (run [Op.pnalloc 36] (odd_pool, odd_sys)).2).1 = 4240 ∧
    (run [Op.pnalloc 36, Op.pnalloc 36, Op.palloc 8] (odd_pool, odd_sys)).1.blocks =
      [{ base := 4096, last := 4208, end_ := 4196, failed := 0 },
       { base := 4208, last := 4276, end_ := 4308, failed := 0 }] ∧
    (ngx_palloc 8 (run [Op.pnalloc 36, Op.pnalloc 36, Op.palloc 8] (odd_pool, odd_sys)).1
      (run [Op.pnalloc 36, Op.pnalloc 36, Op.palloc 8] (odd_pool, odd_sys)).2).1 = 4208 ∧
    ranges_overlap 4208 8 4208 SIZEOF_POOL_DATA ∧
    (ngx_palloc 32
      (run [Op.pnalloc 36, Op.pnalloc 36, Op.palloc 8, Op.palloc 8] (odd_pool, odd_sys)).1
      (run [Op.pnalloc 36, Op.pnalloc 36, Op.palloc 8, Op.palloc 8] (odd_pool, odd_sys)).2).1 =
      4216 ∧
    ranges_overlap 4216 32 4240 36 := by
  refine ⟨by decide, by decide, by decide, by decide, ?_, by decide, ?_⟩
  · unfold ranges_overlap
    decide
  · unfold ranges_overlap
    decide

end NgxPool
